import Mathlib

/-!
# a1fs: a shallow embedding of the driver and the formatter

The definitions below follow `src/a1fs.h`, `src/a1fs.c`, `src/fs_ctx.c` and
`src/mkfs.c` function by function and keep their names.

Conventions of the embedding.

* The mapped image is seen through the four views that `fs_ctx_init` derives
  from the superblock: the inode bitmap and the data bitmap (arrays of bytes),
  the inode table (an array of inode records) and the data region (an array of
  bytes that starts at `fs->first_data_blk`).  Every view is indexed by an
  integer, so that an index the C code computes below zero or past the end of
  the view still denotes a cell: it is a cell of the same view, the model does
  not overlay it with the neighbouring region of the image.
* A pointer into the data region is the integer byte offset from
  `fs->first_data_blk`; a negative pointer lies in the metadata blocks that
  precede the data region in the image.
* `int` values are integers; every conversion the C code performs between
  `int`, `uint32_t`, `uint64_t`, `size_t` and `off_t` is written out with
  `toInt32`, `toUInt32`, `toUInt64`.  Signed arithmetic is exact (it is
  undefined in C when it overflows).  `/` and `%` on `int` are `Int.tdiv` and
  `Int.tmod` (rounding towards zero).
* An inode pointer `a1fs_inode *` is the index of the inode in the inode table.
* `clock_gettime` is an argument `now` of the operation that calls it.
* An operation returns `none` where the C code has no defined result: it
  indexes the inode table with a negative number, reads an uninitialised
  pointer, calls `memcpy` with a negative length, fails an `assert`, or its
  loop never exits (`extend_file_isSome`, `shrink_file_loop_diverges`).
-/

namespace A1FS

/-! ## Constants (`a1fs.h`, `errno.h`, `sys/stat.h`) -/

abbrev A1FS_BLOCK_SIZE : Int := 4096
abbrev A1FS_MAGIC : Int := 0xC5C369A1C5C369A1
abbrev A1FS_NAME_MAX : Nat := 252
abbrev A1FS_PATH_MAX : Nat := 4096
abbrev A1FS_EXT_DENTRIES_MAX : Int := 16
abbrev A1FS_EXTS_MAX : Int := 512
/-- The size of `a1fs_dentry`, fixed by the `static_assert` of `a1fs.h`. -/
abbrev sizeof_a1fs_dentry : Int := 256
/-- The size of `a1fs_inode` on x86-64: 58 bytes of fields, aligned to 8. -/
abbrev sizeof_a1fs_inode : Int := 64
/-- The size of `a1fs_extent`: two `uint32_t`. -/
abbrev sizeof_a1fs_extent : Int := 8

abbrev ENOENT : Int := 2
abbrev ENOMEM : Int := 12
abbrev ENOTDIR : Int := 20
abbrev ENOSPC : Int := 28
abbrev ENAMETOOLONG : Int := 36
abbrev ENOTEMPTY : Int := 39

abbrev S_IFMT : Nat := 0o170000
abbrev S_IFDIR : Nat := 0o040000
abbrev S_IFREG : Nat := 0o100000

/-- The macro `S_ISDIR` of `sys/stat.h`. -/
def S_ISDIR (mode : Nat) : Bool := (mode &&& S_IFMT) == S_IFDIR

/-- The macro `S_ISREG` of `sys/stat.h`. -/
def S_ISREG (mode : Nat) : Bool := (mode &&& S_IFMT) == S_IFREG

/-! ## Machine integers -/

/-- Conversion to `int` (32-bit two's complement). -/
def toInt32 (x : Int) : Int := (x + 2147483648) % 4294967296 - 2147483648

/-- Conversion to `uint32_t`. -/
def toUInt32 (x : Int) : Int := x % 4294967296

/-- Conversion to `uint64_t` (also `size_t`). -/
def toUInt64 (x : Int) : Int := x % 18446744073709551616

/-- Conversion to `int64_t` (also `off_t`, `blkcnt_t`). -/
def toInt64 (x : Int) : Int :=
  (x + 9223372036854775808) % 18446744073709551616 - 9223372036854775808

/-! ## On-disk records (`a1fs.h`) -/

structure timespec where
  tv_sec : Int
  tv_nsec : Int
deriving DecidableEq

structure a1fs_superblock where
  magic : Int
  size : Int
  inodes_count : Int
  blocks_count : Int
  data_blocks_count : Int
  free_inodes_count : Int
  free_data_blocks_count : Int
  inode_bitmap_blk : Int
  data_bitmap_blk : Int
  inode_table_blk : Int
  first_data_blk : Int
  inode_size : Int
  used_dirs_count : Int
deriving DecidableEq

structure a1fs_extent where
  start : Int
  count : Int
deriving DecidableEq

structure a1fs_inode where
  mode : Nat
  links : Int
  size : Int
  mtime : timespec
  index : Int
  used_blocks_count : Int
  extents_blk : Int
  extents_count : Int
deriving DecidableEq

/-- The runtime context of `fs_ctx.h`: the superblock and the four views. -/
structure fs_ctx where
  sb : a1fs_superblock
  inode_bitmap : Int → Nat
  data_bitmap : Int → Nat
  inode_table : Int → a1fs_inode
  data : Int → Nat

/-! ## Memory helpers (`string.h`) -/

/-- The effect of `memset(p, 0, n)` on an array of bytes. -/
def memset0 (m : Int → Nat) (p n : Int) : Int → Nat :=
  fun a => if p ≤ a ∧ a < p + n then 0 else m a

/-- The effect of `memcpy(p, buf, buf.length)`. -/
def memcpy (m : Int → Nat) (p : Int) (buf : List Nat) : Int → Nat :=
  fun a => if p ≤ a ∧ a < p + buf.length then buf.getD (a - p).toNat 0 else m a

/-- The `n` bytes that start at `p`. -/
def load_bytes (m : Int → Nat) (p : Int) (n : Nat) : List Nat :=
  (List.range n).map (fun i => m (p + i))

/-- A little-endian `uint32_t` at `p`. -/
def load_u32 (m : Int → Nat) (p : Int) : Int :=
  ((m p % 256 + 256 * (m (p + 1) % 256) + 65536 * (m (p + 2) % 256)
    + 16777216 * (m (p + 3) % 256) : Nat) : Int)

/-- Store of a little-endian `uint32_t` at `p`; `v` is converted first. -/
def store_u32 (m : Int → Nat) (p : Int) (v : Int) : Int → Nat :=
  fun a =>
    if a = p then ((toUInt32 v) % 256).toNat
    else if a = p + 1 then ((toUInt32 v) / 256 % 256).toNat
    else if a = p + 2 then ((toUInt32 v) / 65536 % 256).toNat
    else if a = p + 3 then ((toUInt32 v) / 16777216 % 256).toNat
    else m a

/-- The effect of `strncpy(p, s, n)`: the first `n` bytes of `s`, then zeros up
to `n` bytes. `s` is the string without its terminator. -/
def strncpy (m : Int → Nat) (p : Int) (s : List Nat) (n : Nat) : Int → Nat :=
  memcpy m p (s.take n ++ List.replicate (n - s.length) 0)

/-- The test `strcmp(p, s) == 0` for the string at `p` in memory: the bytes of
`s` and then a terminator. -/
def strcmp_eq (m : Int → Nat) : Int → List Nat → Bool
  | p, [] => m p == 0
  | p, c :: cs => m p == c && strcmp_eq m (p + 1) cs

/-! ## Helper functions of `a1fs.c`: views -/

def get_ino (fs : fs_ctx) (ino_no : Int) : a1fs_inode := fs.inode_table ino_no

/-- Assignment through an inode pointer. -/
def set_ino (fs : fs_ctx) (ino_no : Int) (ino : a1fs_inode) : fs_ctx :=
  { fs with inode_table := fun k => if k = ino_no then ino else fs.inode_table k }

/-- The pointer `get_db(fs, db_no)`. -/
def get_db (db_no : Int) : Int := A1FS_BLOCK_SIZE * db_no

/-- The pointer `get_exts_blk(fs, ino)`. -/
def get_exts_blk (ino : a1fs_inode) : Int := A1FS_BLOCK_SIZE * ino.extents_blk

/-- The extent `exts_blk[i]` of an inode. -/
def load_extent (fs : fs_ctx) (ino : a1fs_inode) (i : Int) : a1fs_extent :=
  { start := load_u32 fs.data (get_exts_blk ino + sizeof_a1fs_extent * i)
    count := load_u32 fs.data (get_exts_blk ino + sizeof_a1fs_extent * i + 4) }

/-! ## Bitmaps -/

/-- The byte `(unsigned char)(1 << (7 - j))`. -/
def bit_mask (j : Int) : Nat := (1 <<< (7 - j).toNat) % 256

/-- The number of bytes `groupsOfBits` that cover `count` bits. -/
def groupsOfBits (count : Int) : Int :=
  if count.tmod 8 = 0 then count.tdiv 8 else count.tdiv 8 + 1

/-- The two nested loops of `allocate_bit`, as one loop over `index`:
`i = index / 8` and `j = index % 8`. -/
def allocate_bit_scan (bitmap : Int → Nat) : Nat → Int → Int × (Int → Nat)
  | 0, _ => (-ENOSPC, bitmap)
  | n + 1, index =>
    let i := index / 8
    let mask := bit_mask (index % 8)
    if bitmap i &&& mask = 0 then
      (index, fun k => if k = i then bitmap i ||| mask else bitmap k)
    else allocate_bit_scan bitmap n (index + 1)

def allocate_bit (bitmap : Int → Nat) (count : Int) : Int × (Int → Nat) :=
  allocate_bit_scan bitmap (groupsOfBits count * 8).toNat 0

def allocate_bit_at_index (bitmap : Int → Nat) (index : Int) : Int → Nat :=
  let groupOfBits := index.tdiv 8
  let mask := bit_mask (index.tmod 8)
  fun k => if k = groupOfBits then bitmap groupOfBits ||| mask else bitmap k

def allocate_contiguous_bits_at_index (bitmap : Int → Nat) (index num_of_blks : Int) :
    Int → Nat :=
  (List.range num_of_blks.toNat).foldl
    (fun bm i => allocate_bit_at_index bm (index + i)) bitmap

/-- The byte is and-ed with `~(1 << (7 - bitInGroup))`, an `int`. -/
def deallocate_bit_at_index (bitmap : Int → Nat) (index : Int) : Int → Nat :=
  let groupOfBits := index.tdiv 8
  let mask := 4294967295 ^^^ (1 <<< (7 - index.tmod 8).toNat)
  fun k => if k = groupOfBits then (bitmap groupOfBits &&& mask) % 256 else bitmap k

def check_if_contiguous_dbs_are_free (fs : fs_ctx) (index num_of_blks : Int) : Bool :=
  (List.range num_of_blks.toNat).all
    (fun k => fs.data_bitmap ((index + k).tdiv 8) &&& bit_mask ((index + k).tmod 8) == 0)

/-- The integers `lo, lo + 1, ..., hi - 1`. -/
def int_range (lo hi : Int) : List Int :=
  (List.range (hi - lo).toNat).map (fun k => lo + k)

/-- The body shared by the two searches of
`find_contiguous_dbs_start_from_index`: the positions `(i, j)` are visited in
order, `index` counts them. -/
def find_scan (fs : fs_ctx) (num_of_blks : Int) : List (Int × Int) → Int → Option Int
  | [], _ => none
  | (i, j) :: rest, index =>
    if fs.data_bitmap i &&& bit_mask j = 0
        ∧ check_if_contiguous_dbs_are_free fs index num_of_blks = true then
      some index
    else find_scan fs num_of_blks rest (index + 1)

def find_contiguous_dbs_start_from_index (fs : fs_ctx) (startingIndex num_of_blks : Int) :
    Int :=
  if toInt32 fs.sb.free_data_blocks_count < num_of_blks then -ENOSPC
  else
    let total_dbs := toInt32 fs.sb.data_blocks_count
    let groups := groupsOfBits total_dbs
    let startingGroup := startingIndex.tdiv 8
    let first := (int_range startingGroup groups).flatMap (fun i =>
      (int_range (if i ≠ startingGroup then 0 else startingIndex.tmod 8) 8).map
        (fun j => (i, j)))
    match find_scan fs num_of_blks first startingIndex with
    | some r => r
    | none =>
      let second := (int_range 0 (startingGroup + 1)).flatMap (fun i =>
        (int_range 0 (if i = startingGroup then startingIndex.tmod 8 else 8)).map
          (fun j => (i, j)))
      match find_scan fs num_of_blks second 0 with
      | some r => r
      | none => -1

/-! ## Inodes -/

def allocate_ino (fs : fs_ctx) (mode : Nat) (links : Int) (now : timespec) : Int × fs_ctx :=
  if toInt32 fs.sb.free_inodes_count < 1 then (-ENOSPC, fs)
  else
    let r := allocate_bit fs.inode_bitmap (toInt32 fs.sb.inodes_count)
    let new_ino_no := r.1
    let fs := { fs with inode_bitmap := r.2 }
    if new_ino_no < 0 then (new_ino_no, fs)
    else
      let fs := set_ino fs new_ino_no
        { mode := mode, links := toUInt32 links, size := 0, mtime := now,
          index := toUInt32 new_ino_no, used_blocks_count := 0, extents_blk := -1,
          extents_count := 0 }
      (new_ino_no, { fs with sb := { fs.sb with
        free_inodes_count := toUInt32 (fs.sb.free_inodes_count - 1) } })

def deallocate_ino_at_index (fs : fs_ctx) (index : Int) : fs_ctx :=
  { fs with
    inode_bitmap := deallocate_bit_at_index fs.inode_bitmap index
    sb := { fs.sb with free_inodes_count := toUInt32 (fs.sb.free_inodes_count + 1) } }

/-! ## Data blocks -/

/-- The loop of `memset` calls over the blocks `db_no, ..., db_no + num_of_blks - 1`
clears the one range of `num_of_blks` blocks. -/
def initialize_dbs_at_index_for_ino (fs : fs_ctx) (ino_no db_no num_of_blks : Int) : fs_ctx :=
  let ino := get_ino fs ino_no
  let fs := { fs with
    data_bitmap := allocate_contiguous_bits_at_index fs.data_bitmap db_no num_of_blks }
  let fs := set_ino fs ino_no
    { ino with used_blocks_count := toUInt32 (ino.used_blocks_count + num_of_blks) }
  let fs := { fs with sb := { fs.sb with
    free_data_blocks_count := toUInt32 (fs.sb.free_data_blocks_count - num_of_blks) } }
  { fs with data := memset0 fs.data (get_db db_no) (A1FS_BLOCK_SIZE * num_of_blks) }

def get_last_data_blk_no (fs : fs_ctx) (ino : a1fs_inode) : Int :=
  if ino.extents_count = 0 then ino.extents_blk
  else
    let last_ext := load_extent fs ino (toUInt32 (ino.extents_count - 1))
    toInt32 (last_ext.start + (last_ext.count - 1))

def get_size_in_last_blk (ino : a1fs_inode) : Int :=
  if ino.size = 0 then 0
  else if ino.size % A1FS_BLOCK_SIZE = 0 then A1FS_BLOCK_SIZE
  else ino.size % A1FS_BLOCK_SIZE

def deallocate_db_for_ino (fs : fs_ctx) (ino_no db_no : Int) : fs_ctx :=
  let ino := get_ino fs ino_no
  let fs := { fs with data_bitmap := deallocate_bit_at_index fs.data_bitmap db_no }
  let fs := set_ino fs ino_no
    { ino with used_blocks_count := toUInt32 (ino.used_blocks_count - 1) }
  { fs with sb := { fs.sb with
    free_data_blocks_count := toUInt32 (fs.sb.free_data_blocks_count + 1) } }

def get_ptr_to_end_of_file (fs : fs_ctx) (file_ino : a1fs_inode) : Int :=
  get_db (get_last_data_blk_no fs file_ino) + file_ino.size % A1FS_BLOCK_SIZE

/-- The data blocks `ext.start + j` that the loops
`for i < extents_count`, `for j < ext.count` visit, in order, as the `int`
argument that `get_db` receives. -/
def ino_blocks (fs : fs_ctx) (ino : a1fs_inode) : List Int :=
  (int_range 0 (toInt32 ino.extents_count)).flatMap (fun i =>
    let ext := load_extent fs ino i
    (int_range 0 (toInt32 ext.count)).map (fun j => toInt32 (ext.start + j)))

/-- The out-parameter `*result`; `none` when no block is the `num_of_blks`-th
one and the pointer is left uninitialised. -/
def traverse_exts_to_get_byte_ptr (fs : fs_ctx) (parent_ino : a1fs_inode)
    (num_of_blks byte_index : Int) : Option Int :=
  ((ino_blocks fs parent_ino).foldl
    (fun (acc : Int × Option Int) b =>
      let blks_counter := acc.1 + 1
      if blks_counter = num_of_blks then
        (blks_counter,
          some (if byte_index.tmod A1FS_BLOCK_SIZE = 0 then get_db b + A1FS_BLOCK_SIZE
                else get_db b + byte_index))
      else (blks_counter, acc.2))
    (0, none)).2

def get_ptr_to_byte_in_file (fs : fs_ctx) (file_ino : a1fs_inode) (byte_index : Int) :
    Option Int :=
  if byte_index = 0 then
    some (get_db (toInt32 (load_extent fs file_ino 0).start))
  else
    let db_number_in_file := byte_index.tdiv A1FS_BLOCK_SIZE
      + (if byte_index.tmod A1FS_BLOCK_SIZE ≠ 0 then 1 else 0)
    traverse_exts_to_get_byte_ptr fs file_ino db_number_in_file byte_index

/-! ## Extents -/

def initialize_ext_blk_for_ino (fs : fs_ctx) (ino_no : Int) : Int × fs_ctx :=
  if toInt32 fs.sb.free_data_blocks_count < 1 then (-ENOSPC, fs)
  else
    let r := allocate_bit fs.data_bitmap (toInt32 fs.sb.data_blocks_count)
    let ino := get_ino fs ino_no
    let ino := { ino with
      extents_blk := toInt32 r.1
      used_blocks_count := toUInt32 (ino.used_blocks_count + 1) }
    let fs := set_ino { fs with data_bitmap := r.2 } ino_no ino
    let fs := { fs with sb := { fs.sb with
      free_data_blocks_count := toUInt32 (fs.sb.free_data_blocks_count - 1) } }
    (0, { fs with data := memset0 fs.data (get_exts_blk ino) A1FS_BLOCK_SIZE })

def add_to_ext_blk_for_ino (fs : fs_ctx) (ino_no data_blk_no num_of_blks : Int) : fs_ctx :=
  let ino := get_ino fs ino_no
  let new_ext := get_exts_blk ino + sizeof_a1fs_extent * ino.extents_count
  let data := store_u32 (store_u32 fs.data new_ext data_blk_no) (new_ext + 4) num_of_blks
  let fs := { fs with data := data }
  set_ino fs ino_no { ino with extents_count := toUInt32 (ino.extents_count + 1) }

def shrink_ext_for_ino (fs : fs_ctx) (ino_no : Int) : fs_ctx :=
  let ino := get_ino fs ino_no
  let last := toUInt32 (ino.extents_count - 1)
  let last_ext := load_extent fs ino last
  let fs :=
    if last_ext.count = 1 then
      set_ino fs ino_no { ino with extents_count := toUInt32 (ino.extents_count - 1) }
    else
      let count_ptr := get_exts_blk ino + sizeof_a1fs_extent * last + 4
      { fs with data := store_u32 fs.data count_ptr (last_ext.count - 1) }
  if (get_ino fs ino_no).extents_count = 0 then
    let fs := deallocate_db_for_ino fs ino_no (get_ino fs ino_no).extents_blk
    set_ino fs ino_no { (get_ino fs ino_no) with extents_blk := -1 }
  else fs

/-! ## Directory entries -/

/-- The string at `p`, without its terminator, at most `n` bytes. -/
def load_cstr (m : Int → Nat) : Int → Nat → List Nat
  | _, 0 => []
  | p, n + 1 => if m p = 0 then [] else m p :: load_cstr m (p + 1) n

def add_to_dentries_blk_for_ino (fs : fs_ctx) (parent_ino_no dentries_blk_no dentry_ino_no : Int)
    (dentry_name : List Nat) : fs_ctx :=
  let parent_ino := get_ino fs parent_ino_no
  let new_entry := get_db dentries_blk_no
    + sizeof_a1fs_dentry * (parent_ino.size / sizeof_a1fs_dentry)
  let data := store_u32 fs.data new_entry dentry_ino_no
  let data := strncpy data (new_entry + 4) dentry_name A1FS_NAME_MAX
  set_ino { fs with data := data } parent_ino_no
    { parent_ino with size := toUInt64 (parent_ino.size + sizeof_a1fs_dentry) }

/-- The pointer to the last dentry of a directory. -/
def get_last_dentry_for_ino (fs : fs_ctx) (parent_ino : a1fs_inode) : Int :=
  let last_entries_blk := get_db (get_last_data_blk_no fs parent_ino)
  let num_of_entries_in_last_blk :=
    toInt32 (get_size_in_last_blk parent_ino / sizeof_a1fs_dentry)
  last_entries_blk + sizeof_a1fs_dentry * (num_of_entries_in_last_blk - 1)

/-! ## Files: extend and shrink -/

/-- The body of the `while` loop of `extend_file`: either the value that the
function returns from inside the loop, or the state and the value of
`additional_bytes` after the iteration. -/
def extend_file_step (fs : fs_ctx) (ino_no additional_bytes : Int) : Except Int (fs_ctx × Int) :=
  let file_ino := get_ino fs ino_no
  if file_ino.size % A1FS_BLOCK_SIZE = 0 then
    let num_of_blks_to_allocate :=
      if additional_bytes.tmod A1FS_BLOCK_SIZE = 0
      then additional_bytes.tdiv A1FS_BLOCK_SIZE
      else additional_bytes.tdiv A1FS_BLOCK_SIZE + 1
    let last_db_no := get_last_data_blk_no fs file_ino
    let new_db_no :=
      find_contiguous_dbs_start_from_index fs (last_db_no + 1) num_of_blks_to_allocate
    if new_db_no = -ENOSPC then .error (-ENOSPC)
    else
      let retry : Bool := new_db_no = -1
      let num_of_blks_to_allocate := if retry then 1 else num_of_blks_to_allocate
      let new_db_no :=
        if retry then find_contiguous_dbs_start_from_index fs (last_db_no + 1) 1
        else new_db_no
      if A1FS_EXTS_MAX < toInt32 (file_ino.extents_count + num_of_blks_to_allocate) then
        .error (-ENOSPC)
      else
        let fs := initialize_dbs_at_index_for_ino fs ino_no new_db_no num_of_blks_to_allocate
        let add_bytes :=
          if num_of_blks_to_allocate * A1FS_BLOCK_SIZE ≥ additional_bytes
          then additional_bytes
          else num_of_blks_to_allocate * A1FS_BLOCK_SIZE
        let fs := add_to_ext_blk_for_ino fs ino_no new_db_no num_of_blks_to_allocate
        let file_ino := get_ino fs ino_no
        let fs := set_ino fs ino_no
          { file_ino with size := toUInt64 (file_ino.size + add_bytes) }
        .ok (fs, additional_bytes - add_bytes)
  else
    let leftover_bytes_in_last_blk :=
      toInt32 (A1FS_BLOCK_SIZE - file_ino.size % A1FS_BLOCK_SIZE)
    let add_bytes :=
      if leftover_bytes_in_last_blk ≥ additional_bytes then additional_bytes
      else leftover_bytes_in_last_blk
    let fs := set_ino fs ino_no
      { file_ino with size := toUInt64 (file_ino.size + add_bytes) }
    .ok (fs, additional_bytes - add_bytes)

/-- The `while` loop of `extend_file`; `none` when the fuel runs out. The
result is the value returned from inside the loop (`none` when the loop exits
normally) and the state. -/
def extend_file_loop : Nat → fs_ctx → Int → Int → Option (Option Int × fs_ctx)
  | 0, _, _, _ => none
  | fuel + 1, fs, ino_no, additional_bytes =>
    if additional_bytes = 0 then some (none, fs)
    else
      match extend_file_step fs ino_no additional_bytes with
      | .error e => some (some e, fs)
      | .ok (fs, additional_bytes) => extend_file_loop fuel fs ino_no additional_bytes

/-- The function `extend_file`. Every iteration of its loop moves
`additional_bytes` towards zero by at least one, so `|additional_bytes| + 1`
iterations are enough fuel. -/
def extend_file (fs : fs_ctx) (ino_no additional_bytes : Int) (now : timespec) :
    Option (Int × fs_ctx) :=
  if additional_bytes = 0 then some (0, fs)
  else
    let r :=
      if (get_ino fs ino_no).extents_blk = -1 then initialize_ext_blk_for_ino fs ino_no
      else (0, fs)
    if r.1 < 0 then some (-ENOSPC, r.2)
    else
      match extend_file_loop (additional_bytes.natAbs + 1) r.2 ino_no additional_bytes with
      | none => none
      | some (some e, fs) => some (e, fs)
      | some (none, fs) =>
        some (0, set_ino fs ino_no { (get_ino fs ino_no) with mtime := now })

/-- The body of the `while` loop of `shrink_file`: the state and the value of
`unwanted_bytes` after the iteration. -/
def shrink_file_step (fs : fs_ctx) (ino_no unwanted_bytes : Int) : fs_ctx × Int :=
  let file_ino := get_ino fs ino_no
  let bytes_in_last_blk := get_size_in_last_blk file_ino
  let bytes_to_remove_in_last_blk :=
    if bytes_in_last_blk > unwanted_bytes then unwanted_bytes else bytes_in_last_blk
  let fs := set_ino fs ino_no
    { file_ino with size := toUInt64 (file_ino.size - bytes_to_remove_in_last_blk) }
  let unwanted_bytes := unwanted_bytes - bytes_to_remove_in_last_blk
  let fs :=
    if (get_ino fs ino_no).size % A1FS_BLOCK_SIZE = 0 then
      let fs := deallocate_db_for_ino fs ino_no
        (get_last_data_blk_no fs (get_ino fs ino_no))
      shrink_ext_for_ino fs ino_no
    else fs
  (fs, unwanted_bytes)

/-- The `while` loop of `shrink_file`; `none` when the fuel runs out. -/
def shrink_file_loop : Nat → fs_ctx → Int → Int → Option fs_ctx
  | 0, _, _, _ => none
  | fuel + 1, fs, ino_no, unwanted_bytes =>
    if unwanted_bytes = 0 then some fs
    else
      let r := shrink_file_step fs ino_no unwanted_bytes
      shrink_file_loop fuel r.1 ino_no r.2

/-- The function `shrink_file`. While the file has bytes every iteration
removes at least one; once the size is zero a positive `unwanted_bytes` never
changes again and the loop does not exit. `size + 2` iterations tell the two
cases apart, the result is `none` in the second. -/
def shrink_file (fs : fs_ctx) (ino_no unwanted_bytes : Int) (now : timespec) :
    Option (Int × fs_ctx) :=
  let file_ino := get_ino fs ino_no
  if file_ino.extents_blk = -1 ∨ file_ino.extents_count = 0 ∨ file_ino.size = 0 then
    some (-ENOSPC, fs)
  else
    match shrink_file_loop (file_ino.size.toNat + 2) fs ino_no unwanted_bytes with
    | none => none
    | some fs => some (0, set_ino fs ino_no { (get_ino fs ino_no) with mtime := now })

/-! ## Directory traversal -/

/-- The number of dentries read in the next block and the new value of
`dentries_total`. -/
def dentries_in_this_blk (dentries_total : Int) : Int × Int :=
  if dentries_total > A1FS_EXT_DENTRIES_MAX
  then (A1FS_EXT_DENTRIES_MAX, dentries_total - A1FS_EXT_DENTRIES_MAX)
  else (dentries_total, dentries_total)

/-- The loop over `k` of `traverse_exts_to_replace_dentry` in the block at
`entries_blk`: the first matching dentry is overwritten with the last dentry
of the directory, then the loop breaks. -/
def replace_dentry_in_blk (parent_ino_no entries_blk : Int) (dentry_name : List Nat) :
    Nat → Int → fs_ctx → fs_ctx
  | 0, _, fs => fs
  | n + 1, k, fs =>
    let entry := entries_blk + sizeof_a1fs_dentry * k
    if strcmp_eq fs.data (entry + 4) dentry_name then
      let last_entry := get_last_dentry_for_ino fs (get_ino fs parent_ino_no)
      let data := store_u32 fs.data entry (load_u32 fs.data last_entry)
      let data := strncpy data (entry + 4) (load_cstr data (last_entry + 4) A1FS_NAME_MAX)
        A1FS_NAME_MAX
      { fs with data := data }
    else replace_dentry_in_blk parent_ino_no entries_blk dentry_name n (k + 1) fs

/-- The loop over `j` of `traverse_exts_to_replace_dentry` for the extent `ext`. -/
def replace_dentry_in_ext (parent_ino_no : Int) (dentry_name : List Nat) (ext : a1fs_extent) :
    Nat → Int → fs_ctx × Int → fs_ctx × Int
  | 0, _, st => st
  | n + 1, j, (fs, dentries_total) =>
    let entries_blk := get_db (toInt32 (ext.start + j))
    let d := dentries_in_this_blk dentries_total
    let fs := replace_dentry_in_blk parent_ino_no entries_blk dentry_name d.1.toNat 0 fs
    replace_dentry_in_ext parent_ino_no dentry_name ext n (j + 1) (fs, d.2)

/-- The loop over `i` of `traverse_exts_to_replace_dentry`. -/
def replace_dentry_in_exts (parent_ino_no : Int) (dentry_name : List Nat) :
    Nat → Int → fs_ctx × Int → fs_ctx × Int
  | 0, _, st => st
  | n + 1, i, (fs, dentries_total) =>
    let ext := load_extent fs (get_ino fs parent_ino_no) i
    let st := replace_dentry_in_ext parent_ino_no dentry_name ext
      (toInt32 ext.count).toNat 0 (fs, dentries_total)
    replace_dentry_in_exts parent_ino_no dentry_name n (i + 1) st

def traverse_exts_to_replace_dentry (fs : fs_ctx) (parent_ino_no : Int)
    (dentry_name : List Nat) : fs_ctx :=
  let parent_ino := get_ino fs parent_ino_no
  if parent_ino.size = 0 then fs
  else
    let dentries_total := toInt32 (parent_ino.size / sizeof_a1fs_dentry)
    let fs := (replace_dentry_in_exts parent_ino_no dentry_name
      (toInt32 parent_ino.extents_count).toNat 0 (fs, dentries_total)).1
    let parent_ino := get_ino fs parent_ino_no
    set_ino fs parent_ino_no
      { parent_ino with size := toUInt64 (parent_ino.size - sizeof_a1fs_dentry) }

def traverse_exts_to_deallocate_dbs (fs : fs_ctx) (parent_ino_no : Int) : fs_ctx :=
  let parent_ino := get_ino fs parent_ino_no
  if parent_ino.extents_blk = -1 then fs
  else
    let fs := (ino_blocks fs parent_ino).foldl
      (fun fs b => deallocate_db_for_ino fs parent_ino_no b) fs
    deallocate_db_for_ino fs parent_ino_no (get_ino fs parent_ino_no).extents_blk

/-- The loop over `k` of `get_dentry_ino_no`: the `ino` field of the first
dentry of the block whose name is `dentry_name`. -/
def find_dentry_in_blk (data : Int → Nat) (entries_blk : Int) (dentry_name : List Nat) :
    Nat → Int → Option Int
  | 0, _ => none
  | n + 1, k =>
    let entry := entries_blk + sizeof_a1fs_dentry * k
    if strcmp_eq data (entry + 4) dentry_name then some (load_u32 data entry)
    else find_dentry_in_blk data entries_blk dentry_name n (k + 1)

/-- The loops over `i` and `j` of `get_dentry_ino_no`, over the blocks they visit. -/
def find_dentry_in_blks (data : Int → Nat) (dentry_name : List Nat) :
    List Int → Int → Option Int
  | [], _ => none
  | b :: bs, dentries_total =>
    let d := dentries_in_this_blk dentries_total
    match find_dentry_in_blk data (get_db b) dentry_name d.1.toNat 0 with
    | some ino => some ino
    | none => find_dentry_in_blks data dentry_name bs d.2

def get_dentry_ino_no (fs : fs_ctx) (parent_ino : a1fs_inode) (dentry_name : List Nat) : Int :=
  if parent_ino.extents_blk = -1 then -ENOENT
  else if !S_ISDIR parent_ino.mode then -ENOTDIR
  else
    let dentries_total := toInt32 (parent_ino.size / sizeof_a1fs_dentry)
    match find_dentry_in_blks fs.data dentry_name (ino_blocks fs parent_ino) dentries_total with
    | some ino => toInt32 ino
    | none => -ENOENT

/-! ## Paths -/

/-- The tokens that repeated calls of `strsep(&copy, "/")` return. -/
def strsep_all : List Nat → List (List Nat)
  | [] => [[]]
  | c :: cs =>
    if c = 47 then [] :: strsep_all cs
    else
      match strsep_all cs with
      | [] => [[c]]
      | t :: ts => (c :: t) :: ts

/-- The `while` loop of `path_lookup` over the tokens; the state is
`(parent_ino_no, child_ino_no)`. -/
def path_lookup_loop (fs : fs_ctx) : List (List Nat) → Int × Int → Int × Int
  | [], st => st
  | search_name :: rest, (parent_ino_no, child_ino_no) =>
    if search_name = [] then path_lookup_loop fs rest (parent_ino_no, child_ino_no)
    else
      let parent_ino_no := child_ino_no
      let child_ino_no := get_dentry_ino_no fs (get_ino fs parent_ino_no) search_name
      if child_ino_no < 0 then (parent_ino_no, child_ino_no)
      else path_lookup_loop fs rest (parent_ino_no, child_ino_no)

def path_lookup (fs : fs_ctx) (path : List Nat) (look_for_parent : Bool) : Int :=
  let r := path_lookup_loop fs (strsep_all (path.take A1FS_PATH_MAX)) (0, 0)
  if look_for_parent then r.1 else r.2

/-- The function `basename` of `libgen.h`. -/
def basename (path : List Nat) : List Nat :=
  if path = [] then [46]
  else
    let trimmed := (path.reverse.dropWhile (fun c => c == 47)).reverse
    if trimmed = [] then [47]
    else (trimmed.reverse.takeWhile (fun c => c != 47)).reverse

/-- The name that `path_lookup_for_last_dentry` leaves in `last_dentry_name`,
up to the terminator or the end of the array. -/
def path_lookup_for_last_dentry (path : List Nat) : List Nat :=
  (basename path).take A1FS_NAME_MAX

/-! ## The operations of `a1fs.c` -/

/-- The fields of `struct statvfs` that `a1fs_statfs` sets. -/
structure statvfs where
  f_bsize : Int
  f_frsize : Int
  f_blocks : Int
  f_bfree : Int
  f_bavail : Int
  f_files : Int
  f_ffree : Int
  f_favail : Int
  f_namemax : Int
deriving DecidableEq

/-- The fields of `struct stat` that `a1fs_getattr` sets. -/
structure stat where
  st_mode : Nat
  st_nlink : Int
  st_size : Int
  st_blocks : Int
  st_mtim : timespec
deriving DecidableEq

def a1fs_statfs (fs : fs_ctx) : Int × statvfs :=
  (0, { f_bsize := A1FS_BLOCK_SIZE, f_frsize := A1FS_BLOCK_SIZE,
        f_blocks := fs.sb.blocks_count,
        f_bfree := fs.sb.free_data_blocks_count,
        f_bavail := fs.sb.free_data_blocks_count,
        f_files := fs.sb.inodes_count,
        f_ffree := fs.sb.free_inodes_count,
        f_favail := fs.sb.free_inodes_count,
        f_namemax := A1FS_NAME_MAX })

def a1fs_getattr (fs : fs_ctx) (path : List Nat) : Int × stat :=
  let zero : stat :=
    { st_mode := 0, st_nlink := 0, st_size := 0, st_blocks := 0, st_mtim := ⟨0, 0⟩ }
  if path.length ≥ A1FS_PATH_MAX then (-ENAMETOOLONG, zero)
  else
    let ino_no := path_lookup fs path false
    if ino_no < 0 then (ino_no, zero)
    else
      let inode := get_ino fs ino_no
      (0, { st_mode := inode.mode, st_nlink := inode.links, st_size := toInt64 inode.size,
            st_blocks := toUInt32 (inode.used_blocks_count * A1FS_BLOCK_SIZE) / 512,
            st_mtim := inode.mtime })

/-- Step 3 to 5 of `a1fs_mkdir` and `a1fs_create`, which they share line by
line: the dentry `(ino_no, name)` is added to the parent directory. The result
is `none` when the step succeeds and the error otherwise. -/
def add_dentry_to_parent (fs : fs_ctx) (parent_ino_no ino_no : Int) (name : List Nat) :
    Option Int × fs_ctx :=
  let r :=
    if (get_ino fs parent_ino_no).extents_blk = -1
    then initialize_ext_blk_for_ino fs parent_ino_no
    else (0, fs)
  if r.1 < 0 then (some (-ENOSPC), r.2)
  else
    let fs := r.2
    let parent_ino := get_ino fs parent_ino_no
    let last_db_no := get_last_data_blk_no fs parent_ino
    if parent_ino.size % A1FS_BLOCK_SIZE = 0 then
      let new_db_no := find_contiguous_dbs_start_from_index fs (last_db_no + 1) 1
      if new_db_no = -ENOSPC then (some (-ENOSPC), fs)
      else
        let fs := initialize_dbs_at_index_for_ino fs parent_ino_no new_db_no 1
        let fs := add_to_dentries_blk_for_ino fs parent_ino_no new_db_no ino_no name
        (none, add_to_ext_blk_for_ino fs parent_ino_no new_db_no 1)
    else
      (none, add_to_dentries_blk_for_ino fs parent_ino_no last_db_no ino_no name)

def a1fs_mkdir (fs : fs_ctx) (path : List Nat) (mode : Nat) (now : timespec) : Int × fs_ctx :=
  let mode := mode ||| S_IFDIR
  let r := allocate_ino fs mode 2 now
  let dir_ino_no := r.1
  let fs := r.2
  if dir_ino_no < 0 then (dir_ino_no, fs)
  else
    let parent_ino_no := path_lookup fs path true
    let dir_name := path_lookup_for_last_dentry path
    match add_dentry_to_parent fs parent_ino_no dir_ino_no dir_name with
    | (some e, fs) => (e, fs)
    | (none, fs) =>
      let parent_ino := get_ino fs parent_ino_no
      let fs := set_ino fs parent_ino_no
        { parent_ino with links := toUInt32 (parent_ino.links + 1), mtime := now }
      (0, { fs with sb := { fs.sb with
        used_dirs_count := toUInt32 (fs.sb.used_dirs_count + 1) } })

/-- The function `a1fs_create`; `none` when `assert(S_ISREG(mode))` fails. -/
def a1fs_create (fs : fs_ctx) (path : List Nat) (mode : Nat) (now : timespec) :
    Option (Int × fs_ctx) :=
  if !S_ISREG mode then none
  else
    let r := allocate_ino fs mode 1 now
    let file_ino_no := r.1
    let fs := r.2
    if file_ino_no < 0 then some (file_ino_no, fs)
    else
      let parent_ino_no := path_lookup fs path true
      let dir_name := path_lookup_for_last_dentry path
      match add_dentry_to_parent fs parent_ino_no file_ino_no dir_name with
      | (some e, fs) => some (e, fs)
      | (none, fs) =>
        some (0, set_ino fs parent_ino_no { (get_ino fs parent_ino_no) with mtime := now })

/-- Step 3 of `a1fs_rmdir` and `a1fs_unlink`, which they share line by line:
the dentry `name` is removed from the parent directory. -/
def remove_dentry_from_parent (fs : fs_ctx) (parent_ino_no : Int) (name : List Nat) : fs_ctx :=
  if (get_ino fs parent_ino_no).size % A1FS_BLOCK_SIZE = sizeof_a1fs_dentry then
    let fs := traverse_exts_to_replace_dentry fs parent_ino_no name
    let fs := deallocate_db_for_ino fs parent_ino_no
      (get_last_data_blk_no fs (get_ino fs parent_ino_no))
    shrink_ext_for_ino fs parent_ino_no
  else
    traverse_exts_to_replace_dentry fs parent_ino_no name

/-- The function `a1fs_rmdir`; `none` when the assertion on the path fails or
the path does not resolve to an inode. -/
def a1fs_rmdir (fs : fs_ctx) (path : List Nat) (now : timespec) : Option (Int × fs_ctx) :=
  if path = [47] then none
  else
    let dir_ino_no := path_lookup fs path false
    if dir_ino_no < 0 then none
    else
      let parent_ino_no := path_lookup fs path true
      let dir_name := path_lookup_for_last_dentry path
      if (get_ino fs dir_ino_no).size ≠ 0 then some (-ENOTEMPTY, fs)
      else
        let fs := traverse_exts_to_deallocate_dbs fs dir_ino_no
        let fs := deallocate_ino_at_index fs dir_ino_no
        let fs := remove_dentry_from_parent fs parent_ino_no dir_name
        let parent_ino := get_ino fs parent_ino_no
        let fs := set_ino fs parent_ino_no
          { parent_ino with links := toUInt32 (parent_ino.links - 1), mtime := now }
        some (0, { fs with sb := { fs.sb with
          used_dirs_count := toUInt32 (fs.sb.used_dirs_count - 1) } })

/-- The function `a1fs_unlink`; `none` when the path does not resolve to an
inode. -/
def a1fs_unlink (fs : fs_ctx) (path : List Nat) (now : timespec) : Option (Int × fs_ctx) :=
  let file_ino_no := path_lookup fs path false
  if file_ino_no < 0 then none
  else
    let parent_ino_no := path_lookup fs path true
    let file_name := path_lookup_for_last_dentry path
    let fs := traverse_exts_to_deallocate_dbs fs file_ino_no
    let fs := deallocate_ino_at_index fs file_ino_no
    let fs := remove_dentry_from_parent fs parent_ino_no file_name
    some (0, set_ino fs parent_ino_no { (get_ino fs parent_ino_no) with mtime := now })

/-- The value of `UTIME_NOW`. -/
abbrev UTIME_NOW : Int := 1073741823

/-- The function `a1fs_utimens`; `times1` is `times[1]`. -/
def a1fs_utimens (fs : fs_ctx) (path : List Nat) (times1 : timespec) (now : timespec) :
    Option (Int × fs_ctx) :=
  let ino_no := path_lookup fs path false
  if ino_no < 0 then none
  else
    let inode := get_ino fs ino_no
    if times1.tv_nsec = UTIME_NOW then some (0, set_ino fs ino_no { inode with mtime := now })
    else some (0, set_ino fs ino_no { inode with mtime := times1 })

/-- The function `a1fs_truncate`; `size` is an `off_t`. -/
def a1fs_truncate (fs : fs_ctx) (path : List Nat) (size : Int) (now : timespec) :
    Option (Int × fs_ctx) :=
  let ino_no := path_lookup fs path false
  if ino_no < 0 then none
  else
    let file_ino := get_ino fs ino_no
    let additional_bytes := toInt32 (size - file_ino.size)
    if additional_bytes ≥ 0 then extend_file fs ino_no additional_bytes now
    else shrink_file fs ino_no (additional_bytes * (-1)) now

/-- The function `a1fs_read`: the return value and the bytes copied to `buf`.
`size` is a `size_t`, `offset` an `off_t`. -/
def a1fs_read (fs : fs_ctx) (path : List Nat) (size offset : Int) : Option (Int × List Nat) :=
  let ino_no := path_lookup fs path false
  if ino_no < 0 then none
  else
    let file_ino := get_ino fs ino_no
    if offset > toInt32 file_ino.size ∨ file_ino.size = 0 ∨ file_ino.extents_blk = -1
        ∨ file_ino.extents_count = 0 then some (0, [])
    else
      let ptr_to_eof := get_ptr_to_end_of_file fs file_ino
      match get_ptr_to_byte_in_file fs file_ino (toInt32 offset) with
      | none => none
      | some ptr_to_offset =>
        let readable_size := toInt32 (ptr_to_eof - ptr_to_offset)
        if readable_size > toInt32 size then
          some (toInt32 size, load_bytes fs.data ptr_to_offset size.toNat)
        else if readable_size < 0 then none
        else some (readable_size, load_bytes fs.data ptr_to_offset readable_size.toNat)

/-- The function `a1fs_write`; the `size` argument is the length of `buf`,
`offset` is an `off_t`. -/
def a1fs_write (fs : fs_ctx) (path : List Nat) (buf : List Nat) (offset : Int)
    (now : timespec) : Option (Int × fs_ctx) :=
  let ino_no := path_lookup fs path false
  if ino_no < 0 then none
  else
    let size : Int := buf.length
    let uninitialized_bytes := toInt32 (offset - (get_ino fs ino_no).size)
    match extend_file fs ino_no uninitialized_bytes now with
    | none => none
    | some (r, fs) =>
      if r < 0 then some (-ENOSPC, fs)
      else
        let ptr_to_eof_before_write := get_ptr_to_end_of_file fs (get_ino fs ino_no)
        match extend_file fs ino_no (toInt32 size) now with
        | none => none
        | some (r, fs) =>
          if r < 0 then some (-ENOSPC, fs)
          else
            let fs := { fs with data := memcpy fs.data ptr_to_eof_before_write buf }
            some (toInt32 size, set_ino fs ino_no { (get_ino fs ino_no) with mtime := now })

/-- The loop over `k` of `traverse_exts_to_fill_name` in the block at
`entries_blk`. The visitor `filler` takes the buffer and a name and returns its
`int` result and the buffer; the name it is given is the string in the `name`
array of the dentry, up to the terminator or the end of the array. The first
component of the result says whether the visitor rejected a name. -/
def fill_name_in_blk {β : Type} (data : Int → Nat) (filler : β → List Nat → Int × β)
    (entries_blk : Int) : Nat → Int → β → Bool × β
  | 0, _, buf => (false, buf)
  | n + 1, k, buf =>
    let entry := entries_blk + sizeof_a1fs_dentry * k
    let r := filler buf (load_cstr data (entry + 4) A1FS_NAME_MAX)
    if r.1 ≠ 0 then (true, r.2)
    else fill_name_in_blk data filler entries_blk n (k + 1) r.2

/-- The loops over `i` and `j` of `traverse_exts_to_fill_name`, over the blocks
they visit. -/
def fill_name_in_blks {β : Type} (data : Int → Nat) (filler : β → List Nat → Int × β) :
    List Int → Int → β → Int × β
  | [], _, buf => (0, buf)
  | b :: bs, dentries_total, buf =>
    let d := dentries_in_this_blk dentries_total
    let r := fill_name_in_blk data filler (get_db b) d.1.toNat 0 buf
    if r.1 then (-ENOMEM, r.2)
    else fill_name_in_blks data filler bs d.2 r.2

def traverse_exts_to_fill_name {β : Type} (fs : fs_ctx) (parent_ino : a1fs_inode) (buf : β)
    (filler : β → List Nat → Int × β) : Int × β :=
  if parent_ino.extents_blk = -1 then (0, buf)
  else
    let dentries_total := toInt32 (parent_ino.size / sizeof_a1fs_dentry)
    fill_name_in_blks fs.data filler (ino_blocks fs parent_ino) dentries_total buf

/-- The function `a1fs_readdir`; `none` when the path does not resolve to an
inode. -/
def a1fs_readdir {β : Type} (fs : fs_ctx) (path : List Nat) (buf : β)
    (filler : β → List Nat → Int × β) : Option (Int × β) :=
  let r1 := filler buf [46]
  if r1.1 ≠ 0 then some (-ENOMEM, r1.2)
  else
    let r2 := filler r1.2 [46, 46]
    if r2.1 ≠ 0 then some (-ENOMEM, r2.2)
    else
      let ino_no := path_lookup fs path false
      if ino_no < 0 then none
      else some (traverse_exts_to_fill_name fs (get_ino fs ino_no) r2.2 filler)

/-! ## The formatter (`mkfs.c`) and the mount check (`fs_ctx.c`) -/

structure mkfs_opts where
  n_inodes : Int
  help : Bool
  force : Bool
  zero : Bool

/-- The check of `fs_ctx_init` (and of `a1fs_is_present`). -/
def fs_ctx_init (image : fs_ctx) : Bool := image.sb.magic == A1FS_MAGIC

/-- The quotient rounded up, as the formatter writes it:
`a % b == 0 ? a / b : a / b + 1`. -/
def div_round_up (a b : Int) : Int := if a.tmod b = 0 then a.tdiv b else a.tdiv b + 1

/-- The function `mkfs`. The image is given, and returned, as the views that
the layout computed by this call puts on it. -/
def mkfs (image : fs_ctx) (size : Int) (opts : mkfs_opts) (now : timespec) : Bool × fs_ctx :=
  let sb := image.sb
  let sb := { sb with
    magic := A1FS_MAGIC
    size := toUInt64 size
    inodes_count := toUInt32 opts.n_inodes
    blocks_count := toUInt32 (div_round_up (toUInt64 size) A1FS_BLOCK_SIZE)
    inode_size := sizeof_a1fs_inode }
  let sb := { sb with
    free_inodes_count := toUInt32 (sb.inodes_count - 1)
    used_dirs_count := 1 }
  let inode_bitmap_blks_count := toInt32 (div_round_up sb.inodes_count (A1FS_BLOCK_SIZE * 8))
  let inode_table_blks_count :=
    toInt32 (div_round_up (toUInt64 (sb.inodes_count * sb.inode_size)) A1FS_BLOCK_SIZE)
  let remaining_blks_count :=
    toInt32 (sb.blocks_count - 1 - inode_bitmap_blks_count - inode_table_blks_count)
  if remaining_blks_count ≤ 1 then (false, { image with sb := sb })
  else
    let data_bitmap_blks_count := div_round_up remaining_blks_count (A1FS_BLOCK_SIZE * 8)
    let sb := { sb with
      free_data_blocks_count := toUInt32 (remaining_blks_count - data_bitmap_blks_count)
      inode_bitmap_blk := 1 }
    let sb := { sb with
      data_bitmap_blk := toUInt32 (sb.inode_bitmap_blk + inode_bitmap_blks_count) }
    let sb := { sb with
      inode_table_blk := toUInt32 (sb.data_bitmap_blk + data_bitmap_blks_count) }
    let sb := { sb with
      first_data_blk := toUInt32 (sb.inode_table_blk + inode_table_blks_count) }
    let sb := { sb with
      data_blocks_count := toUInt32 (sb.blocks_count - sb.first_data_blk) }
    if toUInt64 size ≤ toUInt64 (toUInt64 (1 + inode_bitmap_blks_count + data_bitmap_blks_count
        + inode_table_blks_count) * A1FS_BLOCK_SIZE) then
      (false, { image with sb := sb })
    else
      let inode_bitmap := memset0 image.inode_bitmap 0 (inode_bitmap_blks_count * A1FS_BLOCK_SIZE)
      let inode_bitmap : Int → Nat := fun k => if k = 0 then 128 else inode_bitmap k
      let data_bitmap := memset0 image.data_bitmap 0 (data_bitmap_blks_count * A1FS_BLOCK_SIZE)
      let zero_inode : a1fs_inode :=
        { mode := 0, links := 0, size := 0, mtime := ⟨0, 0⟩, index := 0,
          used_blocks_count := 0, extents_blk := 0, extents_count := 0 }
      let root : a1fs_inode :=
        { mode := S_IFDIR ||| 0o777, links := 2, size := 0, mtime := now, index := 0,
          used_blocks_count := 0, extents_blk := -1, extents_count := 0 }
      let inode_table : Int → a1fs_inode := fun k =>
        if k = 0 then root
        else if 0 ≤ k ∧ k * sizeof_a1fs_inode < inode_table_blks_count * A1FS_BLOCK_SIZE
        then zero_inode
        else image.inode_table k
      (true, { sb := sb, inode_bitmap := inode_bitmap, data_bitmap := data_bitmap,
               inode_table := inode_table, data := image.data })

/-! ## Notions used in the statements -/

/-- The quotient rounded up in the words of the specification, `ceil(a / b)`,
for comparison with `div_round_up`. -/
def ceil_div (a b : Int) : Int := (a + b - 1) / b

/-- Bit `k` of a bitmap is set: the block or inode `k` is in use. -/
def bit_is_set (bitmap : Int → Nat) (k : Int) : Bool :=
  bitmap (k / 8) &&& bit_mask (k % 8) != 0

/-- The inodes in which `path_lookup` looks a component up, in order; `c` is the
inode reached so far. -/
def lookup_dirs (fs : fs_ctx) : List (List Nat) → Int → List Int
  | [], _ => []
  | t :: ts, c =>
    if t = [] then lookup_dirs fs ts c
    else
      c :: (if get_dentry_ino_no fs (get_ino fs c) t < 0 then []
            else lookup_dirs fs ts (get_dentry_ino_no fs (get_ino fs c) t))

/-- The part of the state that the helpers working on the inode `par` leave
alone: the other inodes, the mode and link count of `par`, the inode bitmap and
every superblock field but `free_data_blocks_count`. -/
def same_outside (par : Int) (fs fs' : fs_ctx) : Prop :=
  (∀ k, k ≠ par → get_ino fs' k = get_ino fs k)
  ∧ (get_ino fs' par).links = (get_ino fs par).links
  ∧ (get_ino fs' par).mode = (get_ino fs par).mode
  ∧ fs'.inode_bitmap = fs.inode_bitmap
  ∧ fs'.sb = { fs.sb with free_data_blocks_count := fs'.sb.free_data_blocks_count }

/-- The number of dentries of a directory, `size / 256`. -/
def dentries_count (ino : a1fs_inode) : Nat := (ino.size / sizeof_a1fs_dentry).toNat

/-- The address of dentry `i` of a directory whose body is a dense array:
slot `i % 16` of the block `i / 16` of its extents. -/
def dentry_ptr (fs : fs_ctx) (ino : a1fs_inode) (i : Nat) : Int :=
  get_db ((ino_blocks fs ino).getD (i / 16) 0) + sizeof_a1fs_dentry * ((i % 16 : Nat) : Int)

/-- The name of dentry `i`: the string in its `name` array. -/
def dentry_name (fs : fs_ctx) (ino : a1fs_inode) (i : Nat) : List Nat :=
  load_cstr fs.data (dentry_ptr fs ino i + 4) A1FS_NAME_MAX

/-- The inode number of dentry `i`: its `ino` field. -/
def dentry_ino (fs : fs_ctx) (ino : a1fs_inode) (i : Nat) : Int :=
  load_u32 fs.data (dentry_ptr fs ino i)

/-- The body of a directory is a dense array of `size / 256` dentries: its
extents have the blocks that the dentries fill and no more, and a directory
with no extent block has no dentry. -/
def dense_dir (fs : fs_ctx) (ino : a1fs_inode) : Prop :=
  0 ≤ ino.size ∧ ino.size / sizeof_a1fs_dentry < 2147483648
  ∧ (ino_blocks fs ino).length = (dentries_count ino + 15) / 16
  ∧ (ino.extents_blk = -1 → dentries_count ino = 0)

/-- The calls of the visitor with the names of a list, in order: the first
rejection ends them with `-ENOMEM`, otherwise the result is 0. -/
def feed {β : Type} (filler : β → List Nat → Int × β) : List (List Nat) → β → Int × β
  | [], buf => (0, buf)
  | n :: ns, buf =>
    let r := filler buf n
    if r.1 ≠ 0 then (-ENOMEM, r.2) else feed filler ns r.2

/-- The addresses of the dentries that the loops over the blocks of a directory
visit, in order, for the value `dentries_total` and the list of blocks. -/
def dir_slots : List Int → Int → List Int
  | [], _ => []
  | b :: bs, dentries_total =>
    let d := dentries_in_this_blk dentries_total
    (List.range d.1.toNat).map (fun (k : Nat) => get_db b + sizeof_a1fs_dentry * (k : Int))
      ++ dir_slots bs d.2

/-- A visitor that accepts every name and appends it to the buffer. -/
def record_name (buf : List (List Nat)) (name : List Nat) : Int × List (List Nat) :=
  (0, buf ++ [name])

/-- A visitor with room for `n` names: it rejects a name once the buffer holds `n`. -/
def record_name_up_to (n : Nat) (buf : List (List Nat)) (name : List Nat) :
    Int × List (List Nat) :=
  if buf.length < n then (0, buf ++ [name]) else (1, buf)

/-- The components of a path: the non-empty pieces between the slashes. -/
def components (path : List Nat) : List (List Nat) :=
  (strsep_all path).filter (fun t => t ≠ [])

/-- A directory as the lookup needs it: the mode says directory, the body is
a dense array of dentries, and the inode numbers in the dentries fit an `int`. -/
def good_dir (fs : fs_ctx) (ino : a1fs_inode) : Prop :=
  S_ISDIR ino.mode = true ∧ dense_dir fs ino
  ∧ ∀ i, i < dentries_count ino → dentry_ino fs ino i < 2147483648

/-- Lookup of a name in a directory, in the words of the specification: the
inode number in the first dentry that has the name. -/
def dir_lookup (fs : fs_ctx) (ino : a1fs_inode) (name : List Nat) : Option Int :=
  ((List.range (dentries_count ino)).find? (fun i => dentry_name fs ino i = name)).map
    (dentry_ino fs ino)

/-- Resolution of a list of components from the inode `cur`, in the words of
the specification: each component is looked up in the directory reached so far. -/
def resolve (fs : fs_ctx) : List (List Nat) → Int → Option Int
  | [], cur => some cur
  | c :: cs, cur =>
    match dir_lookup fs (get_ino fs cur) c with
    | some n => resolve fs cs n
    | none => none

/-- The number of set bits among the bits `[0, c)` of a bitmap. -/
def count_set (bitmap : Int → Nat) (c : Nat) : Nat :=
  ((List.range c).filter (fun (k : Nat) => bit_is_set bitmap (k : Int))).length

/-- The sum of `count` over the first `n` extents of an inode. -/
def extent_counts_sum (fs : fs_ctx) (ino : a1fs_inode) (n : Nat) : Int :=
  ((List.range n).map (fun (i : Nat) => (load_extent fs ino (i : Int)).count)).sum

/-- The state with the size of inode `n` set to `s`. -/
def set_size (fs : fs_ctx) (n s : Int) : fs_ctx :=
  set_ino fs n { (get_ino fs n) with size := s }

/-- The data region after the dentry at `entry` is overwritten with the dentry
at `last`, as the loop of `traverse_exts_to_replace_dentry` does it. -/
def replaced (data : Int → Nat) (entry last : Int) : Int → Nat :=
  strncpy (store_u32 data entry (load_u32 data last)) (entry + 4)
    (load_cstr (store_u32 data entry (load_u32 data last)) (last + 4) A1FS_NAME_MAX)
    A1FS_NAME_MAX

/-- The state with the data region `d`. -/
def set_data (fs : fs_ctx) (d : Int → Nat) : fs_ctx := { fs with data := d }

/-- The loops over `i` and `j` of `traverse_exts_to_replace_dentry`, over a list
of blocks. -/
def replace_in_blks (parent_ino_no : Int) (dentry_name : List Nat) :
    List Int → Int → fs_ctx → fs_ctx
  | [], _, fs => fs
  | b :: bs, dentries_total, fs =>
    let d := dentries_in_this_blk dentries_total
    replace_in_blks parent_ino_no dentry_name bs d.2
      (replace_dentry_in_blk parent_ino_no (get_db b) dentry_name d.1.toNat 0 fs)

/-- The value of `dentries_total` after `n` blocks. -/
def total_after : Nat → Int → Int
  | 0, total => total
  | n + 1, total => total_after n (dentries_in_this_blk total).2

/-- The blocks of extent `i` of an inode, as the loop over `j` visits them. -/
def ext_blocks (fs : fs_ctx) (ino : a1fs_inode) (i : Int) : List Int :=
  (int_range 0 (toInt32 (load_extent fs ino i).count)).map
    (fun j => toInt32 ((load_extent fs ino i).start + j))

/-- A directory as `unlink` needs it: `good_dir`, the size a multiple of the
dentry size, the names pairwise different, the blocks pairwise different,
non-negative and different from the extent block, at most 512 extents, none
of them empty. -/
def wf_dir (fs : fs_ctx) (ino : a1fs_inode) : Prop :=
  good_dir fs ino
  ∧ ino.size % sizeof_a1fs_dentry = 0
  ∧ (∀ i j, i < dentries_count ino → j < dentries_count ino →
      dentry_name fs ino i = dentry_name fs ino j → i = j)
  ∧ (ino_blocks fs ino).Nodup
  ∧ (∀ b ∈ ino_blocks fs ino, 0 ≤ b ∧ b ≠ ino.extents_blk)
  ∧ 0 ≤ ino.extents_count ∧ ino.extents_count ≤ A1FS_EXTS_MAX
  ∧ (∀ i, 0 ≤ i → i < ino.extents_count →
      1 ≤ (load_extent fs ino i).count ∧ (load_extent fs ino i).count < 2147483648)

/-- A state in which dentry `i0` of the directory `ino` of `fs` has been
overwritten with dentry `l`, and the inode `par` has the extents of `ino`. -/
def after_replace (fs : fs_ctx) (ino : a1fs_inode) (i0 l : Nat) (par : Int) (h : fs_ctx) : Prop :=
  h.data = replaced fs.data (dentry_ptr fs ino i0) (dentry_ptr fs ino l)
  ∧ (get_ino h par).extents_blk = ino.extents_blk
  ∧ (get_ino h par).extents_count = ino.extents_count

/-- The inode number `n` is the index of an inode of the inode table. -/
def ino_in_view (fs : fs_ctx) (n : Int) : Prop := 0 ≤ n ∧ n < fs.sb.inodes_count

/-- The block number `b` is the number of a block of the data region. -/
def blk_in_view (fs : fs_ctx) (b : Int) : Prop := 0 ≤ b ∧ b < fs.sb.data_blocks_count

/-- The `n` bytes from the address `a` on are bytes of the data region. -/
def bytes_in_view (fs : fs_ctx) (a n : Int) : Prop :=
  0 ≤ a ∧ a + n ≤ A1FS_BLOCK_SIZE * fs.sb.data_blocks_count

/-- The regions of the image are in the order of `mkfs` and hold what the
counters say: the blocks of the inode bitmap have a bit for each of the
`inodes_count` inodes, the blocks of the data bitmap a bit for each of the
`data_blocks_count` data blocks, the blocks of the inode table have room for
`inodes_count` inodes, the data blocks end inside the image, and the two
counts fit the `int` in which the code keeps them. -/
def layout_ok (fs : fs_ctx) : Prop :=
  1 ≤ fs.sb.inode_bitmap_blk ∧ fs.sb.inode_bitmap_blk ≤ fs.sb.data_bitmap_blk
  ∧ fs.sb.data_bitmap_blk ≤ fs.sb.inode_table_blk
  ∧ fs.sb.inode_table_blk ≤ fs.sb.first_data_blk
  ∧ 0 ≤ fs.sb.inodes_count ∧ fs.sb.inodes_count < 2147483648
  ∧ fs.sb.inodes_count ≤ 32768 * (fs.sb.data_bitmap_blk - fs.sb.inode_bitmap_blk)
  ∧ 0 ≤ fs.sb.data_blocks_count ∧ fs.sb.data_blocks_count < 2147483648
  ∧ fs.sb.data_blocks_count ≤ 32768 * (fs.sb.inode_table_blk - fs.sb.data_bitmap_blk)
  ∧ sizeof_a1fs_inode * fs.sb.inodes_count
      ≤ A1FS_BLOCK_SIZE * (fs.sb.first_data_blk - fs.sb.inode_table_blk)
  ∧ fs.sb.first_data_blk + fs.sb.data_blocks_count ≤ fs.sb.blocks_count

/-- The extents of an inode are in view: it has at most 512 extents, every
block of its extents is a block of the data region, and so is its extent
block, unless it has none and no extent. -/
def blocks_in_view (fs : fs_ctx) (ino : a1fs_inode) : Prop :=
  0 ≤ ino.extents_count ∧ ino.extents_count ≤ A1FS_EXTS_MAX
  ∧ (blk_in_view fs ino.extents_blk ∨ (ino.extents_blk = -1 ∧ ino.extents_count = 0))
  ∧ ∀ b ∈ ino_blocks fs ino, blk_in_view fs b

/-- Every block that `add_dentry_to_parent` takes for the directory `par` in the
state `fs`, and every byte that it writes, is in the data region: the extent
block of the directory (the one it has, or the one that
`initialize_ext_blk_for_ino` takes), the block that
`find_contiguous_dbs_start_from_index` returns when a new block is needed, the
new extent in the extent block, and the 256 bytes of the new dentry. -/
def add_dentry_in_view (fs : fs_ctx) (par : Int) : Prop :=
  let r :=
    if (get_ino fs par).extents_blk = -1 then initialize_ext_blk_for_ino fs par else (0, fs)
  0 ≤ r.1 →
    blk_in_view fs (get_ino r.2 par).extents_blk
    ∧ (if (get_ino r.2 par).size % A1FS_BLOCK_SIZE = 0 then
        find_contiguous_dbs_start_from_index r.2
            (get_last_data_blk_no r.2 (get_ino r.2 par) + 1) 1 ≠ -ENOSPC →
          blk_in_view fs (find_contiguous_dbs_start_from_index r.2
            (get_last_data_blk_no r.2 (get_ino r.2 par) + 1) 1)
          ∧ 0 ≤ (get_ino r.2 par).extents_count
          ∧ (get_ino r.2 par).extents_count < A1FS_EXTS_MAX
          ∧ bytes_in_view fs (get_db (find_contiguous_dbs_start_from_index r.2
              (get_last_data_blk_no r.2 (get_ino r.2 par) + 1) 1)
              + sizeof_a1fs_dentry * ((get_ino r.2 par).size / sizeof_a1fs_dentry))
              sizeof_a1fs_dentry
      else
        bytes_in_view fs (get_db (get_last_data_blk_no r.2 (get_ino r.2 par))
          + sizeof_a1fs_dentry * ((get_ino r.2 par).size / sizeof_a1fs_dentry))
          sizeof_a1fs_dentry)

/-- The directory `k` shares no block with the directory `par`: neither its
extent block nor a block of its extents is the extent block of `par` or a block
of the extents of `par`. -/
def apart_from (fs : fs_ctx) (k par : a1fs_inode) : Prop :=
  toInt32 k.extents_count ≤ 512
  ∧ ∀ b, (b = k.extents_blk ∨ b ∈ ino_blocks fs k) →
      b ≠ par.extents_blk ∧ b ∉ ino_blocks fs par

instance (fs : fs_ctx) (b : Int) : Decidable (blk_in_view fs b) :=
  inferInstanceAs (Decidable (0 ≤ b ∧ b < fs.sb.data_blocks_count))

/-- The number of blocks that `extend_file` computes for `a` bytes:
`a / A1FS_BLOCK_SIZE`, one more when the division leaves a remainder. -/
def blks_needed (a : Int) : Int :=
  if a.tmod A1FS_BLOCK_SIZE = 0 then a.tdiv A1FS_BLOCK_SIZE
  else a.tdiv A1FS_BLOCK_SIZE + 1

/-- The run that an iteration of the loop of `extend_file` takes when the size
of the file is a multiple of the block size: the values of `new_db_no` and
`num_of_blks_to_allocate` that it passes to `initialize_dbs_at_index_for_ino`
and `add_to_ext_blk_for_ino`, after the second search when the first returned
`-1`. -/
def extend_file_pick (fs : fs_ctx) (ino_no additional_bytes : Int) : Int × Int :=
  if find_contiguous_dbs_start_from_index fs
      (get_last_data_blk_no fs (get_ino fs ino_no) + 1) (blks_needed additional_bytes) = -1 then
    (find_contiguous_dbs_start_from_index fs
      (get_last_data_blk_no fs (get_ino fs ino_no) + 1) 1, 1)
  else
    (find_contiguous_dbs_start_from_index fs
      (get_last_data_blk_no fs (get_ino fs ino_no) + 1) (blks_needed additional_bytes),
     blks_needed additional_bytes)

/-- The bits that `find_contiguous_dbs_start_from_index` reads in a search from
`startingIndex` for `num_of_blks` blocks are bits of the data bitmap blocks:
the search starts at a bit of the bitmap, and a run that begins at the last
bit it visits ends inside the blocks of the bitmap. -/
def search_in_view (fs : fs_ctx) (startingIndex num_of_blks : Int) : Prop :=
  0 ≤ startingIndex ∧ startingIndex ≤ fs.sb.data_blocks_count
  ∧ 8 * groupsOfBits (toInt32 fs.sb.data_blocks_count) + num_of_blks
      ≤ 32768 * (fs.sb.inode_table_blk - fs.sb.data_bitmap_blk)

instance (fs : fs_ctx) (s n : Int) : Decidable (search_in_view fs s n) :=
  inferInstanceAs (Decidable (0 ≤ s ∧ s ≤ fs.sb.data_blocks_count
    ∧ 8 * groupsOfBits (toInt32 fs.sb.data_blocks_count) + n
      ≤ 32768 * (fs.sb.inode_table_blk - fs.sb.data_bitmap_blk)))

/-- An iteration of the loop of `extend_file` stays in view. When the size of
the file is a multiple of the block size and the free counter lets the search
run, the search reads bits of the data bitmap; when moreover the cap on the
extents lets the iteration go on, the run it takes is a run of blocks of the
data region, and the extent it writes is one of the 512 extents of the extent
block, which is a block of the data region. -/
def extend_step_in_view (fs : fs_ctx) (n a : Int) : Bool :=
  if (get_ino fs n).size % A1FS_BLOCK_SIZE = 0
      ∧ ¬ toInt32 fs.sb.free_data_blocks_count < blks_needed a then
    decide (search_in_view fs (get_last_data_blk_no fs (get_ino fs n) + 1) (blks_needed a))
    && (if A1FS_EXTS_MAX < toInt32 ((get_ino fs n).extents_count + (extend_file_pick fs n a).2)
        then true
        else decide (blk_in_view fs (extend_file_pick fs n a).1
          ∧ blk_in_view fs ((extend_file_pick fs n a).1 + (extend_file_pick fs n a).2 - 1)
          ∧ blk_in_view fs (get_ino fs n).extents_blk
          ∧ 0 ≤ (get_ino fs n).extents_count ∧ (get_ino fs n).extents_count < A1FS_EXTS_MAX))
  else true

/-- Every iteration of the loop of `extend_file` stays in view. -/
def extend_in_view : Nat → fs_ctx → Int → Int → Bool
  | 0, _, _, _ => true
  | fuel + 1, fs, n, a =>
    if a = 0 then true
    else
      extend_step_in_view fs n a
      && (match extend_file_step fs n a with
          | .error _ => true
          | .ok (fs, a) => extend_in_view fuel fs n a)

/-- The call `extend_file(ino_no, additional_bytes)` stays in view: the extent
block that it allocates when the file has none is a block of the data region,
and every iteration of its loop stays in view. -/
def extend_file_in_view (fs : fs_ctx) (ino_no additional_bytes : Int) : Bool :=
  if additional_bytes = 0 then true
  else if (if (get_ino fs ino_no).extents_blk = -1 then initialize_ext_blk_for_ino fs ino_no
      else (0, fs)).1 < 0 then true
  else
    decide (blk_in_view fs (get_ino (if (get_ino fs ino_no).extents_blk = -1
      then initialize_ext_blk_for_ino fs ino_no else (0, fs)).2 ino_no).extents_blk)
    && extend_in_view (additional_bytes.natAbs + 1)
        (if (get_ino fs ino_no).extents_blk = -1 then initialize_ext_blk_for_ino fs ino_no
          else (0, fs)).2 ino_no additional_bytes

/-- The state in an iteration of the loop of `shrink_file` after the size of
the file is reduced, before the test on the new size. -/
def shrink_file_cut (fs : fs_ctx) (ino_no unwanted_bytes : Int) : fs_ctx :=
  set_ino fs ino_no { (get_ino fs ino_no) with
    size := toUInt64 ((get_ino fs ino_no).size
      - (if get_size_in_last_blk (get_ino fs ino_no) > unwanted_bytes then unwanted_bytes
         else get_size_in_last_blk (get_ino fs ino_no))) }

/-- An iteration of the loop of `shrink_file` stays in view: when it releases
the last block of the file, the file has between 1 and 512 extents, and its
extent block and the block it releases are blocks of the data region. -/
def shrink_step_in_view (fs : fs_ctx) (n u : Int) : Bool :=
  if (get_ino (shrink_file_cut fs n u) n).size % A1FS_BLOCK_SIZE = 0 then
    decide (1 ≤ (get_ino fs n).extents_count ∧ (get_ino fs n).extents_count ≤ A1FS_EXTS_MAX
      ∧ blk_in_view fs (get_ino fs n).extents_blk
      ∧ blk_in_view fs (get_last_data_blk_no fs (get_ino fs n)))
  else true

/-- Every iteration of the loop of `shrink_file` stays in view. -/
def shrink_in_view : Nat → fs_ctx → Int → Int → Bool
  | 0, _, _, _ => true
  | fuel + 1, fs, n, u =>
    if u = 0 then true
    else
      shrink_step_in_view fs n u
      && shrink_in_view fuel (shrink_file_step fs n u).1 n (shrink_file_step fs n u).2

/-- The call `shrink_file(ino_no, unwanted_bytes)` stays in view: every
iteration of its loop does. -/
def shrink_file_in_view (fs : fs_ctx) (ino_no unwanted_bytes : Int) : Bool :=
  if (get_ino fs ino_no).extents_blk = -1 ∨ (get_ino fs ino_no).extents_count = 0
      ∨ (get_ino fs ino_no).size = 0 then true
  else shrink_in_view ((get_ino fs ino_no).size.toNat + 2) fs ino_no unwanted_bytes

/-- The call `a1fs_truncate(path, size)` on the file with inode `n` stays in
view: the call of `extend_file` or of `shrink_file` that it makes does. -/
def truncate_in_view (fs : fs_ctx) (n size : Int) : Bool :=
  if toInt32 (size - (get_ino fs n).size) ≥ 0 then
    extend_file_in_view fs n (toInt32 (size - (get_ino fs n).size))
  else shrink_file_in_view fs n (toInt32 (size - (get_ino fs n).size) * (-1))

/-- The state after an iteration of the loop of `extend_file` that takes the
run of `c` blocks at `p` for the `a` bytes that are missing: the blocks are
initialised, the extent `(p, c)` is added and the size grows. -/
def extend_file_take (fs : fs_ctx) (n a p c : Int) : fs_ctx :=
  set_size (add_to_ext_blk_for_ino (initialize_dbs_at_index_for_ino fs n p c) n p c) n
    (toUInt64 ((get_ino fs n).size
      + (if c * A1FS_BLOCK_SIZE ≥ a then a else c * A1FS_BLOCK_SIZE)))

/-- What an extension of the file `n` leaves alone: the other inodes, the
extent block that the file has, the bits that are set in the data bitmap, and
the bytes of every block whose bit is set and which is not the extent block of
the file. -/
def file_frame (n : Int) (fs fs' : fs_ctx) : Prop :=
  (∀ k, k ≠ n → get_ino fs' k = get_ino fs k)
  ∧ (get_ino fs' n).extents_blk = (get_ino fs n).extents_blk
  ∧ (∀ b, bit_is_set fs.data_bitmap b = true → bit_is_set fs'.data_bitmap b = true)
  ∧ (∀ b, 0 ≤ b → bit_is_set fs.data_bitmap b = true → b ≠ (get_ino fs n).extents_blk →
      ∀ a, get_db b ≤ a → a < get_db b + A1FS_BLOCK_SIZE → fs'.data a = fs.data a)

/-- The directory `d` is in view and apart from the file `f`: it is an inode of
the table with at most 512 extents, and its extent block and the blocks of its
extents are blocks of the data region whose bits are set in the data bitmap and
which are not the extent block of `f`. -/
def dir_apart_from_file (fs : fs_ctx) (d f : Int) : Prop :=
  ino_in_view fs d
  ∧ toInt32 (get_ino fs d).extents_count ≤ 512
  ∧ ∀ b, (b = (get_ino fs d).extents_blk ∨ b ∈ ino_blocks fs (get_ino fs d)) →
      blk_in_view fs b ∧ bit_is_set fs.data_bitmap b = true ∧ b ≠ (get_ino fs f).extents_blk

/-! ## Concrete images and call sequences used by the examples -/

/-- The bytes of a string literal. -/
def cstr (s : String) : List Nat := s.toList.map Char.toNat

/-- A zero-filled image file. -/
def zero_image : fs_ctx :=
  { sb := ⟨0, 0, 0, 0, 0, 0, 0, 0, 0, 0, 0, 0, 0⟩
    inode_bitmap := fun _ => 0
    data_bitmap := fun _ => 0
    inode_table := fun _ => ⟨0, 0, 0, ⟨0, 0⟩, 0, 0, 0, 0⟩
    data := fun _ => 0 }

/-- The reading of the clock in the examples. -/
def t0 : timespec := ⟨1000, 0⟩

/-- The state that an operation leaves (the zero image when it has no result). -/
def state_of (r : Option (Int × fs_ctx)) : fs_ctx :=
  match r with
  | some x => x.2
  | none => zero_image

/-- The return value of an operation. -/
def ret_of {α : Type} (r : Option (Int × α)) : Option Int := r.map Prod.fst

/-- The image after `mkfs -i 128` over a zero-filled image of 256 blocks (1 MiB):
blocks 3 and 4 hold the inode table, the data region starts at block 5. -/
def img128 : fs_ctx := (mkfs zero_image (256 * 4096) ⟨128, false, false, false⟩ t0).2

/-- The mode of a regular file, `S_IFREG | 0644`. -/
def file_mode : Nat := S_IFREG ||| 0o644

/-- The image `img128` after `create("/f")`; the file has inode 1. -/
def img_f : fs_ctx := state_of (a1fs_create img128 (cstr "/f") file_mode t0)

/-- The image `img_f` after `write("/f", "hello", 5, 0)`. -/
def img_f_hello : fs_ctx := state_of (a1fs_write img_f (cstr "/f") (cstr "hello") 0 t0)

/-- The image `img_f` after `truncate("/f", 4096)`. -/
def img_f_4096 : fs_ctx := state_of (a1fs_truncate img_f (cstr "/f") 4096 t0)

/-- The image `img_f` after `write("/f", "X", 1, 4096)`. -/
def img_f_X4096 : fs_ctx := state_of (a1fs_write img_f (cstr "/f") (cstr "X") 4096 t0)

/-- The image `img_f` after `truncate("/f", 5)`. -/
def img_f_5 : fs_ctx := state_of (a1fs_truncate img_f (cstr "/f") 5 t0)

/-- The image `img_f_5` after `write("/f", "Z", 1, 4294967301)`. -/
def img_f_5_Z : fs_ctx := state_of (a1fs_write img_f_5 (cstr "/f") (cstr "Z") 4294967301 t0)

/-- The image after `create` of the `n` files `/a`, `/b`, ... in the root. -/
def create_files (fs : fs_ctx) : Nat → fs_ctx
  | 0 => fs
  | n + 1 => state_of (a1fs_create (create_files fs n) [47, 97 + n] file_mode t0)

/-- The image `img128` with the sixteen files `/a` ... `/p`, and then `create("/q")`. -/
def img_17_files : fs_ctx :=
  state_of (a1fs_create (create_files img128 16) (cstr "/q") file_mode t0)

/-- The image after `mkdir` of the `n` directories `/a`, `/b`, ... in the root. -/
def make_dirs (fs : fs_ctx) : Nat → fs_ctx
  | 0 => fs
  | n + 1 => (a1fs_mkdir (make_dirs fs n) [47, 97 + n] 0o755 t0).2

/-- The image `img128` with the sixteen directories `/a` ... `/p`, and then `mkdir("/q")`. -/
def img_17_dirs : fs_ctx := (a1fs_mkdir (make_dirs img128 16) (cstr "/q") 0o755 t0).2

/-- The image `img_f` after `truncate("/f", 4294967296)`. -/
def img_f_4G : fs_ctx := state_of (a1fs_truncate img_f (cstr "/f") 4294967296 t0)

/-- The image `img_f` after `truncate("/f", 12288)`. -/
def img_f_12288 : fs_ctx := state_of (a1fs_truncate img_f (cstr "/f") 12288 t0)

/-- The image `img_f` after `write("/f", "X", 1, 1)`. -/
def img_f_X1 : fs_ctx := state_of (a1fs_write img_f (cstr "/f") (cstr "X") 1 t0)

/-- The image `img_f_X1` after `truncate("/f", 1)`. -/
def img_f_X1_cut : fs_ctx := state_of (a1fs_truncate img_f_X1 (cstr "/f") 1 t0)

/-- The image `img_f_X1_cut` after `truncate("/f", 2)`. -/
def img_f_regrown : fs_ctx := state_of (a1fs_truncate img_f_X1_cut (cstr "/f") 2 t0)

/-- The image `img_f` after `truncate("/f", 6000)`. -/
def img_f_6000 : fs_ctx := state_of (a1fs_truncate img_f (cstr "/f") 6000 t0)

/-- The image `img_f_12288` after `truncate("/f", 0)`. -/
def img_f_12288_0 : fs_ctx := state_of (a1fs_truncate img_f_12288 (cstr "/f") 0 t0)

/-- The image `img_f` after `truncate("/f", 4294967301)`. -/
def img_f_4G5 : fs_ctx := state_of (a1fs_truncate img_f (cstr "/f") 4294967301 t0)

/-- The image `img128` after `mkdir("/a")`. -/
def img_a : fs_ctx := (a1fs_mkdir img128 (cstr "/a") 0o755 t0).2

/-- The image `img_a` after `mkdir("/b")`. -/
def img_a_b : fs_ctx := (a1fs_mkdir img_a (cstr "/b") 0o755 t0).2

/-- The image `img_a_b` after `mkdir("/a/c")`. -/
def img_a_b_c : fs_ctx := (a1fs_mkdir img_a_b (cstr "/a/c") 0o755 t0).2

/-- The path `/aaa...a` with a component of 252 characters. -/
def path_252_a : List Nat := 47 :: List.replicate 252 97

/-- The path `/aaa...a` of 4096 characters. -/
def path_4096 : List Nat := 47 :: List.replicate 4095 97

/-- The image `img_f` with `2^20` blocks charged to the inode of `/f`. -/
def img_f_1M_blocks : fs_ctx :=
  set_ino img_f 1 { (get_ino img_f 1) with used_blocks_count := 1048576 }

/-- The result of `mkfs -i 64` over a zero-filled image of 256 blocks (1 MiB). -/
def fmt_64 : Bool × fs_ctx := mkfs zero_image (256 * 4096) ⟨64, false, false, false⟩ t0

/-- The result of `mkfs -i 4294967297` (`2^32 + 1` inodes) over a zero-filled
image of 256 blocks (1 MiB). -/
def fmt_4G1 : Bool × fs_ctx :=
  mkfs zero_image (256 * 4096) ⟨4294967297, false, false, false⟩ t0

/-- The result of `mkfs -i 4294967296` (`2^32` inodes) over a zero-filled image
of 256 blocks (1 MiB). -/
def fmt_4G : Bool × fs_ctx :=
  mkfs zero_image (256 * 4096) ⟨4294967296, false, false, false⟩ t0

/-- The image `img_f_4096` after `write("/f", "Z", 1, 0)`. -/
def img_f_4096_Z : fs_ctx := state_of (a1fs_write img_f_4096 (cstr "/f") (cstr "Z") 0 t0)

/-- The image `img_f` after `truncate("/f", 2000000)`, which returns `-ENOSPC`. -/
def img_f_2M : fs_ctx := state_of (a1fs_truncate img_f (cstr "/f") 2000000 t0)

/-- The image after `mkfs -i 64` over a zero-filled image of 1024 blocks (4 MiB). -/
def img1024 : fs_ctx := (mkfs zero_image (1024 * 4096) ⟨64, false, false, false⟩ t0).2

/-- The image `img1024` after `create("/f")`. -/
def img1024_f : fs_ctx := state_of (a1fs_create img1024 (cstr "/f") file_mode t0)

/-- The image after `mkfs -i 8` over a zero-filled image of 20 blocks: 16 data
blocks. -/
def img20 : fs_ctx := (mkfs zero_image (20 * 4096) ⟨8, false, false, false⟩ t0).2

/-- The image `img20` with the files `/a` (8192 bytes), `/b` (4096), `/c` (4096)
and `/d` (24576): every data block is in use. -/
def img20_full : fs_ctx :=
  state_of (a1fs_truncate
    (state_of (a1fs_truncate
      (state_of (a1fs_truncate
        (state_of (a1fs_truncate (create_files img20 4) (cstr "/a") 8192 t0))
        (cstr "/b") 4096 t0))
      (cstr "/c") 4096 t0))
    (cstr "/d") 24576 t0)

/-- The image `img20_full` after `truncate("/a", 4096)` and `unlink("/c")`: the
free data blocks are 4, 7 and 8. -/
def img20_holes : fs_ctx :=
  state_of (a1fs_unlink (state_of (a1fs_truncate img20_full (cstr "/a") 4096 t0)) (cstr "/c") t0)

/-- The image `img20_holes` after `truncate("/a", 16384)`. -/
def img20_regrown : fs_ctx := state_of (a1fs_truncate img20_holes (cstr "/a") 16384 t0)

/-- A bitmap of capacity 3 with the bits 0, 1 and 2 set: the byte `0xE0`. -/
def bitmap_3_full : Int → Nat := fun k => if k = 0 then 224 else 0

/-- The image after `create("/a/x")` on `img_a`. -/
def img_a_x : fs_ctx := state_of (a1fs_create img_a (cstr "/a/x") file_mode t0)

/-- The image after `truncate("/a/x", 4096)` on `img_a_x`. -/
def img_a_x_4096 : fs_ctx := state_of (a1fs_truncate img_a_x (cstr "/a/x") 4096 t0)

/-- The state in which `create("/q")` calls `add_to_dentries_blk_for_ino` on the
root directory with sixteen files: inode 17 and the new data block 2 are
allocated. -/
def img_16_before_append : fs_ctx :=
  initialize_dbs_at_index_for_ino (allocate_ino (create_files img128 16) file_mode 1 t0).2 0 2 1

/-- The state `img_16_before_append` after the call
`add_to_dentries_blk_for_ino(fs, root, 2, 17, "q")`. -/
def img_16_appended : fs_ctx :=
  add_to_dentries_blk_for_ino img_16_before_append 0 2 17 (cstr "q")

/-- The image `img_f_4096` after the first call of `extend_file` in
`write("/f", "Z", 1, 0)`: `extend_file(fs, ino, -4096)`. -/
def img_f_4096_hole : fs_ctx := state_of (extend_file img_f_4096 1 (-4096) t0)

/-- The image `img20_full` after `mkdir("/x")`: no data block and two inodes are
free, and `/x` has no extent block. -/
def img20_full_x : fs_ctx := (a1fs_mkdir img20_full (cstr "/x") 0o755 t0).2

/-- The image `img20_full_x` after the failed `mkdir("/x/y")`. -/
def img20_full_x_y : fs_ctx := (a1fs_mkdir img20_full_x (cstr "/x/y") 0o755 t0).2

/-- The image `img20_full_x` after the failed `create("/x/f")`. -/
def img20_full_x_f : fs_ctx := state_of (a1fs_create img20_full_x (cstr "/x/f") file_mode t0)

/-! ## Lemmas: the size of a file across `extend_file` and `shrink_file` -/

theorem get_ino_set_ino (fs : fs_ctx) (n : Int) (x : a1fs_inode) :
    get_ino (set_ino fs n x) n = x := by
  simp [get_ino, set_ino]

theorem size_initialize_dbs (fs : fs_ctx) (n d k : Int) :
    (get_ino (initialize_dbs_at_index_for_ino fs n d k) n).size = (get_ino fs n).size := by
  simp [initialize_dbs_at_index_for_ino, get_ino, set_ino]

theorem size_add_to_ext (fs : fs_ctx) (n d k : Int) :
    (get_ino (add_to_ext_blk_for_ino fs n d k) n).size = (get_ino fs n).size := by
  simp [add_to_ext_blk_for_ino, get_ino, set_ino]

theorem size_deallocate_db (fs : fs_ctx) (n d : Int) :
    (get_ino (deallocate_db_for_ino fs n d) n).size = (get_ino fs n).size := by
  simp [deallocate_db_for_ino, get_ino, set_ino]

theorem size_shrink_ext (fs : fs_ctx) (n : Int) :
    (get_ino (shrink_ext_for_ino fs n) n).size = (get_ino fs n).size := by
  unfold shrink_ext_for_ino
  simp only []
  split_ifs <;> simp [deallocate_db_for_ino, get_ino, set_ino]

theorem size_initialize_ext_blk (fs : fs_ctx) (n : Int) :
    (get_ino (initialize_ext_blk_for_ino fs n).2 n).size = (get_ino fs n).size := by
  unfold initialize_ext_blk_for_ino
  split_ifs <;> simp [get_ino, set_ino]

theorem extend_file_step_size (fs fs' : fs_ctx) (n a a' : Int)
    (h : extend_file_step fs n a = .ok (fs', a')) :
    ((get_ino fs' n).size - (get_ino fs n).size - (a - a')) % 18446744073709551616 = 0 := by
  unfold extend_file_step at h
  simp only [] at h
  split_ifs at h <;>
    (simp only [Except.ok.injEq, Prod.mk.injEq] at h
     obtain ⟨rfl, rfl⟩ := h
     simp only [get_ino_set_ino, size_add_to_ext, size_initialize_dbs, toUInt64]
     omega)

theorem extend_file_loop_size (fuel : Nat) : ∀ (fs : fs_ctx) (n a : Int) (fs' : fs_ctx),
    extend_file_loop fuel fs n a = some (none, fs') →
    ((get_ino fs' n).size - (get_ino fs n).size - a) % 4294967296 = 0 := by
  induction fuel with
  | zero => intro fs n a fs' h; simp [extend_file_loop] at h
  | succ fuel ih =>
    intro fs n a fs' h
    unfold extend_file_loop at h
    split_ifs at h with h0
    · simp only [Option.some.injEq, Prod.mk.injEq, true_and] at h
      subst h; subst h0; simp
    · split at h
      · simp at h
      · rename_i fs1 a1 hstep
        have h1 := ih _ _ _ _ h
        have h2 := extend_file_step_size _ _ _ _ _ hstep
        omega

theorem shrink_file_step_size (fs : fs_ctx) (n u : Int) :
    ((get_ino (shrink_file_step fs n u).1 n).size - (get_ino fs n).size
      + (u - (shrink_file_step fs n u).2)) % 18446744073709551616 = 0 := by
  unfold shrink_file_step
  simp only []
  split_ifs <;>
    (simp only [get_ino_set_ino, size_shrink_ext, size_deallocate_db, toUInt64]
     omega)

theorem shrink_file_loop_size (fuel : Nat) : ∀ (fs : fs_ctx) (n u : Int) (fs' : fs_ctx),
    shrink_file_loop fuel fs n u = some fs' →
    ((get_ino fs' n).size - (get_ino fs n).size + u) % 4294967296 = 0 := by
  induction fuel with
  | zero => intro fs n u fs' h; simp [shrink_file_loop] at h
  | succ fuel ih =>
    intro fs n u fs' h
    unfold shrink_file_loop at h
    split_ifs at h with h0
    · simp only [Option.some.injEq] at h
      subst h; subst h0; simp
    · have h1 := ih _ _ _ _ h
      have h2 := shrink_file_step_size fs n u
      omega

theorem extend_file_step_error (fs : fs_ctx) (n a e : Int)
    (h : extend_file_step fs n a = .error e) : e = -ENOSPC := by
  unfold extend_file_step at h
  simp only [] at h
  split_ifs at h <;> simp_all

theorem extend_file_loop_error (fuel : Nat) : ∀ (fs : fs_ctx) (n a e : Int) (fs' : fs_ctx),
    extend_file_loop fuel fs n a = some (some e, fs') → e = -ENOSPC := by
  induction fuel with
  | zero => intro fs n a e fs' h; simp [extend_file_loop] at h
  | succ fuel ih =>
    intro fs n a e fs' h
    unfold extend_file_loop at h
    split_ifs at h with h0
    · simp at h
    · split at h
      · rename_i e1 hstep
        simp only [Option.some.injEq, Prod.mk.injEq] at h
        have := extend_file_step_error _ _ _ _ hstep
        omega
      · exact ih _ _ _ _ _ h

theorem extend_file_size (fs fs' : fs_ctx) (n a : Int) (now : timespec)
    (h : extend_file fs n a now = some (0, fs')) :
    ((get_ino fs' n).size - (get_ino fs n).size - a) % 4294967296 = 0 := by
  unfold extend_file at h
  by_cases h0 : a = 0
  · simp only [h0, if_true, Option.some.injEq, Prod.mk.injEq, true_and] at h
    subst h; subst h0; simp
  · simp only [h0, if_false] at h
    generalize hr : (if (get_ino fs n).extents_blk = -1 then initialize_ext_blk_for_ino fs n
      else (0, fs)) = r at h
    have hsz : (get_ino r.2 n).size = (get_ino fs n).size := by
      subst hr
      split_ifs
      · exact size_initialize_ext_blk fs n
      · rfl
    split_ifs at h with h1
    · simp at h
    · split at h
      · simp at h
      · rename_i e fs1 hl
        have he := extend_file_loop_error _ _ _ _ _ _ hl
        simp only [Option.some.injEq, Prod.mk.injEq] at h
        rw [h.1] at he
        exact absurd he (by decide)
      · rename_i fs1 hl
        simp only [Option.some.injEq, Prod.mk.injEq, true_and] at h
        subst h
        have h1 := extend_file_loop_size _ _ _ _ _ hl
        rw [get_ino_set_ino]
        simp only [] at h1 ⊢
        omega

theorem shrink_file_size (fs fs' : fs_ctx) (n u : Int) (now : timespec)
    (h : shrink_file fs n u now = some (0, fs')) :
    ((get_ino fs' n).size - (get_ino fs n).size + u) % 4294967296 = 0 := by
  unfold shrink_file at h
  simp only [] at h
  split_ifs at h with h0
  · simp at h
  · split at h
    · simp at h
    · rename_i fs1 hl
      simp only [Option.some.injEq, Prod.mk.injEq, true_and] at h
      subst h
      have h1 := shrink_file_loop_size _ _ _ _ _ hl
      rw [get_ino_set_ino]
      simpa using h1


/-! ## Lemmas: the loops of `extend_file` and `shrink_file` exit or not -/

theorem tdiv_tmod_block (a : Int) :
    a.tmod 4096 + 4096 * a.tdiv 4096 = a
    ∧ (0 ≤ a → 0 ≤ a.tmod 4096 ∧ a.tmod 4096 < 4096)
    ∧ (a ≤ 0 → -4096 < a.tmod 4096 ∧ a.tmod 4096 ≤ 0) := by
  refine ⟨Int.tmod_add_tdiv a 4096, fun h => ⟨Int.tmod_nonneg _ h, Int.tmod_lt_of_pos _ (by decide)⟩,
    fun h => ?_⟩
  have h1 : (-a).tmod 4096 = -(a.tmod 4096) := by
    rw [Int.tmod_def, Int.tmod_def, Int.neg_tdiv]; ring
  have h2 := Int.tmod_nonneg 4096 (show 0 ≤ -a by omega)
  have h3 := Int.tmod_lt_of_pos (-a) (show (0 : Int) < 4096 by decide)
  omega

theorem extend_file_step_natAbs (fs fs' : fs_ctx) (n a a' : Int)
    (h : extend_file_step fs n a = .ok (fs', a')) (ha : a ≠ 0) :
    a'.natAbs < a.natAbs := by
  obtain ⟨h1, h2, h3⟩ := tdiv_tmod_block a
  unfold extend_file_step at h
  simp only [] at h
  split_ifs at h <;>
    (simp only [Except.ok.injEq, Prod.mk.injEq] at h
     obtain ⟨_, rfl⟩ := h
     simp only [toInt32, A1FS_BLOCK_SIZE] at *
     omega)

theorem extend_file_loop_isSome (fuel : Nat) : ∀ (fs : fs_ctx) (n a : Int),
    a.natAbs < fuel → (extend_file_loop fuel fs n a).isSome = true := by
  induction fuel with
  | zero => intro fs n a h; omega
  | succ fuel ih =>
    intro fs n a h
    unfold extend_file_loop
    split_ifs with h0
    · rfl
    · split
      · rfl
      · rename_i fs1 a1 hstep
        have := extend_file_step_natAbs _ _ _ _ _ hstep h0
        exact ih _ _ _ (by omega)

/-- The function `extend_file` always returns: the fuel of its loop is enough. -/
theorem extend_file_isSome (fs : fs_ctx) (n a : Int) (now : timespec) :
    (extend_file fs n a now).isSome = true := by
  unfold extend_file
  by_cases h0 : a = 0
  · simp [h0]
  · simp only [h0, if_false]
    generalize (if (get_ino fs n).extents_blk = -1 then initialize_ext_blk_for_ino fs n
      else (0, fs)) = r
    split_ifs with h1
    · rfl
    · have := extend_file_loop_isSome (a.natAbs + 1) r.2 n a (by omega)
      split
      · rename_i hn; rw [hn] at this; simp at this
      · rfl
      · rfl

theorem shrink_file_step_stuck (fs : fs_ctx) (n u : Int)
    (hs : (get_ino fs n).size = 0) (hu : 0 < u) :
    (shrink_file_step fs n u).2 = u ∧ (get_ino (shrink_file_step fs n u).1 n).size = 0 := by
  unfold shrink_file_step
  simp only [get_size_in_last_blk, hs, if_true]
  split_ifs <;>
    simp_all [get_ino_set_ino, size_shrink_ext, size_deallocate_db, toUInt64] <;> omega

theorem shrink_file_loop_stuck (fuel : Nat) : ∀ (fs : fs_ctx) (n u : Int),
    (get_ino fs n).size = 0 → 0 < u → shrink_file_loop fuel fs n u = none := by
  induction fuel with
  | zero => intro fs n u _ _; rfl
  | succ fuel ih =>
    intro fs n u hs hu
    unfold shrink_file_loop
    obtain ⟨h1, h2⟩ := shrink_file_step_stuck fs n u hs hu
    rw [if_neg (by omega)]
    simp only []
    rw [h1]
    exact ih _ _ _ h2 hu

theorem shrink_file_step_progress (fs : fs_ctx) (n u : Int)
    (hs : 0 < (get_ino fs n).size) (hb : (get_ino fs n).size < 18446744073709551616) :
    (shrink_file_step fs n u).2 = 0
    ∨ (0 < (shrink_file_step fs n u).2
        ∧ 0 ≤ (get_ino (shrink_file_step fs n u).1 n).size
        ∧ (get_ino (shrink_file_step fs n u).1 n).size < (get_ino fs n).size) := by
  unfold shrink_file_step
  simp only [get_size_in_last_blk]
  split_ifs <;>
    simp only [get_ino_set_ino, size_shrink_ext, size_deallocate_db, toUInt64,
      A1FS_BLOCK_SIZE] at * <;> omega

/-- When the loop of `shrink_file` has not exited after `size + 2` iterations
it does not exit after any number of iterations. -/
theorem shrink_file_loop_diverges (m : Nat) : ∀ (fs : fs_ctx) (n u : Int) (fuel : Nat),
    (get_ino fs n).size.toNat ≤ m → 0 ≤ (get_ino fs n).size →
    (get_ino fs n).size < 18446744073709551616 → m + 2 ≤ fuel →
    shrink_file_loop fuel fs n u = none → ∀ fuel', shrink_file_loop fuel' fs n u = none := by
  induction m with
  | zero =>
    intro fs n u fuel hm h0 _ hf hnone fuel'
    have hs : (get_ino fs n).size = 0 := by omega
    obtain ⟨f, rfl⟩ : ∃ f, fuel = f + 2 := ⟨fuel - 2, by omega⟩
    by_cases hu : 0 < u
    · exact shrink_file_loop_stuck _ _ _ _ hs hu
    · exfalso
      unfold shrink_file_loop at hnone
      split_ifs at hnone with hz
      simp only [] at hnone
      unfold shrink_file_loop at hnone
      have : (shrink_file_step fs n u).2 = 0 := by
        unfold shrink_file_step
        simp only [get_size_in_last_blk, hs, if_true]
        split_ifs <;> omega
      simp [this] at hnone
  | succ m ih =>
    intro fs n u fuel hm h0 hb hf hnone fuel'
    by_cases hs : (get_ino fs n).size = 0
    · exact ih fs n u fuel (by omega) h0 hb (by omega) hnone fuel'
    · obtain ⟨f, rfl⟩ : ∃ f, fuel = f + 2 := ⟨fuel - 2, by omega⟩
      unfold shrink_file_loop at hnone
      split_ifs at hnone with hz
      simp only [] at hnone
      rcases shrink_file_step_progress fs n u (by omega) hb with h | ⟨h1, h2, h3⟩
      · unfold shrink_file_loop at hnone
        simp [h] at hnone
      · cases fuel' with
        | zero => rfl
        | succ fuel' =>
          unfold shrink_file_loop
          rw [if_neg hz]
          exact ih _ _ _ (f + 1) (by omega) h2 (by omega) (by omega) hnone fuel'

/-! ## Lemmas: `a1fs_read` and `a1fs_truncate` -/

/-- The guard at the top of `a1fs_read`: the call returns 0 and copies nothing
when the offset is beyond the size, the size is 0 or the file has no extent. -/
theorem a1fs_read_guard (fs : fs_ctx) (path : List Nat) (size offset : Int)
    (hp : 0 ≤ path_lookup fs path false)
    (hg : offset > toInt32 (get_ino fs (path_lookup fs path false)).size
      ∨ (get_ino fs (path_lookup fs path false)).size = 0
      ∨ (get_ino fs (path_lookup fs path false)).extents_blk = -1
      ∨ (get_ino fs (path_lookup fs path false)).extents_count = 0) :
    a1fs_read fs path size offset = some (0, []) := by
  unfold a1fs_read
  simp only []
  rw [if_neg (by omega), if_pos hg]

/-- After a call of `a1fs_truncate` that returned 0 the size of the file is
the requested size modulo `2^32`. -/
theorem a1fs_truncate_size (fs fs' : fs_ctx) (path : List Nat) (k : Int) (now : timespec)
    (h : a1fs_truncate fs path k now = some (0, fs')) :
    ((get_ino fs' (path_lookup fs path false)).size - k) % 4294967296 = 0 := by
  unfold a1fs_truncate at h
  simp only [] at h
  split_ifs at h with h0 h1
  · have hs := extend_file_size _ _ _ _ _ h
    simp only [toInt32] at hs
    omega
  · have hs := shrink_file_size _ _ _ _ _ h
    simp only [toInt32] at hs
    omega

/-- An operation that returned `v` has the result `(v, state_of r)`. -/
theorem result_eq_of_ret (r : Option (Int × fs_ctx)) (v : Int) (h : ret_of r = some v) :
    r = some (v, state_of r) := by
  cases r with
  | none => simp [ret_of] at h
  | some x =>
    simp only [ret_of, Option.map_some', Option.some.injEq] at h
    subst h
    rfl

/-! ## Lemmas: the formatter -/

theorem div_round_up_eq_ceil_div (a b : Int) (ha : 0 ≤ a) (hb : 0 < b) :
    div_round_up a b = ceil_div a b := by
  unfold div_round_up ceil_div
  rw [Int.tmod_eq_emod ha (le_of_lt hb), Int.tdiv_eq_ediv ha (le_of_lt hb)]
  have h1 := Int.emod_add_ediv a b
  have h2 := Int.emod_nonneg a (ne_of_gt hb)
  have h3 := Int.emod_lt_of_pos a hb
  split_ifs with h
  · -- a = b * q
    have : a = b * (a / b) := by omega
    have e : a + b - 1 = (b - 1) + b * (a / b) := by omega
    rw [e, Int.add_mul_ediv_left _ _ (ne_of_gt hb)]
    have : (b - 1) / b = 0 := Int.ediv_eq_zero_of_lt (by omega) (by omega)
    omega
  · have e : a + b - 1 = (a % b - 1) + b * (a / b + 1) := by
      have := Int.emod_add_ediv a b
      ring_nf
      ring_nf at this
      omega
    rw [e, Int.add_mul_ediv_left _ _ (ne_of_gt hb)]
    have : (a % b - 1) / b = 0 := Int.ediv_eq_zero_of_lt (by omega) (by omega)
    omega

/-! ## Lemmas: path lookup reads the data region and four inode fields -/

/-- A directory lookup reads the data region and, of the inode, the mode, the
size and the extent fields. -/
theorem get_dentry_ino_no_congr (fs1 fs2 : fs_ctx) (i1 i2 : a1fs_inode) (name : List Nat)
    (hd : fs1.data = fs2.data) (h1 : i1.extents_blk = i2.extents_blk) (h2 : i1.mode = i2.mode)
    (h3 : i1.size = i2.size) (h4 : i1.extents_count = i2.extents_count) :
    get_dentry_ino_no fs1 i1 name = get_dentry_ino_no fs2 i2 name := by
  simp only [get_dentry_ino_no, ino_blocks, load_extent, get_exts_blk, hd, h1, h2, h3, h4]

theorem path_lookup_loop_congr (fs1 fs2 : fs_ctx)
    (h : ∀ k name, get_dentry_ino_no fs1 (get_ino fs1 k) name
      = get_dentry_ino_no fs2 (get_ino fs2 k) name) :
    ∀ (toks : List (List Nat)) (st : Int × Int),
      path_lookup_loop fs1 toks st = path_lookup_loop fs2 toks st := by
  intro toks
  induction toks with
  | nil => intro st; rfl
  | cons t ts ih =>
    intro st
    obtain ⟨p, c⟩ := st
    simp only [path_lookup_loop, h, ih]

theorem path_lookup_congr (fs1 fs2 : fs_ctx)
    (h : ∀ k name, get_dentry_ino_no fs1 (get_ino fs1 k) name
      = get_dentry_ino_no fs2 (get_ino fs2 k) name) (path : List Nat) (b : Bool) :
    path_lookup fs1 path b = path_lookup fs2 path b := by
  simp only [path_lookup, path_lookup_loop_congr fs1 fs2 h]

/-- A change of the modification time of one inode does not change how paths
resolve. -/
theorem path_lookup_set_mtime (fs : fs_ctx) (n : Int) (t : timespec) (path : List Nat) (b : Bool) :
    path_lookup (set_ino fs n { (get_ino fs n) with mtime := t }) path b = path_lookup fs path b := by
  apply path_lookup_congr
  intro k name
  by_cases hk : k = n
  · subst hk
    exact get_dentry_ino_no_congr _ _ _ _ _ rfl (by simp [get_ino, set_ino])
      (by simp [get_ino, set_ino]) (by simp [get_ino, set_ino]) (by simp [get_ino, set_ino])
  · have : get_ino (set_ino fs n { (get_ino fs n) with mtime := t }) k = get_ino fs k := by
      simp [get_ino, set_ino, hk]
    rw [this]
    exact get_dentry_ino_no_congr _ _ _ _ _ rfl rfl rfl rfl rfl

theorem path_lookup_loop_agree (fs1 fs2 : fs_ctx) :
    ∀ (toks : List (List Nat)) (st : Int × Int),
      (∀ k ∈ lookup_dirs fs1 toks st.2, ∀ name,
        get_dentry_ino_no fs2 (get_ino fs2 k) name = get_dentry_ino_no fs1 (get_ino fs1 k) name) →
      path_lookup_loop fs2 toks st = path_lookup_loop fs1 toks st := by
  intro toks
  induction toks with
  | nil => intro st _; rfl
  | cons t ts ih =>
    intro st h
    obtain ⟨p, c⟩ := st
    simp only [path_lookup_loop]
    by_cases ht : t = []
    · simp only [ht, if_true]
      apply ih
      intro k hk
      apply h
      simp only [lookup_dirs, ht, if_true]
      exact hk
    · simp only [if_neg ht]
      have hc := h c (by simp [lookup_dirs, ht]) t
      rw [hc]
      split_ifs with hn
      · rfl
      · apply ih
        intro k hk
        apply h
        simp only [lookup_dirs, if_neg ht, if_neg hn]
        exact List.mem_cons_of_mem _ hk

/-- The parent that `path_lookup` returns is the root or an inode in which it
looked a component up. -/
theorem path_lookup_loop_parent_mem (fs : fs_ctx) :
    ∀ (toks : List (List Nat)) (st : Int × Int),
      (path_lookup_loop fs toks st).1 = st.1
        ∨ (path_lookup_loop fs toks st).1 ∈ lookup_dirs fs toks st.2 := by
  intro toks
  induction toks with
  | nil => intro st; left; rfl
  | cons t ts ih =>
    intro st
    obtain ⟨p, c⟩ := st
    simp only [path_lookup_loop, lookup_dirs]
    by_cases ht : t = []
    · simp only [ht, if_true]
      exact ih (p, c)
    · simp only [if_neg ht]
      split_ifs with hn
      · right; simp
      · rcases ih (c, get_dentry_ino_no fs (get_ino fs c) t) with h | h
        · right; simp only [h]; simp
        · right; exact List.mem_cons_of_mem _ h

theorem or_and_self_nat (x m : Nat) : (x ||| m) &&& m = m := by
  apply Nat.eq_of_testBit_eq
  intro i
  simp only [Nat.testBit_and, Nat.testBit_or]
  cases x.testBit i <;> cases m.testBit i <;> rfl

theorem bit_mask_pos (j : Int) (h0 : 0 ≤ j) (h8 : j < 8) : bit_mask j ≠ 0 := by
  have : j = 0 ∨ j = 1 ∨ j = 2 ∨ j = 3 ∨ j = 4 ∨ j = 5 ∨ j = 6 ∨ j = 7 := by omega
  rcases this with h | h | h | h | h | h | h | h <;> subst h <;> decide

/-- The scan of `allocate_bit` returns `-ENOSPC` or an index, not below the
start, whose bit was clear and is set afterwards; no other byte changes. -/
theorem allocate_bit_scan_spec (bitmap : Int → Nat) :
    ∀ (n : Nat) (index : Int), 0 ≤ index →
      (allocate_bit_scan bitmap n index).1 = -ENOSPC
      ∨ (index ≤ (allocate_bit_scan bitmap n index).1
          ∧ bit_is_set bitmap (allocate_bit_scan bitmap n index).1 = false
          ∧ bit_is_set (allocate_bit_scan bitmap n index).2
              (allocate_bit_scan bitmap n index).1 = true) := by
  intro n
  induction n with
  | zero => intro index _; left; rfl
  | succ n ih =>
    intro index h0
    simp only [allocate_bit_scan]
    split_ifs with hb
    · right
      refine ⟨le_refl _, ?_, ?_⟩
      · simp [bit_is_set, hb]
      · simp only [bit_is_set, if_true, or_and_self_nat, bne_iff_ne, ne_eq]
        exact bit_mask_pos _ (Int.emod_nonneg _ (by decide)) (Int.emod_lt_of_pos _ (by decide))
    · rcases ih (index + 1) (by omega) with h | h
      · left; exact h
      · right; exact ⟨by omega, h.2⟩

theorem same_outside_refl (par : Int) (fs : fs_ctx) : same_outside par fs fs :=
  ⟨fun _ _ => rfl, rfl, rfl, rfl, rfl⟩

theorem same_outside_trans (par : Int) (fs1 fs2 fs3 : fs_ctx)
    (h12 : same_outside par fs1 fs2) (h23 : same_outside par fs2 fs3) :
    same_outside par fs1 fs3 := by
  obtain ⟨a1, b1, c1, d1, e1⟩ := h12
  obtain ⟨a2, b2, c2, d2, e2⟩ := h23
  refine ⟨fun k hk => (a2 k hk).trans (a1 k hk), b2.trans b1, c2.trans c1, d2.trans d1, ?_⟩
  rw [e2, e1]

theorem same_outside_initialize_ext_blk (fs : fs_ctx) (par : Int) :
    same_outside par fs (initialize_ext_blk_for_ino fs par).2 := by
  unfold initialize_ext_blk_for_ino
  split_ifs
  · exact same_outside_refl _ _
  · refine ⟨fun k hk => ?_, ?_, ?_, rfl, rfl⟩ <;> simp [get_ino, set_ino, *]

theorem same_outside_initialize_dbs (fs : fs_ctx) (par db n : Int) :
    same_outside par fs (initialize_dbs_at_index_for_ino fs par db n) := by
  unfold initialize_dbs_at_index_for_ino
  refine ⟨fun k hk => ?_, ?_, ?_, rfl, rfl⟩ <;> simp [get_ino, set_ino, *]

theorem same_outside_add_to_dentries (fs : fs_ctx) (par db n : Int) (name : List Nat) :
    same_outside par fs (add_to_dentries_blk_for_ino fs par db n name) := by
  unfold add_to_dentries_blk_for_ino
  refine ⟨fun k hk => ?_, ?_, ?_, rfl, rfl⟩ <;> simp [get_ino, set_ino, *]

theorem same_outside_add_to_ext (fs : fs_ctx) (par db n : Int) :
    same_outside par fs (add_to_ext_blk_for_ino fs par db n) := by
  unfold add_to_ext_blk_for_ino
  refine ⟨fun k hk => ?_, ?_, ?_, rfl, rfl⟩ <;> simp [get_ino, set_ino, *]

theorem size_add_to_dentries (fs : fs_ctx) (par db n : Int) (name : List Nat) :
    (get_ino (add_to_dentries_blk_for_ino fs par db n name) par).size
      = toUInt64 ((get_ino fs par).size + sizeof_a1fs_dentry) := by
  simp [add_to_dentries_blk_for_ino, get_ino, set_ino]

/-- What `add_dentry_to_parent` does to the inode table and the counters when
it succeeds: the size of the parent grows by one dentry, the rest is as in
`same_outside`. -/
theorem add_dentry_to_parent_frame (fs : fs_ctx) (par n : Int) (name : List Nat)
    (h : (add_dentry_to_parent fs par n name).1 = none) :
    same_outside par fs (add_dentry_to_parent fs par n name).2
    ∧ (get_ino (add_dentry_to_parent fs par n name).2 par).size
        = toUInt64 ((get_ino fs par).size + sizeof_a1fs_dentry) := by
  have h1 := same_outside_initialize_ext_blk fs par
  have s1 := size_initialize_ext_blk fs par
  unfold add_dentry_to_parent at h ⊢
  simp only [] at h ⊢
  by_cases he : (get_ino fs par).extents_blk = -1
  · simp only [if_pos he] at h ⊢
    split_ifs at h ⊢ with ha hb hc
    · refine ⟨?_, ?_⟩
      · exact same_outside_trans _ _ _ _ h1
          (same_outside_trans _ _ _ _ (same_outside_initialize_dbs _ _ _ _)
            (same_outside_trans _ _ _ _ (same_outside_add_to_dentries _ _ _ _ _)
              (same_outside_add_to_ext _ _ _ _)))
      · rw [size_add_to_ext, size_add_to_dentries, size_initialize_dbs, s1]
    · refine ⟨same_outside_trans _ _ _ _ h1 (same_outside_add_to_dentries _ _ _ _ _), ?_⟩
      rw [size_add_to_dentries, s1]
  · simp only [if_neg he] at h ⊢
    split_ifs at h ⊢ with ha hb hc
    · refine ⟨?_, ?_⟩
      · exact same_outside_trans _ _ _ _ (same_outside_initialize_dbs _ _ _ _)
            (same_outside_trans _ _ _ _ (same_outside_add_to_dentries _ _ _ _ _)
              (same_outside_add_to_ext _ _ _ _))
      · rw [size_add_to_ext, size_add_to_dentries, size_initialize_dbs]
    · exact ⟨same_outside_add_to_dentries _ _ _ _ _, size_add_to_dentries _ _ _ _ _⟩

/-- The result of `allocate_ino` when it returns an inode number. -/
theorem allocate_ino_spec (fs : fs_ctx) (mode : Nat) (links : Int) (now : timespec)
    (h : 0 ≤ (allocate_ino fs mode links now).1) :
    bit_is_set fs.inode_bitmap (allocate_ino fs mode links now).1 = false
    ∧ bit_is_set (allocate_ino fs mode links now).2.inode_bitmap
        (allocate_ino fs mode links now).1 = true
    ∧ get_ino (allocate_ino fs mode links now).2 (allocate_ino fs mode links now).1
        = { mode := mode, links := toUInt32 links, size := 0, mtime := now,
            index := toUInt32 (allocate_ino fs mode links now).1, used_blocks_count := 0,
            extents_blk := -1, extents_count := 0 }
    ∧ (∀ k, k ≠ (allocate_ino fs mode links now).1 →
        get_ino (allocate_ino fs mode links now).2 k = get_ino fs k)
    ∧ (allocate_ino fs mode links now).2.data = fs.data
    ∧ (allocate_ino fs mode links now).2.sb
        = { fs.sb with free_inodes_count := toUInt32 (fs.sb.free_inodes_count - 1) }
    ∧ 1 ≤ toInt32 fs.sb.free_inodes_count := by
  unfold allocate_ino at h ⊢
  simp only [] at h ⊢
  split_ifs at h ⊢ with h1 h2
  · exact absurd h (by show ¬ (0 : Int) ≤ -ENOSPC; decide)
  · omega
  · have hs := allocate_bit_scan_spec fs.inode_bitmap
      (groupsOfBits (toInt32 fs.sb.inodes_count) * 8).toNat 0 (le_refl _)
    simp only [allocate_bit] at h2 ⊢
    rcases hs with hs | hs
    · rw [hs] at h2
      exact absurd h2 (by decide)
    · refine ⟨hs.2.1, ?_, ?_, ?_, rfl, rfl, by omega⟩
      · simpa [set_ino] using hs.2.2
      · simp [get_ino, set_ino]
      · intro k hk
        simp [get_ino, set_ino, hk]

theorem add_dentry_to_parent_error (fs : fs_ctx) (par n : Int) (name : List Nat) (e : Int)
    (h : (add_dentry_to_parent fs par n name).1 = some e) : e = -ENOSPC := by
  unfold add_dentry_to_parent at h
  simp only [] at h
  split_ifs at h <;> simp_all

theorem range_succ_slots (eb k : Int) (n : Nat) :
    (List.range (n + 1)).map (fun (i : Nat) => eb + sizeof_a1fs_dentry * (k + (i : Int)))
      = (eb + sizeof_a1fs_dentry * k)
        :: (List.range n).map (fun (i : Nat) => eb + sizeof_a1fs_dentry * (k + 1 + (i : Int))) := by
  rw [List.range_succ_eq_map]
  simp only [List.map_cons, List.map_map, Nat.cast_zero, add_zero, List.cons.injEq, true_and]
  apply List.map_congr_left
  intro i _
  simp only [Function.comp, Nat.succ_eq_add_one, Nat.cast_add, Nat.cast_one]
  ring

theorem find_dentry_in_blk_eq (data : Int → Nat) (eb : Int) (name : List Nat) :
    ∀ (n : Nat) (k : Int),
      find_dentry_in_blk data eb name n k
        = (((List.range n).map (fun (i : Nat) => eb + sizeof_a1fs_dentry * (k + (i : Int)))).find?
            (fun e => strcmp_eq data (e + 4) name)).map (load_u32 data) := by
  intro n
  induction n with
  | zero => intro k; rfl
  | succ n ih =>
    intro k
    rw [find_dentry_in_blk, range_succ_slots, List.find?_cons]
    by_cases h : strcmp_eq data (eb + sizeof_a1fs_dentry * k + 4) name = true
    · simp [h]
    · simp only [h, if_false]
      rw [ih (k + 1)]
      simp [h]

theorem find_dentry_in_blks_eq (data : Int → Nat) (name : List Nat) :
    ∀ (bs : List Int) (total : Int),
      find_dentry_in_blks data name bs total
        = ((dir_slots bs total).find? (fun e => strcmp_eq data (e + 4) name)).map
            (load_u32 data) := by
  intro bs
  induction bs with
  | nil => intro total; rfl
  | cons b bs ih =>
    intro total
    rw [find_dentry_in_blks, dir_slots]
    simp only [find_dentry_in_blk_eq, zero_add, List.find?_append, ih]
    cases h : ((List.range (dentries_in_this_blk total).1.toNat).map
        (fun (i : Nat) => get_db b + sizeof_a1fs_dentry * (i : Int))).find?
        (fun e => strcmp_eq data (e + 4) name) with
    | none => simp
    | some e => simp

theorem fill_name_in_blk_eq {β : Type} (data : Int → Nat) (filler : β → List Nat → Int × β)
    (eb : Int) (rest : List (List Nat)) :
    ∀ (n : Nat) (k : Int) (buf : β),
      feed filler (((List.range n).map
          (fun (i : Nat) => eb + sizeof_a1fs_dentry * (k + (i : Int)))).map
          (fun e => load_cstr data (e + 4) A1FS_NAME_MAX) ++ rest) buf
        = if (fill_name_in_blk data filler eb n k buf).1
          then (-ENOMEM, (fill_name_in_blk data filler eb n k buf).2)
          else feed filler rest (fill_name_in_blk data filler eb n k buf).2 := by
  intro n
  induction n with
  | zero => intro k buf; simp [fill_name_in_blk]
  | succ n ih =>
    intro k buf
    rw [fill_name_in_blk, range_succ_slots]
    simp only [List.map_cons, List.cons_append, feed]
    by_cases h : (filler buf (load_cstr data (eb + sizeof_a1fs_dentry * k + 4)
        A1FS_NAME_MAX)).1 ≠ 0
    · simp only [if_pos h, if_true]
    · simp only [if_neg h]
      exact ih (k + 1) _

theorem fill_name_in_blks_eq {β : Type} (data : Int → Nat) (filler : β → List Nat → Int × β) :
    ∀ (bs : List Int) (total : Int) (buf : β),
      fill_name_in_blks data filler bs total buf
        = feed filler ((dir_slots bs total).map
            (fun e => load_cstr data (e + 4) A1FS_NAME_MAX)) buf := by
  intro bs
  induction bs with
  | nil => intro total buf; rfl
  | cons b bs ih =>
    intro total buf
    rw [fill_name_in_blks, dir_slots]
    simp only [List.map_append]
    have := fill_name_in_blk_eq data filler (get_db b)
      ((dir_slots bs (dentries_in_this_blk total).2).map
        (fun e => load_cstr data (e + 4) A1FS_NAME_MAX)) (dentries_in_this_blk total).1.toNat 0 buf
    simp only [zero_add] at this
    rw [this]
    split_ifs with h
    · rfl
    · rw [ih]

/-- In a dense directory the loops visit slot `i % 16` of block `i / 16` for
`i = 0, ..., total - 1`. -/
theorem dir_slots_dense :
    ∀ (bs : List Int) (total : Int), 0 ≤ total → bs.length = (total.toNat + 15) / 16 →
      dir_slots bs total
        = (List.range total.toNat).map (fun (i : Nat) =>
            get_db (bs.getD (i / 16) 0) + sizeof_a1fs_dentry * ((i % 16 : Nat) : Int)) := by
  intro bs
  induction bs with
  | nil =>
    intro total h0 hl
    have : total.toNat = 0 := by simp only [List.length_nil] at hl; omega
    simp [dir_slots, this]
  | cons b bs ih =>
    intro total h0 hl
    simp only [List.length_cons] at hl
    rw [dir_slots]
    by_cases hgt : total > A1FS_EXT_DENTRIES_MAX
    · have hd : dentries_in_this_blk total = (16, total - 16) := by
        simp [dentries_in_this_blk, hgt]
      have ht : total.toNat = 16 + (total - 16).toNat := by
        simp only [A1FS_EXT_DENTRIES_MAX] at hgt; omega
      rw [hd]
      simp only []
      rw [ih (total - 16) (by simp only [A1FS_EXT_DENTRIES_MAX] at hgt; omega) (by omega)]
      rw [ht, List.range_add, List.map_append, List.map_map]
      have p1 : (List.range (16 : Int).toNat).map
            (fun (k : Nat) => get_db b + sizeof_a1fs_dentry * (k : Int))
          = (List.range 16).map (fun (i : Nat) =>
              get_db ((b :: bs).getD (i / 16) 0) + sizeof_a1fs_dentry * ((i % 16 : Nat) : Int)) := by
        show (List.range 16).map _ = _
        apply List.map_congr_left
        intro i hi
        have hi16 : i < 16 := by simpa using hi
        have e1 : i / 16 = 0 := by omega
        have e2 : i % 16 = i := by omega
        simp [e1, e2]
      have p2 : (List.range (total - 16).toNat).map (fun (i : Nat) =>
              get_db (bs.getD (i / 16) 0) + sizeof_a1fs_dentry * ((i % 16 : Nat) : Int))
          = (List.range (total - 16).toNat).map ((fun (i : Nat) =>
              get_db ((b :: bs).getD (i / 16) 0) + sizeof_a1fs_dentry * ((i % 16 : Nat) : Int))
              ∘ (fun x => 16 + x)) := by
        apply List.map_congr_left
        intro i _
        have e1 : (16 + i) / 16 = i / 16 + 1 := by omega
        have e2 : (16 + i) % 16 = i % 16 := by omega
        simp [Function.comp, e1, e2]
      rw [p1, p2]
    · have hd : dentries_in_this_blk total = (total, total) := by
        simp [dentries_in_this_blk, hgt]
      have hle : total.toNat ≤ 16 := by simp only [A1FS_EXT_DENTRIES_MAX] at hgt; omega
      have hbs : bs = [] := by
        apply List.length_eq_zero.mp
        omega
      rw [hd, hbs]
      simp only [dir_slots, List.append_nil]
      apply List.map_congr_left
      intro i hi
      have hi16 : i < total.toNat := by simpa using hi
      have e1 : i / 16 = 0 := by omega
      have e2 : i % 16 = i := by omega
      simp [e1, e2]

/-- The comparison `strcmp(p, s) == 0` holds exactly when the string at `p` is
`s`, for a string `s` with no zero byte that is shorter than the array. -/
theorem strcmp_eq_iff (m : Int → Nat) :
    ∀ (s : List Nat) (p : Int) (n : Nat), (∀ x ∈ s, x ≠ 0) → s.length < n →
      (strcmp_eq m p s = true ↔ load_cstr m p n = s) := by
  intro s
  induction s with
  | nil =>
    intro p n _ hn
    obtain ⟨n', rfl⟩ : ∃ n', n = n' + 1 := ⟨n - 1, by simp only [List.length_nil] at hn; omega⟩
    simp only [strcmp_eq, load_cstr, beq_iff_eq]
    split_ifs with h <;> simp [h]
  | cons x xs ih =>
    intro p n hz hn
    obtain ⟨n', rfl⟩ : ∃ n', n = n' + 1 := ⟨n - 1, by simp only [List.length_cons] at hn; omega⟩
    have hx : x ≠ 0 := hz x (by simp)
    have ih2 := ih (p + 1) n' (fun y hy => hz y (List.mem_cons_of_mem _ hy))
      (by simp only [List.length_cons] at hn; omega)
    simp only [strcmp_eq, load_cstr, Bool.and_eq_true, beq_iff_eq]
    split_ifs with h
    · constructor
      · intro hh; rw [h] at hh; exact absurd hh.1.symm hx
      · intro hh; simp at hh
    · rw [ih2]
      simp

theorem load_u32_nonneg (m : Int → Nat) (p : Int) : 0 ≤ load_u32 m p := by
  unfold load_u32
  exact Int.ofNat_nonneg _

/-- The directory lookup of the code agrees with `dir_lookup` on a directory
that is `good_dir`, for a name with no zero byte and shorter than the array. -/
theorem get_dentry_ino_no_good (fs : fs_ctx) (ino : a1fs_inode) (name : List Nat)
    (hg : good_dir fs ino) (hz : ∀ x ∈ name, x ≠ 0) (hn : name.length < A1FS_NAME_MAX) :
    get_dentry_ino_no fs ino name
      = (match dir_lookup fs ino name with
         | some n => n
         | none => -ENOENT)
    ∧ ∀ n, dir_lookup fs ino name = some n → 0 ≤ n := by
  obtain ⟨g1, ⟨d1, d2, d3, d4⟩, g3⟩ := hg
  have hm : 0 ≤ ino.size / sizeof_a1fs_dentry := Int.ediv_nonneg d1 (by decide)
  have ht : toInt32 (ino.size / sizeof_a1fs_dentry) = ino.size / sizeof_a1fs_dentry := by
    unfold toInt32; omega
  have hpos : ∀ n, dir_lookup fs ino name = some n → 0 ≤ n ∧ n < 2147483648 := by
    intro n hn'
    unfold dir_lookup at hn'
    simp only [Option.map_eq_some'] at hn'
    obtain ⟨i, hi, rfl⟩ := hn'
    have := List.mem_of_find?_eq_some hi
    exact ⟨load_u32_nonneg _ _, g3 i (by simpa using this)⟩
  refine ⟨?_, fun n h => (hpos n h).1⟩
  unfold get_dentry_ino_no
  by_cases he : ino.extents_blk = -1
  · simp only [if_pos he]
    have : dir_lookup fs ino name = none := by
      unfold dir_lookup
      rw [d4 he]
      rfl
    rw [this]
  · simp only [if_neg he, g1, Bool.not_true, Bool.false_eq_true, if_false]
    have key : find_dentry_in_blks fs.data name (ino_blocks fs ino)
        (toInt32 (ino.size / sizeof_a1fs_dentry)) = dir_lookup fs ino name := by
      rw [find_dentry_in_blks_eq, ht, dir_slots_dense _ _ hm d3, List.find?_map]
      unfold dir_lookup
      rw [Option.map_map]
      have hp : ((fun e => strcmp_eq fs.data (e + 4) name) ∘ fun (i : Nat) =>
            get_db ((ino_blocks fs ino).getD (i / 16) 0)
              + sizeof_a1fs_dentry * ((i % 16 : Nat) : Int))
          = fun i => decide (dentry_name fs ino i = name) := by
        funext i
        simp only [Function.comp]
        rw [Bool.eq_iff_iff, strcmp_eq_iff fs.data name _ A1FS_NAME_MAX hz hn]
        simp [dentry_name, dentry_ptr]
      rw [hp]
      rfl
    rw [key]
    cases h : dir_lookup fs ino name with
    | none => rfl
    | some n =>
      have := hpos n h
      simp only []
      unfold toInt32
      omega

theorem mem_strsep_all :
    ∀ (path : List Nat) (t : List Nat), t ∈ strsep_all path → ∀ x ∈ t, x ∈ path := by
  intro path
  induction path with
  | nil =>
    intro t ht x hx
    simp only [strsep_all, List.mem_singleton] at ht
    rw [ht] at hx
    exact hx
  | cons c cs ih =>
    intro t ht x hx
    rw [strsep_all] at ht
    split_ifs at ht with hc
    · rcases List.mem_cons.mp ht with h | h
      · rw [h] at hx; exact absurd hx (List.not_mem_nil _)
      · exact List.mem_cons_of_mem _ (ih t h x hx)
    · cases hs : strsep_all cs with
      | nil =>
        rw [hs] at ht
        simp only [List.mem_singleton] at ht
        rw [ht] at hx
        simp only [List.mem_singleton] at hx
        rw [hx]
        exact List.mem_cons_self _ _
      | cons t0 ts =>
        rw [hs] at ht ih
        rcases List.mem_cons.mp ht with h | h
        · rw [h] at hx
          rcases List.mem_cons.mp hx with h2 | h2
          · rw [h2]; exact List.mem_cons_self _ _
          · exact List.mem_cons_of_mem _ (ih t0 (List.mem_cons_self _ _) x h2)
        · exact List.mem_cons_of_mem _ (ih t (List.mem_cons_of_mem _ h) x hx)

/-- The loop of `path_lookup` over tokens agrees with `resolve` over the
non-empty tokens when every inode it looks a component up in is `good_dir`. -/
theorem path_lookup_loop_resolve (fs : fs_ctx) :
    ∀ (toks : List (List Nat)) (p c : Int),
      (∀ t ∈ toks, (∀ x ∈ t, x ≠ 0) ∧ t.length < A1FS_NAME_MAX) →
      (∀ k ∈ lookup_dirs fs toks c, good_dir fs (get_ino fs k)) →
      (path_lookup_loop fs toks (p, c)).2
        = (match resolve fs (toks.filter (fun t => t ≠ [])) c with
           | some n => n
           | none => -ENOENT) := by
  intro toks
  induction toks with
  | nil => intro p c _ _; rfl
  | cons t ts ih =>
    intro p c hn hg
    by_cases ht : t = []
    · subst ht
      simp only [path_lookup_loop, if_true, ne_eq, not_true_eq_false, decide_False,
        Bool.false_eq_true, not_false_eq_true, List.filter_cons_of_neg]
      apply ih p c (fun t ht => hn t (List.mem_cons_of_mem _ ht))
      intro k hk
      apply hg
      simpa [lookup_dirs] using hk
    · have hgc : good_dir fs (get_ino fs c) := hg c (by simp [lookup_dirs, ht])
      obtain ⟨e1, e2⟩ := get_dentry_ino_no_good fs (get_ino fs c) t hgc
        (hn t (List.mem_cons_self _ _)).1 (hn t (List.mem_cons_self _ _)).2
      have hf : (t :: ts).filter (fun t => t ≠ []) = t :: ts.filter (fun t => t ≠ []) := by
        simp [ht]
      rw [hf]
      simp only [path_lookup_loop, if_neg ht, resolve]
      cases hl : dir_lookup fs (get_ino fs c) t with
      | none =>
        rw [hl] at e1
        simp only [] at e1
        rw [e1]
        simp
      | some n =>
        rw [hl] at e1
        simp only [] at e1
        have hn0 := e2 n hl
        rw [e1, if_neg (not_lt.mpr hn0)]
        apply ih c n (fun t ht => hn t (List.mem_cons_of_mem _ ht))
        intro k hk
        apply hg
        simp only [lookup_dirs, if_neg ht, e1, if_neg (not_lt.mpr hn0)]
        exact List.mem_cons_of_mem _ hk

/-! ## Lemmas: loads and stores in the data region -/

theorem store_u32_frame (m : Int → Nat) (p v a : Int) (h : a < p ∨ p + 4 ≤ a) :
    store_u32 m p v a = m a := by
  unfold store_u32
  rw [if_neg (by omega), if_neg (by omega), if_neg (by omega), if_neg (by omega)]

theorem memcpy_frame (m : Int → Nat) (p : Int) (buf : List Nat) (a : Int)
    (h : a < p ∨ p + buf.length ≤ a) : memcpy m p buf a = m a := by
  unfold memcpy
  rw [if_neg (by omega)]

theorem strncpy_length (s : List Nat) (n : Nat) :
    (s.take n ++ List.replicate (n - s.length) 0).length = n := by
  simp only [List.length_append, List.length_take, List.length_replicate]
  omega

theorem strncpy_frame (m : Int → Nat) (p : Int) (s : List Nat) (n : Nat) (a : Int)
    (h : a < p ∨ p + n ≤ a) : strncpy m p s n a = m a := by
  unfold strncpy
  apply memcpy_frame
  rw [strncpy_length]
  exact h

theorem load_u32_congr (m1 m2 : Int → Nat) (p : Int)
    (h : ∀ a, p ≤ a → a < p + 4 → m1 a = m2 a) : load_u32 m1 p = load_u32 m2 p := by
  unfold load_u32
  rw [h p (by omega) (by omega), h (p + 1) (by omega) (by omega),
    h (p + 2) (by omega) (by omega), h (p + 3) (by omega) (by omega)]

theorem load_cstr_congr (m1 m2 : Int → Nat) :
    ∀ (n : Nat) (p : Int), (∀ a, p ≤ a → a < p + n → m1 a = m2 a) →
      load_cstr m1 p n = load_cstr m2 p n := by
  intro n
  induction n with
  | zero => intro p _; rfl
  | succ n ih =>
    intro p h
    simp only [load_cstr]
    rw [h p (by omega) (by push_cast; omega)]
    rw [ih (p + 1) (fun a h1 h2 => h a (by omega) (by push_cast; omega))]

theorem strcmp_eq_congr (m1 m2 : Int → Nat) :
    ∀ (s : List Nat) (p : Int), (∀ a, p ≤ a → a ≤ p + s.length → m1 a = m2 a) →
      strcmp_eq m1 p s = strcmp_eq m2 p s := by
  intro s
  induction s with
  | nil =>
    intro p h
    simp only [strcmp_eq]
    rw [h p (by omega) (by simp)]
  | cons x xs ih =>
    intro p h
    simp only [strcmp_eq]
    rw [h p (by omega) (by simp only [List.length_cons]; push_cast; omega)]
    rw [ih (p + 1) (fun a h1 h2 => h a (by omega)
      (by simp only [List.length_cons]; push_cast; omega))]

theorem load_cstr_length (m : Int → Nat) :
    ∀ (n : Nat) (p : Int), (load_cstr m p n).length ≤ n := by
  intro n
  induction n with
  | zero => intro p; simp [load_cstr]
  | succ n ih =>
    intro p
    simp only [load_cstr]
    split_ifs
    · simp
    · simp only [List.length_cons]
      have := ih (p + 1)
      omega

theorem load_cstr_ne_zero (m : Int → Nat) :
    ∀ (n : Nat) (p : Int), ∀ x ∈ load_cstr m p n, x ≠ 0 := by
  intro n
  induction n with
  | zero => intro p x hx; simp [load_cstr] at hx
  | succ n ih =>
    intro p x hx
    simp only [load_cstr] at hx
    split_ifs at hx with h
    · simp at hx
    · rcases List.mem_cons.mp hx with h1 | h1
      · rw [h1]; exact h
      · exact ih (p + 1) x h1

/-- The string read back after `memcpy` of a string with no zero byte, padded
with zeros up to `n` bytes. -/
theorem load_cstr_memcpy (m : Int → Nat) :
    ∀ (s : List Nat) (k : Nat) (p : Int), (∀ x ∈ s, x ≠ 0) →
      load_cstr (memcpy m p (s ++ List.replicate k 0)) p (s.length + k) = s := by
  intro s
  induction s with
  | nil =>
    intro k p _
    cases k with
    | zero => rfl
    | succ k =>
      simp only [List.nil_append, List.length_nil, zero_add, load_cstr]
      have : memcpy m p (List.replicate (k + 1) 0) p = 0 := by
        unfold memcpy
        simp only [List.length_replicate]
        rw [if_pos (by constructor <;> push_cast <;> omega)]
        simp [List.replicate_succ]
      rw [if_pos this]
  | cons x xs ih =>
    intro k p hz
    have hx : x ≠ 0 := hz x (by simp)
    have e : (x :: xs).length + k = (xs.length + k) + 1 := by
      simp only [List.length_cons]; omega
    rw [e]
    simp only [load_cstr]
    have h0 : memcpy m p (x :: xs ++ List.replicate k 0) p = x := by
      unfold memcpy
      rw [if_pos (by
        refine ⟨le_refl _, ?_⟩
        simp only [List.cons_append, List.length_cons]
        push_cast
        omega)]
      simp
    rw [h0, if_neg hx]
    congr 1
    have hc : load_cstr (memcpy m p (x :: xs ++ List.replicate k 0)) (p + 1) (xs.length + k)
        = load_cstr (memcpy m (p + 1) (xs ++ List.replicate k 0)) (p + 1) (xs.length + k) := by
      apply load_cstr_congr
      intro a h1 h2
      unfold memcpy
      simp only [List.cons_append, List.length_cons, List.length_append, List.length_replicate]
      rw [if_pos (by constructor <;> push_cast <;> omega),
        if_pos (by constructor <;> push_cast <;> omega)]
      have : (a - p).toNat = (a - (p + 1)).toNat + 1 := by omega
      rw [this]
      rfl
    rw [hc]
    exact ih k (p + 1) (fun y hy => hz y (List.mem_cons_of_mem _ hy))

theorem load_cstr_strncpy (m : Int → Nat) (p : Int) (s : List Nat) (n : Nat)
    (hz : ∀ x ∈ s, x ≠ 0) (hn : s.length ≤ n) :
    load_cstr (strncpy m p s n) p n = s := by
  unfold strncpy
  have h1 : s.take n = s := List.take_of_length_le hn
  rw [h1]
  have h2 : n = s.length + (n - s.length) := by omega
  conv_lhs => rw [h2]
  have h3 : s.length + (n - s.length) - s.length = n - s.length := by omega
  rw [h3]
  exact load_cstr_memcpy m s (n - s.length) p hz

theorem load_u32_store_u32 (m : Int → Nat) (p v : Int) :
    load_u32 (store_u32 m p v) p = toUInt32 v := by
  have b0 : store_u32 m p v p = ((toUInt32 v) % 256).toNat := by
    unfold store_u32
    rw [if_pos rfl]
  have b1 : store_u32 m p v (p + 1) = ((toUInt32 v) / 256 % 256).toNat := by
    unfold store_u32
    rw [if_neg (by omega), if_pos rfl]
  have b2 : store_u32 m p v (p + 2) = ((toUInt32 v) / 65536 % 256).toNat := by
    unfold store_u32
    rw [if_neg (by omega), if_neg (by omega), if_pos rfl]
  have b3 : store_u32 m p v (p + 3) = ((toUInt32 v) / 16777216 % 256).toNat := by
    unfold store_u32
    rw [if_neg (by omega), if_neg (by omega), if_neg (by omega), if_pos rfl]
  have hu : 0 ≤ toUInt32 v ∧ toUInt32 v < 4294967296 := by
    unfold toUInt32
    omega
  unfold load_u32
  rw [b0, b1, b2, b3]
  generalize toUInt32 v = u at hu
  have c0 : (((u % 256).toNat : Nat) : Int) = u % 256 := Int.toNat_of_nonneg (by omega)
  have c1 : (((u / 256 % 256).toNat : Nat) : Int) = u / 256 % 256 :=
    Int.toNat_of_nonneg (by omega)
  have c2 : (((u / 65536 % 256).toNat : Nat) : Int) = u / 65536 % 256 :=
    Int.toNat_of_nonneg (by omega)
  have c3 : (((u / 16777216 % 256).toNat : Nat) : Int) = u / 16777216 % 256 :=
    Int.toNat_of_nonneg (by omega)
  push_cast
  rw [c0, c1, c2, c3]
  omega

/-- The bit that `allocate_bit_at_index` sets is set afterwards. -/
theorem bit_is_set_allocate_bit_at_index (bitmap : Int → Nat) (b : Int) (h : 0 ≤ b) :
    bit_is_set (allocate_bit_at_index bitmap b) b = true := by
  unfold bit_is_set allocate_bit_at_index
  rw [Int.tdiv_eq_ediv h (by decide), Int.tmod_eq_emod h (by decide)]
  simp only [if_true, or_and_self_nat, bne_iff_ne, ne_eq]
  exact bit_mask_pos _ (Int.emod_nonneg _ (by decide)) (Int.emod_lt_of_pos _ (by decide))

/-! ## Lemmas: the state that the formatter leaves -/

/-- The state that `mkfs` leaves when it succeeds, for an inode count below
`2^32` and a block count below `2^31`. -/
theorem mkfs_eq_of_in_range (image : fs_ctx) (N I : Int) (h f z : Bool) (now : timespec)
    (hI : 1 ≤ I) (hI2 : I < 4294967296) (hN : 0 ≤ N) (hN2 : N < 2147483648)
    (hrem : ¬ (N - 1 - ceil_div I 32768 - ceil_div (I * 64) 4096 ≤ 1)) :
    mkfs image (N * 4096) ⟨I, h, f, z⟩ now
      = (true,
         ⟨⟨A1FS_MAGIC, N * 4096, I, N,
            N - 1 - ceil_div I 32768 - ceil_div (I * 64) 4096
              - ceil_div (N - 1 - ceil_div I 32768 - ceil_div (I * 64) 4096) 32768,
            I - 1,
            N - 1 - ceil_div I 32768 - ceil_div (I * 64) 4096
              - ceil_div (N - 1 - ceil_div I 32768 - ceil_div (I * 64) 4096) 32768,
            1, 1 + ceil_div I 32768,
            1 + ceil_div I 32768
              + ceil_div (N - 1 - ceil_div I 32768 - ceil_div (I * 64) 4096) 32768,
            1 + ceil_div I 32768
              + ceil_div (N - 1 - ceil_div I 32768 - ceil_div (I * 64) 4096) 32768
              + ceil_div (I * 64) 4096,
            64, 1⟩,
          fun k => if k = 0 then 128
            else memset0 image.inode_bitmap 0 (ceil_div I 32768 * 4096) k,
          memset0 image.data_bitmap 0
            (ceil_div (N - 1 - ceil_div I 32768 - ceil_div (I * 64) 4096) 32768 * 4096),
          fun k => if k = 0 then ⟨S_IFDIR ||| 0o777, 2, 0, now, 0, 0, -1, 0⟩
            else if 0 ≤ k ∧ k * 64 < ceil_div (I * 64) 4096 * 4096
            then ⟨0, 0, 0, ⟨0, 0⟩, 0, 0, 0, 0⟩
            else image.inode_table k,
          image.data⟩) := by
  generalize hib : ceil_div I 32768 = ib at hrem ⊢
  generalize hit : ceil_div (I * 64) 4096 = it at hrem ⊢
  generalize hdb : ceil_div (N - 1 - ib - it) 32768 = db
  have e1 : toUInt32 I = I := by unfold toUInt32; omega
  have e2 : toUInt64 (N * 4096) = N * 4096 := by unfold toUInt64; omega
  have e3 : div_round_up (N * 4096) 4096 = N := by
    rw [div_round_up_eq_ceil_div _ _ (by omega) (by decide)]; unfold ceil_div; omega
  have e4 : toUInt32 N = N := by unfold toUInt32; omega
  have e5 : div_round_up I 32768 = ib := by
    rw [div_round_up_eq_ceil_div _ _ (by omega) (by decide), hib]
  have e6 : toUInt64 (I * 64) = I * 64 := by unfold toUInt64; omega
  have e7 : div_round_up (I * 64) 4096 = it := by
    rw [div_round_up_eq_ceil_div _ _ (by omega) (by decide), hit]
  have hibr : 1 ≤ ib ∧ ib ≤ 131072 := by rw [← hib]; simp only [ceil_div]; omega
  have hitr : 1 ≤ it ∧ it ≤ 67108864 := by rw [← hit]; simp only [ceil_div]; omega
  have e8 : toInt32 ib = ib := by unfold toInt32; omega
  have e9 : toInt32 it = it := by unfold toInt32; omega
  have e10 : toInt32 (N - 1 - ib - it) = N - 1 - ib - it := by unfold toInt32; omega
  have e11 : toUInt32 (I - 1) = I - 1 := by unfold toUInt32; omega
  have e0 : (4096 : Int) * 8 = 32768 := by norm_num
  have e12 : div_round_up (N - 1 - ib - it) 32768 = db := by
    rw [div_round_up_eq_ceil_div _ _ (by omega) (by decide), hdb]
  have hdbr : 1 ≤ db ∧ db < N - 1 - ib - it ∧ db ≤ 65536 := by
    rw [← hdb]; simp only [ceil_div]; omega
  have e13 : toUInt32 (1 + ib) = 1 + ib := by unfold toUInt32; omega
  have e14 : toUInt32 (1 + ib + db) = 1 + ib + db := by unfold toUInt32; omega
  have e15 : toUInt32 (1 + ib + db + it) = 1 + ib + db + it := by unfold toUInt32; omega
  have e16 : toUInt32 (N - (1 + ib + db + it)) = N - 1 - ib - it - db := by
    unfold toUInt32; omega
  have e17 : toUInt32 (N - 1 - ib - it - db) = N - 1 - ib - it - db := by
    unfold toUInt32; omega
  have e18 : toUInt64 (toUInt64 (1 + ib + db + it) * 4096) = (1 + ib + db + it) * 4096 := by
    unfold toUInt64; omega
  have hsz : ¬ (N * 4096 ≤ (1 + ib + db + it) * 4096) := by omega
  simp only [mkfs, e0, e1, e2, e3, e4, e5, e6, e7, e8, e9, e10, e11, e12, e13, e14, e15,
    e16, e17, e18, A1FS_BLOCK_SIZE, sizeof_a1fs_inode, if_neg hrem, if_neg hsz]

theorem mkfs_fails_of_no_room (image : fs_ctx) (N I : Int) (h f z : Bool) (now : timespec)
    (hI : 1 ≤ I) (hI2 : I < 4294967296) (hN : 0 ≤ N) (hN2 : N < 2147483648)
    (hrem : N - 1 - ceil_div I 32768 - ceil_div (I * 64) 4096 ≤ 1) :
    (mkfs image (N * 4096) ⟨I, h, f, z⟩ now).1 = false := by
  generalize hib : ceil_div I 32768 = ib at hrem ⊢
  generalize hit : ceil_div (I * 64) 4096 = it at hrem ⊢
  have e1 : toUInt32 I = I := by unfold toUInt32; omega
  have e2 : toUInt64 (N * 4096) = N * 4096 := by unfold toUInt64; omega
  have e3 : div_round_up (N * 4096) 4096 = N := by
    rw [div_round_up_eq_ceil_div _ _ (by omega) (by decide)]; unfold ceil_div; omega
  have e4 : toUInt32 N = N := by unfold toUInt32; omega
  have e5 : div_round_up I 32768 = ib := by
    rw [div_round_up_eq_ceil_div _ _ (by omega) (by decide), hib]
  have e6 : toUInt64 (I * 64) = I * 64 := by unfold toUInt64; omega
  have e7 : div_round_up (I * 64) 4096 = it := by
    rw [div_round_up_eq_ceil_div _ _ (by omega) (by decide), hit]
  have hibr : 1 ≤ ib ∧ ib ≤ 131072 := by rw [← hib]; simp only [ceil_div]; omega
  have hitr : 1 ≤ it ∧ it ≤ 67108864 := by rw [← hit]; simp only [ceil_div]; omega
  have e8 : toInt32 ib = ib := by unfold toInt32; omega
  have e9 : toInt32 it = it := by unfold toInt32; omega
  have e10 : toInt32 (N - 1 - ib - it) = N - 1 - ib - it := by unfold toInt32; omega
  have e0 : (4096 : Int) * 8 = 32768 := by norm_num
  simp only [mkfs, e0, e1, e2, e3, e4, e5, e6, e7, e8, e9, e10, A1FS_BLOCK_SIZE,
    sizeof_a1fs_inode, if_pos hrem]

theorem bit_is_set_of_byte_zero (bitmap : Int → Nat) (k : Int) (h : bitmap (k / 8) = 0) :
    bit_is_set bitmap k = false := by
  unfold bit_is_set
  rw [h, Nat.zero_and]
  rfl

theorem bit_is_set_of_byte_128 (bitmap : Int → Nat) (k : Int) (h0 : 0 < k) (h8 : k < 8)
    (h : bitmap 0 = 128) : bit_is_set bitmap k = false := by
  unfold bit_is_set
  have hk : k / 8 = 0 := by omega
  have hm : k % 8 = k := by omega
  rw [hk, hm, h]
  have : k = 1 ∨ k = 2 ∨ k = 3 ∨ k = 4 ∨ k = 5 ∨ k = 6 ∨ k = 7 := by omega
  rcases this with e | e | e | e | e | e | e <;> subst e <;> decide

theorem count_set_eq_zero (bitmap : Int → Nat) (c : Nat)
    (h : ∀ k : Nat, k < c → bit_is_set bitmap (k : Int) = false) : count_set bitmap c = 0 := by
  unfold count_set
  rw [List.length_eq_zero, List.filter_eq_nil_iff]
  intro k hk
  rw [h k (List.mem_range.mp hk)]
  decide

theorem count_set_eq_one (bitmap : Int → Nat) (c : Nat) (hc : 0 < c)
    (h0 : bit_is_set bitmap 0 = true)
    (h : ∀ k : Nat, 0 < k → k < c → bit_is_set bitmap (k : Int) = false) :
    count_set bitmap c = 1 := by
  obtain ⟨c', rfl⟩ : ∃ c', c = c' + 1 := ⟨c - 1, by omega⟩
  unfold count_set
  rw [List.range_succ_eq_map, List.filter_cons]
  simp only [Nat.cast_zero, h0, if_true, List.length_cons]
  have : (List.map Nat.succ (List.range c')).filter
      (fun (k : Nat) => bit_is_set bitmap (k : Int)) = [] := by
    rw [List.filter_eq_nil_iff]
    intro k hk
    simp only [List.mem_map, List.mem_range] at hk
    obtain ⟨j, hj, rfl⟩ := hk
    rw [h (j + 1) (by omega) (by omega)]
    decide
  rw [this]
  rfl

/-! ## Lemmas: the removal of a dentry and `a1fs_unlink` -/

theorem replaced_frame (data : Int → Nat) (entry last a : Int)
    (h : a < entry ∨ entry + sizeof_a1fs_dentry ≤ a) : replaced data entry last a = data a := by
  unfold replaced
  rw [strncpy_frame _ _ _ _ _ (by simp only [sizeof_a1fs_dentry, A1FS_NAME_MAX] at h ⊢; omega),
    store_u32_frame _ _ _ _ (by simp only [sizeof_a1fs_dentry] at h; omega)]

/-- The name of the overwritten dentry is the name of the dentry at `last`,
when the two are the same slot or do not overlap. -/
theorem replaced_name (data : Int → Nat) (entry last : Int)
    (h : last = entry ∨ last + sizeof_a1fs_dentry ≤ entry ∨ entry + 4 ≤ last) :
    load_cstr (replaced data entry last) (entry + 4) A1FS_NAME_MAX
      = load_cstr data (last + 4) A1FS_NAME_MAX := by
  unfold replaced
  rw [load_cstr_strncpy _ _ _ _ (load_cstr_ne_zero _ _ _) (load_cstr_length _ _ _)]
  apply load_cstr_congr
  intro a h1 h2
  apply store_u32_frame
  simp only [sizeof_a1fs_dentry, A1FS_NAME_MAX] at h h2
  omega

/-- A block with no dentry of the name is left as it is. -/
theorem replace_dentry_in_blk_none (par eb : Int) (name : List Nat) :
    ∀ (n : Nat) (k : Int) (fs : fs_ctx),
      (∀ i : Nat, i < n →
        strcmp_eq fs.data (eb + sizeof_a1fs_dentry * (k + (i : Int)) + 4) name = false) →
      replace_dentry_in_blk par eb name n k fs = fs := by
  intro n
  induction n with
  | zero => intro k fs _; rfl
  | succ n ih =>
    intro k fs h
    rw [replace_dentry_in_blk]
    have h0 := h 0 (Nat.succ_pos _)
    simp only [Nat.cast_zero, add_zero] at h0
    simp only [h0, Bool.false_eq_true, if_false]
    apply ih
    intro i hi
    have := h (i + 1) (by omega)
    rw [← this]
    congr 3
    push_cast
    ring

/-- In a block whose first dentry of the name is in slot `k + i`, that dentry
is overwritten with the last dentry of the directory. -/
theorem replace_dentry_in_blk_hit (par eb : Int) (name : List Nat) :
    ∀ (n : Nat) (k : Int) (fs : fs_ctx) (i : Nat), i < n →
      (∀ i' : Nat, i' < i →
        strcmp_eq fs.data (eb + sizeof_a1fs_dentry * (k + (i' : Int)) + 4) name = false) →
      strcmp_eq fs.data (eb + sizeof_a1fs_dentry * (k + (i : Int)) + 4) name = true →
      replace_dentry_in_blk par eb name n k fs
        = set_data fs (replaced fs.data (eb + sizeof_a1fs_dentry * (k + (i : Int)))
            (get_last_dentry_for_ino fs (get_ino fs par))) := by
  intro n
  induction n with
  | zero => intro k fs i hi; omega
  | succ n ih =>
    intro k fs i hi hbefore hat
    rw [replace_dentry_in_blk]
    cases i with
    | zero =>
      simp only [Nat.cast_zero, add_zero] at hat ⊢
      simp only [hat, if_true]
      rfl
    | succ i =>
      have h0 := hbefore 0 (Nat.succ_pos _)
      simp only [Nat.cast_zero, add_zero] at h0
      simp only [h0, Bool.false_eq_true, if_false]
      have e : k + ((i + 1 : Nat) : Int) = k + 1 + (i : Int) := by push_cast; ring
      rw [e] at hat ⊢
      apply ih (k + 1) fs i (by omega) _ hat
      intro i' hi'
      have := hbefore (i' + 1) (by omega)
      rw [← this]
      congr 3
      push_cast
      ring

/-- Blocks with no dentry of the name are left as they are. -/
theorem replace_in_blks_none (par : Int) (name : List Nat) :
    ∀ (bs : List Int) (total : Int) (fs : fs_ctx),
      (∀ e ∈ dir_slots bs total, strcmp_eq fs.data (e + 4) name = false) →
      replace_in_blks par name bs total fs = fs := by
  intro bs
  induction bs with
  | nil => intro total fs _; rfl
  | cons b bs ih =>
    intro total fs h
    rw [replace_in_blks]
    have hb : replace_dentry_in_blk par (get_db b) name (dentries_in_this_blk total).1.toNat 0 fs
        = fs := by
      apply replace_dentry_in_blk_none
      intro i hi
      apply h
      rw [dir_slots]
      apply List.mem_append_left
      simp only [List.mem_map, List.mem_range]
      exact ⟨i, hi, by simp⟩
    rw [hb]
    apply ih
    intro e he
    apply h
    rw [dir_slots]
    exact List.mem_append_right _ he

/-- When one dentry among those visited has the name, and after it is
overwritten none has, the traversal overwrites that dentry with the last dentry
of the directory and changes nothing else. -/
theorem replace_in_blks_hit (par : Int) (name : List Nat) (e0 : Int) :
    ∀ (bs : List Int) (total : Int) (fs : fs_ctx),
      (dir_slots bs total).Nodup →
      e0 ∈ dir_slots bs total →
      strcmp_eq fs.data (e0 + 4) name = true →
      (∀ e ∈ dir_slots bs total, e ≠ e0 → strcmp_eq fs.data (e + 4) name = false) →
      (∀ e ∈ dir_slots bs total, e ≠ e0 →
        strcmp_eq (replaced fs.data e0 (get_last_dentry_for_ino fs (get_ino fs par))) (e + 4) name
          = false) →
      replace_in_blks par name bs total fs
        = set_data fs (replaced fs.data e0 (get_last_dentry_for_ino fs (get_ino fs par))) := by
  intro bs
  induction bs with
  | nil => intro total fs _ hm; simp [dir_slots] at hm
  | cons b bs ih =>
    intro total fs hnd hm hat huniq hafter
    rw [dir_slots] at hnd hm huniq hafter
    rw [replace_in_blks]
    have hnd' := List.nodup_append.mp hnd
    rcases List.mem_append.mp hm with h1 | h1
    · -- the dentry is in this block
      simp only [List.mem_map, List.mem_range] at h1
      obtain ⟨i, hi, hie⟩ := h1
      have hb : replace_dentry_in_blk par (get_db b) name
          (dentries_in_this_blk total).1.toNat 0 fs
          = set_data fs (replaced fs.data e0 (get_last_dentry_for_ino fs (get_ino fs par))) := by
        rw [replace_dentry_in_blk_hit par (get_db b) name _ 0 fs i hi]
        · simp only [zero_add, hie]
        · intro i' hi'
          simp only [zero_add]
          apply huniq
          · apply List.mem_append_left
            simp only [List.mem_map, List.mem_range]
            exact ⟨i', by omega, rfl⟩
          · rw [← hie]
            simp only [sizeof_a1fs_dentry]
            omega
        · simp only [zero_add, hie]
          exact hat
      rw [hb]
      apply replace_in_blks_none
      intro e he
      apply hafter e (List.mem_append_right _ he)
      intro hee
      have hin : e0 ∈ (List.range (dentries_in_this_blk total).1.toNat).map
          (fun (k : Nat) => get_db b + sizeof_a1fs_dentry * (k : Int)) := by
        simp only [List.mem_map, List.mem_range]
        exact ⟨i, hi, hie⟩
      exact hnd'.2.2 hin (hee ▸ he)
    · -- the dentry is in a later block
      have hb : replace_dentry_in_blk par (get_db b) name
          (dentries_in_this_blk total).1.toNat 0 fs = fs := by
        apply replace_dentry_in_blk_none
        intro i hi
        simp only [zero_add]
        have hin : get_db b + sizeof_a1fs_dentry * (i : Int)
            ∈ (List.range (dentries_in_this_blk total).1.toNat).map
              (fun (k : Nat) => get_db b + sizeof_a1fs_dentry * (k : Int)) := by
          simp only [List.mem_map, List.mem_range]
          exact ⟨i, hi, rfl⟩
        apply huniq _ (List.mem_append_left _ hin)
        intro hee
        exact hnd'.2.2 hin (hee ▸ h1)
      rw [hb]
      exact ih _ fs hnd'.2.1 h1 hat
        (fun e he => huniq e (List.mem_append_right _ he))
        (fun e he => hafter e (List.mem_append_right _ he))

theorem ino_blocks_eq (fs : fs_ctx) (ino : a1fs_inode) :
    ino_blocks fs ino = (int_range 0 (toInt32 ino.extents_count)).flatMap (ext_blocks fs ino) :=
  rfl

theorem replace_in_blks_append (par : Int) (name : List Nat) :
    ∀ (bs1 bs2 : List Int) (total : Int) (fs : fs_ctx),
      replace_in_blks par name (bs1 ++ bs2) total fs
        = replace_in_blks par name bs2 (total_after bs1.length total)
            (replace_in_blks par name bs1 total fs) := by
  intro bs1
  induction bs1 with
  | nil => intro bs2 total fs; rfl
  | cons b bs ih =>
    intro bs2 total fs
    rw [List.cons_append, replace_in_blks, replace_in_blks, List.length_cons, total_after]
    exact ih bs2 _ _

theorem replace_dentry_in_ext_eq (par : Int) (name : List Nat) (ext : a1fs_extent) :
    ∀ (n : Nat) (j : Int) (fs : fs_ctx) (total : Int),
      replace_dentry_in_ext par name ext n j (fs, total)
        = (replace_in_blks par name
            ((List.range n).map (fun (x : Nat) => toInt32 (ext.start + (j + (x : Int))))) total fs,
           total_after n total) := by
  intro n
  induction n with
  | zero => intro j fs total; rfl
  | succ n ih =>
    intro j fs total
    rw [replace_dentry_in_ext, ih, List.range_succ_eq_map]
    simp only [List.map_cons, List.map_map, replace_in_blks, total_after, Nat.cast_zero, add_zero]
    congr 2
    apply List.map_congr_left
    intro x _
    simp only [Function.comp, Nat.succ_eq_add_one, Nat.cast_add, Nat.cast_one]
    congr 2
    ring

theorem dentries_in_this_blk_le (total : Int) : (dentries_in_this_blk total).1.toNat ≤ 16 := by
  unfold dentries_in_this_blk
  split_ifs with h
  · show (16 : Int).toNat ≤ 16
    decide
  · simp only [A1FS_EXT_DENTRIES_MAX] at h ⊢
    omega

/-- The loop over one block writes inside the block only and leaves the rest
of the state alone. -/
theorem replace_dentry_in_blk_frame (par eb : Int) (name : List Nat) :
    ∀ (n : Nat) (k : Int) (fs : fs_ctx), 0 ≤ k → k + n ≤ 16 →
      ∃ d, replace_dentry_in_blk par eb name n k fs = set_data fs d
        ∧ ∀ a, (a < eb ∨ eb + A1FS_BLOCK_SIZE ≤ a) → d a = fs.data a := by
  intro n
  induction n with
  | zero => intro k fs _ _; exact ⟨fs.data, rfl, fun _ _ => rfl⟩
  | succ n ih =>
    intro k fs h0 h16
    rw [replace_dentry_in_blk]
    simp only []
    split_ifs with h
    · refine ⟨_, rfl, ?_⟩
      intro a ha
      have := replaced_frame fs.data (eb + sizeof_a1fs_dentry * k)
        (get_last_dentry_for_ino fs (get_ino fs par)) a
        (by simp only [sizeof_a1fs_dentry, A1FS_BLOCK_SIZE] at ha ⊢; push_cast at h16; omega)
      exact this
    · exact ih (k + 1) fs (by omega) (by push_cast at h16 ⊢; omega)

/-- The traversal of a list of blocks writes inside these blocks only. -/
theorem replace_in_blks_frame (par : Int) (name : List Nat) :
    ∀ (bs : List Int) (total : Int) (fs : fs_ctx),
      ∃ d, replace_in_blks par name bs total fs = set_data fs d
        ∧ ∀ a, (∀ b ∈ bs, a < get_db b ∨ get_db b + A1FS_BLOCK_SIZE ≤ a) → d a = fs.data a := by
  intro bs
  induction bs with
  | nil => intro total fs; exact ⟨fs.data, rfl, fun _ _ => rfl⟩
  | cons b bs ih =>
    intro total fs
    rw [replace_in_blks]
    obtain ⟨d1, e1, f1⟩ := replace_dentry_in_blk_frame par (get_db b) name
      (dentries_in_this_blk total).1.toNat 0 fs (le_refl _)
      (by have := dentries_in_this_blk_le total; omega)
    rw [e1]
    obtain ⟨d2, e2, f2⟩ := ih (dentries_in_this_blk total).2 (set_data fs d1)
    refine ⟨d2, by rw [e2]; rfl, ?_⟩
    intro a ha
    rw [f2 a (fun b' hb' => ha b' (List.mem_cons_of_mem _ hb'))]
    exact f1 a (ha b (List.mem_cons_self _ _))

theorem load_extent_congr (fs1 fs2 : fs_ctx) (ino : a1fs_inode) (i : Int)
    (h0 : 0 ≤ i) (h512 : i < 512)
    (h : ∀ a, get_exts_blk ino ≤ a → a < get_exts_blk ino + A1FS_BLOCK_SIZE →
      fs1.data a = fs2.data a) :
    load_extent fs1 ino i = load_extent fs2 ino i := by
  unfold load_extent
  simp only [sizeof_a1fs_extent, A1FS_BLOCK_SIZE] at h ⊢
  rw [load_u32_congr fs1.data fs2.data _ (fun a h1 h2 => h a (by omega) (by omega)),
    load_u32_congr fs1.data fs2.data (get_exts_blk ino + 8 * i + 4)
      (fun a h1 h2 => h a (by omega) (by omega))]

theorem int_range_eq (lo hi : Int) :
    int_range lo hi = (List.range (hi - lo).toNat).map (fun (k : Nat) => lo + (k : Int)) := by
  unfold int_range
  simp only [List.bind_eq_flatMap, List.pure_def, List.map_flatMap, List.map_cons, List.map_nil]
  induction List.range (hi - lo).toNat with
  | nil => rfl
  | cons a l ih => simp only [List.flatMap_cons, List.map_cons, ih, List.singleton_append]

theorem ext_blocks_eq_range (fs : fs_ctx) (ino : a1fs_inode) (i : Int) :
    ext_blocks fs ino i
      = (List.range (toInt32 (load_extent fs ino i).count).toNat).map
          (fun (x : Nat) => toInt32 ((load_extent fs ino i).start + (0 + (x : Int)))) := by
  simp only [ext_blocks, int_range_eq, sub_zero, List.map_map, Function.comp_def]

theorem replace_dentry_in_exts_succ (par : Int) (name : List Nat) (n : Nat) (i : Int)
    (fs : fs_ctx) (total : Int) :
    replace_dentry_in_exts par name (n + 1) i (fs, total)
      = replace_dentry_in_exts par name n (i + 1)
          (replace_dentry_in_ext par name (load_extent fs (get_ino fs par) i)
            (toInt32 (load_extent fs (get_ino fs par) i).count).toNat 0 (fs, total)) := by
  delta replace_dentry_in_exts
  rfl

theorem replace_dentry_in_exts_zero (par : Int) (name : List Nat) (i : Int)
    (st : fs_ctx × Int) :
    replace_dentry_in_exts par name 0 i st = st := by
  delta replace_dentry_in_exts
  rfl

theorem flatMap_range_succ (f : Nat → List Int) (n : Nat) :
    (List.range (n + 1)).flatMap f = f 0 ++ (List.range n).flatMap (fun x => f (x + 1)) := by
  rw [List.range_succ_eq_map, List.flatMap_cons, List.flatMap_map]

theorem ext_blocks_length (fs : fs_ctx) (ino : a1fs_inode) (i : Int) :
    (ext_blocks fs ino i).length = (toInt32 (load_extent fs ino i).count).toNat := by
  rw [ext_blocks_eq_range, List.length_map, List.length_range]

/-- The loop over the extents of `traverse_exts_to_replace_dentry` is the
traversal of the blocks of these extents, as long as no such block is the
extent block of the directory. -/
theorem replace_dentry_in_exts_eq (fs0 : fs_ctx) (par : Int) (name : List Nat) :
    ∀ (n : Nat) (i : Int) (fs : fs_ctx) (total : Int), 0 ≤ i → i + n ≤ 512 →
      get_ino fs par = get_ino fs0 par →
      (∀ a, get_exts_blk (get_ino fs0 par) ≤ a →
        a < get_exts_blk (get_ino fs0 par) + A1FS_BLOCK_SIZE → fs.data a = fs0.data a) →
      (∀ x : Nat, x < n → ∀ b ∈ ext_blocks fs0 (get_ino fs0 par) (i + (x : Int)),
        b ≠ (get_ino fs0 par).extents_blk) →
      (replace_dentry_in_exts par name n i (fs, total)).1
        = replace_in_blks par name
            ((List.range n).flatMap (fun (x : Nat) =>
              ext_blocks fs0 (get_ino fs0 par) (i + (x : Int)))) total fs := by
  intro n
  induction n with
  | zero =>
    intro i fs total _ _ _ _ _
    rw [replace_dentry_in_exts_zero]
    rfl
  | succ n ih =>
    intro i fs total h0 h512 hino hdata hne
    have hext : load_extent fs (get_ino fs par) i = load_extent fs0 (get_ino fs0 par) i := by
      rw [hino]
      exact load_extent_congr fs fs0 _ i h0 (by push_cast at h512; omega) hdata
    rw [replace_dentry_in_exts_succ, hext, replace_dentry_in_ext_eq,
      ← ext_blocks_eq_range fs0 (get_ino fs0 par) i]
    obtain ⟨d, e1, f1⟩ := replace_in_blks_frame par name (ext_blocks fs0 (get_ino fs0 par) i)
      total fs
    have hne0 : ∀ b ∈ ext_blocks fs0 (get_ino fs0 par) i, b ≠ (get_ino fs0 par).extents_blk := by
      intro b hb
      have := hne 0 (Nat.succ_pos _) b
      rw [Nat.cast_zero, add_zero] at this
      exact this hb
    have hd : ∀ a, get_exts_blk (get_ino fs0 par) ≤ a →
        a < get_exts_blk (get_ino fs0 par) + A1FS_BLOCK_SIZE → d a = fs0.data a := by
      intro a h1 h2
      rw [f1 a, hdata a h1 h2]
      intro b hb
      have hbne := hne0 b hb
      simp only [get_db, get_exts_blk, A1FS_BLOCK_SIZE] at h1 h2 ⊢
      omega
    have hnext := ih (i + 1) (set_data fs d)
      (total_after (toInt32 (load_extent fs0 (get_ino fs0 par) i).count).toNat total)
      (by omega) (by push_cast at h512 ⊢; omega) hino hd
      (by
        intro x hx b hb
        apply hne (x + 1) (by omega) b
        have e : i + ((x + 1 : Nat) : Int) = i + 1 + (x : Int) := by push_cast; ring
        rw [e]
        exact hb)
    rw [e1, hnext, flatMap_range_succ, replace_in_blks_append, Nat.cast_zero, add_zero, e1,
      ext_blocks_length]
    have hl : (List.range n).flatMap (fun (x : Nat) =>
          ext_blocks fs0 (get_ino fs0 par) (i + ((x + 1 : Nat) : Int)))
        = (List.range n).flatMap (fun (x : Nat) =>
          ext_blocks fs0 (get_ino fs0 par) (i + 1 + (x : Int))) := by
      have : ∀ x : Nat, i + ((x + 1 : Nat) : Int) = i + 1 + (x : Int) := by
        intro x; push_cast; ring
      simp only [this]
    rw [hl]

/-- Every dentry address that the loops visit is one of the 16 slots of one of
the blocks. -/
theorem dir_slots_mem :
    ∀ (bs : List Int) (total : Int) (e : Int), e ∈ dir_slots bs total →
      ∃ b ∈ bs, ∃ k : Nat, k < 16 ∧ e = get_db b + sizeof_a1fs_dentry * (k : Int) := by
  intro bs
  induction bs with
  | nil => intro total e he; simp [dir_slots] at he
  | cons b bs ih =>
    intro total e he
    rw [dir_slots] at he
    rcases List.mem_append.mp he with h | h
    · simp only [List.mem_map, List.mem_range] at h
      obtain ⟨k, hk, rfl⟩ := h
      have := dentries_in_this_blk_le total
      exact ⟨b, List.mem_cons_self _ _, k, by omega, rfl⟩
    · obtain ⟨b', hb', k, hk, rfl⟩ := ih _ e h
      exact ⟨b', List.mem_cons_of_mem _ hb', k, hk, rfl⟩

theorem ino_blocks_congr (fs1 fs2 : fs_ctx) (ino : a1fs_inode)
    (hc : toInt32 ino.extents_count ≤ 512)
    (h : ∀ a, get_exts_blk ino ≤ a → a < get_exts_blk ino + A1FS_BLOCK_SIZE →
      fs1.data a = fs2.data a) :
    ino_blocks fs1 ino = ino_blocks fs2 ino := by
  rw [ino_blocks_eq, ino_blocks_eq, int_range_eq]
  simp only [List.flatMap_map, sub_zero, zero_add]
  apply List.flatMap_congr
  intro x hx
  have hx' : x < (toInt32 ino.extents_count).toNat := List.mem_range.mp hx
  have e : load_extent fs1 ino (x : Int) = load_extent fs2 ino (x : Int) :=
    load_extent_congr fs1 fs2 ino x (by omega) (by omega) h
  simp only [ext_blocks, e]

theorem find?_congr_mem {α : Type} (p q : α → Bool) :
    ∀ (l : List α), (∀ x ∈ l, p x = q x) → l.find? p = l.find? q := by
  intro l
  induction l with
  | nil => intro _; rfl
  | cons a l ih =>
    intro h
    rw [List.find?_cons, List.find?_cons, h a (List.mem_cons_self _ _),
      ih (fun x hx => h x (List.mem_cons_of_mem _ hx))]

/-- The lookup in a directory reads the extent block of the directory and its
dentry blocks only. -/
theorem get_dentry_ino_no_data_congr (fs1 fs2 : fs_ctx) (ino : a1fs_inode) (name : List Nat)
    (hn : name.length < A1FS_NAME_MAX) (hc : toInt32 ino.extents_count ≤ 512)
    (he : ∀ a, get_exts_blk ino ≤ a → a < get_exts_blk ino + A1FS_BLOCK_SIZE →
      fs1.data a = fs2.data a)
    (hb : ∀ b ∈ ino_blocks fs1 ino, ∀ a, get_db b ≤ a → a < get_db b + A1FS_BLOCK_SIZE →
      fs1.data a = fs2.data a) :
    get_dentry_ino_no fs1 ino name = get_dentry_ino_no fs2 ino name := by
  unfold get_dentry_ino_no
  rw [← ino_blocks_congr fs1 fs2 ino hc he]
  have key : find_dentry_in_blks fs1.data name (ino_blocks fs1 ino)
        (toInt32 (ino.size / sizeof_a1fs_dentry))
      = find_dentry_in_blks fs2.data name (ino_blocks fs1 ino)
        (toInt32 (ino.size / sizeof_a1fs_dentry)) := by
    rw [find_dentry_in_blks_eq, find_dentry_in_blks_eq]
    have hslot : ∀ e ∈ dir_slots (ino_blocks fs1 ino) (toInt32 (ino.size / sizeof_a1fs_dentry)),
        ∀ a, e ≤ a → a < e + sizeof_a1fs_dentry → fs1.data a = fs2.data a := by
      intro e hmem a h1 h2
      obtain ⟨b, hbm, k, hk, rfl⟩ := dir_slots_mem _ _ e hmem
      apply hb b hbm a
      · simp only [sizeof_a1fs_dentry] at h1 ⊢; omega
      · simp only [sizeof_a1fs_dentry, A1FS_BLOCK_SIZE] at h2 ⊢; omega
    have hp : ∀ e ∈ dir_slots (ino_blocks fs1 ino) (toInt32 (ino.size / sizeof_a1fs_dentry)),
        strcmp_eq fs1.data (e + 4) name = strcmp_eq fs2.data (e + 4) name := by
      intro e hmem
      apply strcmp_eq_congr
      intro a h1 h2
      apply hslot e hmem a (by omega)
      simp only [sizeof_a1fs_dentry, A1FS_NAME_MAX] at hn ⊢
      omega
    rw [find?_congr_mem _ _ _ hp]
    cases hf : (dir_slots (ino_blocks fs1 ino) (toInt32 (ino.size / sizeof_a1fs_dentry))).find?
        (fun e => strcmp_eq fs2.data (e + 4) name) with
    | none => rfl
    | some e =>
      simp only [Option.map_some', Option.some.injEq]
      apply load_u32_congr
      intro a h1 h2
      apply hslot e (List.mem_of_find?_eq_some hf) a h1
      simp only [sizeof_a1fs_dentry]
      omega
  simp only [key]

/-- The blocks of an inode whose last extent is not empty: the blocks of the
extents before the last, the blocks of the last extent but one, and the last
block. -/
theorem ino_blocks_split (fs : fs_ctx) (ino : a1fs_inode)
    (hc : 1 ≤ ino.extents_count ∧ ino.extents_count ≤ 512)
    (hl : 1 ≤ (load_extent fs ino (ino.extents_count - 1)).count
      ∧ (load_extent fs ino (ino.extents_count - 1)).count < 2147483648) :
    ino_blocks fs ino
      = (List.range (ino.extents_count - 1).toNat).flatMap
          (fun (x : Nat) => ext_blocks fs ino (x : Int))
        ++ ((List.range ((load_extent fs ino (ino.extents_count - 1)).count - 1).toNat).map
              (fun (x : Nat) =>
                toInt32 ((load_extent fs ino (ino.extents_count - 1)).start + (x : Int)))
            ++ [toInt32 ((load_extent fs ino (ino.extents_count - 1)).start
                  + ((load_extent fs ino (ino.extents_count - 1)).count - 1))]) := by
  have e1 : (toInt32 ino.extents_count).toNat = (ino.extents_count - 1).toNat + 1 := by
    unfold toInt32; omega
  have e2 : (((ino.extents_count - 1).toNat : Nat) : Int) = ino.extents_count - 1 := by omega
  have e3 : (toInt32 (load_extent fs ino (ino.extents_count - 1)).count).toNat
      = ((load_extent fs ino (ino.extents_count - 1)).count - 1).toNat + 1 := by
    unfold toInt32; omega
  have e4 : ((((load_extent fs ino (ino.extents_count - 1)).count - 1).toNat : Nat) : Int)
      = (load_extent fs ino (ino.extents_count - 1)).count - 1 := by omega
  have e5 : ext_blocks fs ino (ino.extents_count - 1)
      = (List.range ((load_extent fs ino (ino.extents_count - 1)).count - 1).toNat).map
            (fun (x : Nat) =>
              toInt32 ((load_extent fs ino (ino.extents_count - 1)).start + (x : Int)))
          ++ [toInt32 ((load_extent fs ino (ino.extents_count - 1)).start
                + ((load_extent fs ino (ino.extents_count - 1)).count - 1))] := by
    conv_lhs =>
      simp only [ext_blocks_eq_range, e3, List.range_succ, List.map_append, List.map_cons,
        List.map_nil, zero_add, e4]
  conv_lhs =>
    simp only [ino_blocks_eq, int_range_eq, List.flatMap_map, sub_zero, zero_add, e1,
      List.range_succ, List.flatMap_append, List.flatMap_cons, List.flatMap_nil,
      List.append_nil, e2, e5]

theorem get_last_data_blk_no_eq (fs : fs_ctx) (ino : a1fs_inode)
    (hc : 1 ≤ ino.extents_count ∧ ino.extents_count ≤ 512) :
    get_last_data_blk_no fs ino
      = toInt32 ((load_extent fs ino (ino.extents_count - 1)).start
          + ((load_extent fs ino (ino.extents_count - 1)).count - 1)) := by
  unfold get_last_data_blk_no
  have e : toUInt32 (ino.extents_count - 1) = ino.extents_count - 1 := by
    unfold toUInt32; omega
  rw [if_neg (by omega), e]

theorem getD_append_last (xs : List Int) (l d : Int) :
    (xs ++ [l]).getD xs.length d = l := by
  simp [List.getD_eq_getElem?_getD]

theorem getD_append_left (xs ys : List Int) (i : Nat) (d : Int) (h : i < xs.length) :
    (xs ++ ys).getD i d = xs.getD i d := by
  simp [List.getD_eq_getElem?_getD, List.getElem?_append_left h]

theorem and_mod_and_zero (x M B : Nat) (h : x &&& B = 0) : ((x &&& M) % 256) &&& B = 0 := by
  have e : (x &&& M) % 256 = (x &&& M) &&& 255 := by
    have := Nat.and_pow_two_sub_one_eq_mod (x &&& M) 8
    simpa using this.symm
  rw [e]
  apply Nat.eq_of_testBit_eq
  intro i
  have hi := congrArg (fun n => Nat.testBit n i) h
  simp only [Nat.testBit_and, Nat.zero_testBit] at hi ⊢
  cases hx : x.testBit i <;> cases hB : B.testBit i <;> simp_all

theorem and_mask_mod_and_zero (x M B : Nat) (h : M &&& B = 0) : ((x &&& M) % 256) &&& B = 0 := by
  have e : (x &&& M) % 256 = (x &&& M) &&& 255 := by
    have := Nat.and_pow_two_sub_one_eq_mod (x &&& M) 8
    simpa using this.symm
  rw [e]
  apply Nat.eq_of_testBit_eq
  intro i
  have hi := congrArg (fun n => Nat.testBit n i) h
  simp only [Nat.testBit_and, Nat.zero_testBit] at hi ⊢
  cases hx : M.testBit i <;> cases hB : B.testBit i <;> simp_all

/-- The function `deallocate_bit_at_index` sets no bit. -/
theorem bit_is_set_deallocate_mono (bitmap : Int → Nat) (b k : Int)
    (h : bit_is_set bitmap k = false) :
    bit_is_set (deallocate_bit_at_index bitmap b) k = false := by
  unfold bit_is_set at h ⊢
  unfold deallocate_bit_at_index
  simp only [bne_eq_false_iff_eq] at h ⊢
  split_ifs with hk
  · rw [← hk]
    exact and_mod_and_zero _ _ _ h
  · exact h

/-- The function `deallocate_bit_at_index` clears the bit of a non-negative
index. -/
theorem bit_is_set_deallocate_self (bitmap : Int → Nat) (b : Int) (h0 : 0 ≤ b) :
    bit_is_set (deallocate_bit_at_index bitmap b) b = false := by
  unfold bit_is_set deallocate_bit_at_index
  rw [Int.tdiv_eq_ediv h0 (by decide), Int.tmod_eq_emod h0 (by decide)]
  simp only [if_true, bne_eq_false_iff_eq]
  apply and_mask_mod_and_zero
  have hj : b % 8 = 0 ∨ b % 8 = 1 ∨ b % 8 = 2 ∨ b % 8 = 3 ∨ b % 8 = 4 ∨ b % 8 = 5
      ∨ b % 8 = 6 ∨ b % 8 = 7 := by omega
  rcases hj with e | e | e | e | e | e | e | e <;> rw [e] <;> decide

/-- The slot of dentry `i` lies inside the block `i / 16` of the directory. -/
theorem dentry_ptr_in_block (fs : fs_ctx) (ino : a1fs_inode) (i : Nat)
    (hi : i / 16 < (ino_blocks fs ino).length) :
    (ino_blocks fs ino).getD (i / 16) 0 ∈ ino_blocks fs ino
    ∧ get_db ((ino_blocks fs ino).getD (i / 16) 0) ≤ dentry_ptr fs ino i
    ∧ dentry_ptr fs ino i + sizeof_a1fs_dentry
        ≤ get_db ((ino_blocks fs ino).getD (i / 16) 0) + A1FS_BLOCK_SIZE := by
  refine ⟨?_, ?_, ?_⟩
  · rw [List.getD_eq_getElem?_getD, List.getElem?_eq_getElem hi]
    exact List.getElem_mem hi
  · unfold dentry_ptr
    simp only [sizeof_a1fs_dentry]
    omega
  · unfold dentry_ptr
    simp only [sizeof_a1fs_dentry, A1FS_BLOCK_SIZE]
    omega

/-- The slots of two different dentries of a directory whose blocks are
pairwise different do not overlap. -/
theorem dentry_ptr_disjoint (fs : fs_ctx) (ino : a1fs_inode) (i j : Nat)
    (hnd : (ino_blocks fs ino).Nodup)
    (hi : i / 16 < (ino_blocks fs ino).length) (hj : j / 16 < (ino_blocks fs ino).length)
    (hij : i ≠ j) :
    dentry_ptr fs ino i + sizeof_a1fs_dentry ≤ dentry_ptr fs ino j
    ∨ dentry_ptr fs ino j + sizeof_a1fs_dentry ≤ dentry_ptr fs ino i := by
  unfold dentry_ptr
  simp only [sizeof_a1fs_dentry, get_db, A1FS_BLOCK_SIZE]
  by_cases hb : i / 16 = j / 16
  · rw [hb]
    omega
  · have hne : (ino_blocks fs ino).getD (i / 16) 0 ≠ (ino_blocks fs ino).getD (j / 16) 0 := by
      rw [List.getD_eq_getElem?_getD, List.getElem?_eq_getElem hi,
        List.getD_eq_getElem?_getD, List.getElem?_eq_getElem hj]
      simp only [Option.getD_some]
      intro heq
      exact hb ((List.Nodup.getElem_inj_iff hnd).mp heq)
    omega

/-- The facts about sizes that `wf_dir` gives. -/
theorem wf_dir_size (fs : fs_ctx) (ino : a1fs_inode) (hw : wf_dir fs ino) :
    ino.size = sizeof_a1fs_dentry * (dentries_count ino : Int)
    ∧ toInt32 (ino.size / sizeof_a1fs_dentry) = (dentries_count ino : Int)
    ∧ (ino_blocks fs ino).length = (dentries_count ino + 15) / 16 := by
  obtain ⟨⟨_, ⟨d1, d2, d3, _⟩, _⟩, hs, _⟩ := hw
  unfold dentries_count at d3 ⊢
  simp only [sizeof_a1fs_dentry] at d1 d2 d3 hs ⊢
  refine ⟨by omega, ?_, d3⟩
  unfold toInt32
  omega

/-- The dentries that the loops visit in a `wf_dir` are the dentries
`0, ..., m - 1`. -/
theorem dir_slots_wf (fs : fs_ctx) (ino : a1fs_inode) (hw : wf_dir fs ino) :
    dir_slots (ino_blocks fs ino) (dentries_count ino : Int)
      = (List.range (dentries_count ino)).map (dentry_ptr fs ino) := by
  obtain ⟨_, _, h3⟩ := wf_dir_size fs ino hw
  rw [dir_slots_dense _ _ (by omega) (by simpa using h3)]
  simp only [Int.toNat_ofNat]
  rfl

theorem dentry_index_lt (fs : fs_ctx) (ino : a1fs_inode) (hw : wf_dir fs ino) (i : Nat)
    (hi : i < dentries_count ino) : i / 16 < (ino_blocks fs ino).length := by
  obtain ⟨_, _, h3⟩ := wf_dir_size fs ino hw
  omega

theorem dir_slots_wf_nodup (fs : fs_ctx) (ino : a1fs_inode) (hw : wf_dir fs ino) :
    (dir_slots (ino_blocks fs ino) (dentries_count ino : Int)).Nodup := by
  rw [dir_slots_wf fs ino hw]
  apply List.Nodup.map_on _ (List.nodup_range _)
  intro i hi j hj heq
  by_contra hne
  have hi' := dentry_index_lt fs ino hw i (List.mem_range.mp hi)
  have hj' := dentry_index_lt fs ino hw j (List.mem_range.mp hj)
  have := dentry_ptr_disjoint fs ino i j hw.2.2.2.1 hi' hj' hne
  simp only [sizeof_a1fs_dentry] at this
  omega

theorem ino_blocks_of_no_extent (fs : fs_ctx) (ino : a1fs_inode) (h : ino.extents_count = 0) :
    ino_blocks fs ino = [] := by
  have e : (toInt32 ino.extents_count).toNat = 0 := by
    rw [h]
    decide
  conv_lhs => simp only [ino_blocks_eq, int_range_eq, sub_zero, e, List.range_zero, List.map_nil,
    List.flatMap_nil]

/-- A `wf_dir` with a dentry has an extent, and its last extent is not empty. -/
theorem wf_dir_extents (fs : fs_ctx) (ino : a1fs_inode) (hw : wf_dir fs ino)
    (hm : 0 < dentries_count ino) :
    (1 ≤ ino.extents_count ∧ ino.extents_count ≤ 512)
    ∧ 1 ≤ (load_extent fs ino (ino.extents_count - 1)).count
    ∧ (load_extent fs ino (ino.extents_count - 1)).count < 2147483648 := by
  obtain ⟨_, _, h3⟩ := wf_dir_size fs ino hw
  obtain ⟨_, _, _, _, _, c0, c512, hext⟩ := hw
  have hc : 1 ≤ ino.extents_count := by
    by_contra hlt
    have hz : ino.extents_count = 0 := by omega
    rw [ino_blocks_of_no_extent fs ino hz] at h3
    simp only [List.length_nil] at h3
    omega
  simp only [A1FS_EXTS_MAX] at c512
  exact ⟨⟨hc, c512⟩, hext _ (by omega) (by omega)⟩

/-- The last block of a `wf_dir` with a dentry. -/
theorem wf_dir_last_block (fs : fs_ctx) (ino : a1fs_inode) (hw : wf_dir fs ino)
    (hm : 0 < dentries_count ino) :
    (ino_blocks fs ino).getD ((dentries_count ino - 1) / 16) 0
      = get_last_data_blk_no fs ino := by
  obtain ⟨hc, hl⟩ := wf_dir_extents fs ino hw hm
  obtain ⟨_, _, h3⟩ := wf_dir_size fs ino hw
  rw [get_last_data_blk_no_eq fs ino hc]
  have hs := ino_blocks_split fs ino hc hl
  rw [hs] at h3 ⊢
  rw [← List.append_assoc] at h3 ⊢
  generalize (List.range (ino.extents_count - 1).toNat).flatMap
        (fun (x : Nat) => ext_blocks fs ino (x : Int))
      ++ (List.range ((load_extent fs ino (ino.extents_count - 1)).count - 1).toNat).map
          (fun (x : Nat) =>
            toInt32 ((load_extent fs ino (ino.extents_count - 1)).start + (x : Int))) = xs
    at h3 ⊢
  rw [List.length_append, List.length_singleton] at h3
  have hidx : (dentries_count ino - 1) / 16 = xs.length := by omega
  rw [hidx, getD_append_last]

/-- The pointer to the last dentry of a `wf_dir` is the slot of dentry `m - 1`. -/
theorem get_last_dentry_wf (fs : fs_ctx) (ino : a1fs_inode) (hw : wf_dir fs ino)
    (hm : 0 < dentries_count ino) :
    get_last_dentry_for_ino fs ino = dentry_ptr fs ino (dentries_count ino - 1) := by
  obtain ⟨h1, _, _⟩ := wf_dir_size fs ino hw
  unfold get_last_dentry_for_ino dentry_ptr
  simp only []
  rw [wf_dir_last_block fs ino hw hm]
  congr 2
  unfold get_size_in_last_blk
  simp only [sizeof_a1fs_dentry, A1FS_BLOCK_SIZE] at h1 ⊢
  split_ifs with ha hb
  · omega
  · unfold toInt32
    omega
  · unfold toInt32
    omega

/-- The comparison of the name of dentry `i` of a directory with a name, for a
name with no zero byte that is shorter than the array. -/
theorem strcmp_dentry (fs : fs_ctx) (ino : a1fs_inode) (i : Nat) (name : List Nat)
    (hz : ∀ x ∈ name, x ≠ 0) (hlen : name.length < A1FS_NAME_MAX) :
    strcmp_eq fs.data (dentry_ptr fs ino i + 4) name = true ↔ dentry_name fs ino i = name := by
  rw [strcmp_eq_iff fs.data name _ A1FS_NAME_MAX hz hlen]
  rfl

theorem strcmp_dentry_false (fs : fs_ctx) (ino : a1fs_inode) (i : Nat) (name : List Nat)
    (hz : ∀ x ∈ name, x ≠ 0) (hlen : name.length < A1FS_NAME_MAX)
    (h : dentry_name fs ino i ≠ name) :
    strcmp_eq fs.data (dentry_ptr fs ino i + 4) name = false := by
  rw [← Bool.not_eq_true]
  intro ht
  exact h ((strcmp_dentry fs ino i name hz hlen).mp ht)

/-- After dentry `i0` of a `wf_dir` is overwritten with the last dentry, every
other dentry compares with a name as before. -/
theorem strcmp_replaced_other (fs : fs_ctx) (ino : a1fs_inode) (hw : wf_dir fs ino)
    (i0 i l : Nat) (name : List Nat) (hlen : name.length < A1FS_NAME_MAX)
    (hi0 : i0 < dentries_count ino) (hi : i < dentries_count ino) (hne : i ≠ i0) :
    strcmp_eq (replaced fs.data (dentry_ptr fs ino i0) (dentry_ptr fs ino l))
        (dentry_ptr fs ino i + 4) name
      = strcmp_eq fs.data (dentry_ptr fs ino i + 4) name := by
  apply strcmp_eq_congr
  intro a h1 h2
  apply replaced_frame
  have := dentry_ptr_disjoint fs ino i i0 hw.2.2.2.1 (dentry_index_lt fs ino hw i hi)
    (dentry_index_lt fs ino hw i0 hi0) hne
  simp only [sizeof_a1fs_dentry, A1FS_NAME_MAX] at this hlen ⊢
  omega

/-- The loops of `traverse_exts_to_replace_dentry` in a `wf_dir` that has the
name in dentry `i0`: that dentry is overwritten with the last dentry. -/
theorem replace_in_blks_wf (fs : fs_ctx) (par : Int) (name : List Nat) (i0 : Nat)
    (hw : wf_dir fs (get_ino fs par))
    (hi0 : i0 < dentries_count (get_ino fs par))
    (hname : dentry_name fs (get_ino fs par) i0 = name)
    (hz : ∀ x ∈ name, x ≠ 0) (hlen : name.length < A1FS_NAME_MAX) :
    replace_in_blks par name (ino_blocks fs (get_ino fs par))
        (dentries_count (get_ino fs par) : Int) fs
      = set_data fs (replaced fs.data (dentry_ptr fs (get_ino fs par) i0)
          (dentry_ptr fs (get_ino fs par) (dentries_count (get_ino fs par) - 1))) := by
  have hm : 0 < dentries_count (get_ino fs par) := by omega
  have hslots := dir_slots_wf fs (get_ino fs par) hw
  rw [← get_last_dentry_wf fs (get_ino fs par) hw hm]
  apply replace_in_blks_hit par name (dentry_ptr fs (get_ino fs par) i0)
  · exact dir_slots_wf_nodup fs (get_ino fs par) hw
  · rw [hslots]
    exact List.mem_map.mpr ⟨i0, List.mem_range.mpr hi0, rfl⟩
  · exact (strcmp_dentry fs (get_ino fs par) i0 name hz hlen).mpr hname
  · intro e he hne
    rw [hslots] at he
    obtain ⟨i, hi, rfl⟩ := List.mem_map.mp he
    apply strcmp_dentry_false fs _ i name hz hlen
    intro hn
    apply hne
    rw [hw.2.2.1 i i0 (List.mem_range.mp hi) hi0 (hn.trans hname.symm)]
  · intro e he hne
    rw [hslots] at he
    obtain ⟨i, hi, rfl⟩ := List.mem_map.mp he
    have hii : i ≠ i0 := fun h => hne (by rw [h])
    rw [get_last_dentry_wf fs (get_ino fs par) hw hm,
      strcmp_replaced_other fs _ hw i0 i _ name hlen hi0 (List.mem_range.mp hi) hii]
    apply strcmp_dentry_false fs _ i name hz hlen
    intro hn
    exact hii (hw.2.2.1 i i0 (List.mem_range.mp hi) hi0 (hn.trans hname.symm))

theorem ino_blocks_eq_range (fs : fs_ctx) (ino : a1fs_inode) :
    ino_blocks fs ino
      = (List.range (toInt32 ino.extents_count).toNat).flatMap
          (fun (x : Nat) => ext_blocks fs ino (0 + (x : Int))) := by
  conv_lhs => simp only [ino_blocks_eq, int_range_eq, sub_zero, List.flatMap_map]

theorem mem_ino_blocks_of_ext (fs : fs_ctx) (ino : a1fs_inode) (x : Nat)
    (hx : x < (toInt32 ino.extents_count).toNat) (b : Int)
    (hb : b ∈ ext_blocks fs ino (0 + (x : Int))) : b ∈ ino_blocks fs ino := by
  rw [ino_blocks_eq_range]
  exact List.mem_flatMap.mpr ⟨x, List.mem_range.mpr hx, hb⟩

/-- The function `traverse_exts_to_replace_dentry` in a `wf_dir` that has the
name in dentry `i0`: that dentry is overwritten with the last dentry and the
size drops by one dentry. -/
theorem traverse_exts_to_replace_dentry_wf (fs : fs_ctx) (par : Int) (name : List Nat)
    (i0 : Nat) (hw : wf_dir fs (get_ino fs par))
    (hi0 : i0 < dentries_count (get_ino fs par))
    (hname : dentry_name fs (get_ino fs par) i0 = name)
    (hz : ∀ x ∈ name, x ≠ 0) (hlen : name.length < A1FS_NAME_MAX) :
    traverse_exts_to_replace_dentry fs par name
      = set_size
          (set_data fs (replaced fs.data (dentry_ptr fs (get_ino fs par) i0)
            (dentry_ptr fs (get_ino fs par) (dentries_count (get_ino fs par) - 1))))
          par (toUInt64 ((get_ino fs par).size - sizeof_a1fs_dentry)) := by
  obtain ⟨h1, h2, _⟩ := wf_dir_size fs (get_ino fs par) hw
  have hs0 : ¬ ((get_ino fs par).size = 0) := by
    simp only [sizeof_a1fs_dentry] at h1
    omega
  have hcnt : toInt32 (get_ino fs par).extents_count = (get_ino fs par).extents_count := by
    have c0 := hw.2.2.2.2.2.1
    have c512 := hw.2.2.2.2.2.2.1
    simp only [A1FS_EXTS_MAX] at c512
    unfold toInt32
    omega
  have hloop : (replace_dentry_in_exts par name (toInt32 (get_ino fs par).extents_count).toNat 0
        (fs, toInt32 ((get_ino fs par).size / sizeof_a1fs_dentry))).1
      = set_data fs (replaced fs.data (dentry_ptr fs (get_ino fs par) i0)
          (dentry_ptr fs (get_ino fs par) (dentries_count (get_ino fs par) - 1))) := by
    rw [replace_dentry_in_exts_eq fs par name _ 0 fs _ (le_refl _)
      (by
        have c512 := hw.2.2.2.2.2.2.1
        simp only [A1FS_EXTS_MAX] at c512
        rw [hcnt]
        omega)
      rfl (fun _ _ _ => rfl)
      (fun x hx b hb => (hw.2.2.2.2.1 b (mem_ino_blocks_of_ext fs _ x hx b hb)).2),
      ← ino_blocks_eq_range, h2]
    exact replace_in_blks_wf fs par name i0 hw hi0 hname hz hlen
  unfold traverse_exts_to_replace_dentry
  simp only [if_neg hs0, hloop]
  rfl

theorem ino_blocks_ino_congr (fs : fs_ctx) (i1 i2 : a1fs_inode)
    (h1 : i1.extents_blk = i2.extents_blk) (h2 : i1.extents_count = i2.extents_count) :
    ino_blocks fs i1 = ino_blocks fs i2 := by
  simp only [ino_blocks, load_extent, get_exts_blk, h1, h2]

theorem load_extent_ino_congr (fs : fs_ctx) (i1 i2 : a1fs_inode) (i : Int)
    (h1 : i1.extents_blk = i2.extents_blk) :
    load_extent fs i1 i = load_extent fs i2 i := by
  simp only [load_extent, get_exts_blk, h1]

theorem ext_blocks_ino_congr (fs : fs_ctx) (i1 i2 : a1fs_inode) (i : Int)
    (h1 : i1.extents_blk = i2.extents_blk) :
    ext_blocks fs i1 i = ext_blocks fs i2 i := by
  simp only [ext_blocks, load_extent, get_exts_blk, h1]

/-- The extents before extent `n` after a store into the count of extent `n`. -/
theorem load_extent_store_count_other (fs : fs_ctx) (ino : a1fs_inode) (n i v : Int)
    (hi : i < n) :
    load_extent (set_data fs (store_u32 fs.data
        (get_exts_blk ino + sizeof_a1fs_extent * n + 4) v)) ino i
      = load_extent fs ino i := by
  unfold load_extent set_data
  simp only [sizeof_a1fs_extent]
  rw [load_u32_congr _ fs.data _ (fun a h1 h2 => store_u32_frame _ _ _ a (by omega)),
    load_u32_congr _ fs.data (get_exts_blk ino + 8 * i + 4)
      (fun a h1 h2 => store_u32_frame _ _ _ a (by omega))]

/-- Extent `n` after a store into its count. -/
theorem load_extent_store_count_self (fs : fs_ctx) (ino : a1fs_inode) (n v : Int) :
    load_extent (set_data fs (store_u32 fs.data
        (get_exts_blk ino + sizeof_a1fs_extent * n + 4) v)) ino n
      = ⟨(load_extent fs ino n).start, toUInt32 v⟩ := by
  unfold load_extent set_data
  simp only [sizeof_a1fs_extent]
  rw [load_u32_congr _ fs.data (get_exts_blk ino + 8 * n)
      (fun a h1 h2 => store_u32_frame _ _ _ a (by omega)),
    load_u32_store_u32]

theorem dropLast_split (xs ys : List Int) (l : Int) :
    (xs ++ (ys ++ [l])).dropLast = xs ++ ys := by
  rw [← List.append_assoc, List.dropLast_concat]

theorem load_extent_fs_congr (fs1 fs2 : fs_ctx) (ino : a1fs_inode) (i : Int)
    (h : fs1.data = fs2.data) : load_extent fs1 ino i = load_extent fs2 ino i := by
  simp only [load_extent, h]

theorem ext_blocks_fs_congr (fs1 fs2 : fs_ctx) (ino : a1fs_inode) (i : Int)
    (h : fs1.data = fs2.data) : ext_blocks fs1 ino i = ext_blocks fs2 ino i := by
  simp only [ext_blocks, load_extent_fs_congr fs1 fs2 ino i h]

theorem ino_blocks_fs_congr (fs1 fs2 : fs_ctx) (ino : a1fs_inode)
    (h : fs1.data = fs2.data) : ino_blocks fs1 ino = ino_blocks fs2 ino := by
  rw [ino_blocks_eq_range, ino_blocks_eq_range]
  simp only [ext_blocks_fs_congr fs1 fs2 ino _ h]

/-- The last extent has one block and is dropped. -/
theorem ino_blocks_drop_extent (fs fs2 : fs_ctx) (ino ino2 : a1fs_inode)
    (hc : 1 ≤ ino.extents_count ∧ ino.extents_count ≤ 512)
    (hl : (load_extent fs ino (ino.extents_count - 1)).count = 1)
    (hd : fs2.data = fs.data)
    (hn : ino2.extents_count = ino.extents_count - 1)
    (hb : ino2.extents_count ≠ 0 → ino2.extents_blk = ino.extents_blk) :
    ino_blocks fs2 ino2 = (ino_blocks fs ino).dropLast := by
  rw [ino_blocks_split fs ino hc (by rw [hl]; decide), dropLast_split]
  have hpre : ((load_extent fs ino (ino.extents_count - 1)).count - 1).toNat = 0 := by
    rw [hl]; rfl
  rw [hpre, List.range_zero, List.map_nil, List.append_nil]
  by_cases h0 : ino2.extents_count = 0
  · rw [ino_blocks_of_no_extent _ _ h0]
    have : (ino.extents_count - 1).toNat = 0 := by omega
    rw [this, List.range_zero, List.flatMap_nil]
  · rw [ino_blocks_fs_congr fs2 fs ino2 hd, ino_blocks_eq_range]
    have e1 : (toInt32 ino2.extents_count).toNat = (ino.extents_count - 1).toNat := by
      rw [hn]; unfold toInt32; omega
    conv_lhs => simp only [e1, zero_add]
    simp only [ext_blocks_ino_congr fs ino2 ino _ (hb h0)]

/-- The last extent has two blocks or more and loses its last block. -/
theorem ino_blocks_dec_extent (fs fs2 : fs_ctx) (ino ino2 : a1fs_inode)
    (hc : 1 ≤ ino.extents_count ∧ ino.extents_count ≤ 512)
    (hl : 2 ≤ (load_extent fs ino (ino.extents_count - 1)).count
      ∧ (load_extent fs ino (ino.extents_count - 1)).count < 2147483648)
    (hd : fs2.data = store_u32 fs.data
      (get_exts_blk ino + sizeof_a1fs_extent * (ino.extents_count - 1) + 4)
      ((load_extent fs ino (ino.extents_count - 1)).count - 1))
    (hn : ino2.extents_count = ino.extents_count)
    (hb : ino2.extents_blk = ino.extents_blk) :
    ino_blocks fs2 ino2 = (ino_blocks fs ino).dropLast := by
  rw [ino_blocks_split fs ino hc ⟨by omega, hl.2⟩, dropLast_split]
  have hfs : fs2.data = (set_data fs (store_u32 fs.data
      (get_exts_blk ino + sizeof_a1fs_extent * (ino.extents_count - 1) + 4)
      ((load_extent fs ino (ino.extents_count - 1)).count - 1))).data := hd
  rw [ino_blocks_fs_congr fs2 _ ino2 hfs, ino_blocks_ino_congr _ ino2 ino hb hn]
  rw [ino_blocks_eq_range]
  have e1 : (toInt32 ino.extents_count).toNat = (ino.extents_count - 1).toNat + 1 := by
    unfold toInt32; omega
  conv_lhs => simp only [e1, zero_add, List.range_succ, List.flatMap_append, List.flatMap_cons,
    List.flatMap_nil, List.append_nil]
  have e2 : (((ino.extents_count - 1).toNat : Nat) : Int) = ino.extents_count - 1 := by omega
  refine congrArg₂ (fun (a b : List Int) => a ++ b) ?_ ?_
  · apply List.flatMap_congr
    intro x hx
    rw [List.mem_range] at hx
    simp only [ext_blocks, load_extent_store_count_other fs ino (ino.extents_count - 1) (x : Int)
      _ (by omega)]
  · rw [e2, ext_blocks_eq_range, load_extent_store_count_self]
    have e3 : toUInt32 ((load_extent fs ino (ino.extents_count - 1)).count - 1)
        = (load_extent fs ino (ino.extents_count - 1)).count - 1 := by
      unfold toUInt32; omega
    have e4 : (toInt32 ((load_extent fs ino (ino.extents_count - 1)).count - 1)).toNat
        = ((load_extent fs ino (ino.extents_count - 1)).count - 1).toNat := by
      unfold toInt32; omega
    conv_lhs => simp only [e3, e4, zero_add]

/-- The three outcomes of `shrink_ext_for_ino`. -/
theorem shrink_ext_for_ino_cases (fs : fs_ctx) (n : Int)
    (hc : 1 ≤ (get_ino fs n).extents_count ∧ (get_ino fs n).extents_count ≤ 512) :
    ((load_extent fs (get_ino fs n) ((get_ino fs n).extents_count - 1)).count = 1
      ∧ (get_ino fs n).extents_count = 1
      ∧ shrink_ext_for_ino fs n
        = set_ino (deallocate_db_for_ino
            (set_ino fs n { (get_ino fs n) with
              extents_count := (get_ino fs n).extents_count - 1 }) n
            (get_ino fs n).extents_blk) n
          { (get_ino fs n) with extents_count := (get_ino fs n).extents_count - 1, used_blocks_count := toUInt32 ((get_ino fs n).used_blocks_count - 1), extents_blk := -1 })
    ∨ ((load_extent fs (get_ino fs n) ((get_ino fs n).extents_count - 1)).count = 1
      ∧ (get_ino fs n).extents_count ≠ 1
      ∧ shrink_ext_for_ino fs n
        = set_ino fs n { (get_ino fs n) with
            extents_count := (get_ino fs n).extents_count - 1 })
    ∨ ((load_extent fs (get_ino fs n) ((get_ino fs n).extents_count - 1)).count ≠ 1
      ∧ shrink_ext_for_ino fs n
        = set_data fs (store_u32 fs.data
            (get_exts_blk (get_ino fs n)
              + sizeof_a1fs_extent * ((get_ino fs n).extents_count - 1) + 4)
            ((load_extent fs (get_ino fs n) ((get_ino fs n).extents_count - 1)).count - 1))) := by
  have eu : toUInt32 ((get_ino fs n).extents_count - 1) = (get_ino fs n).extents_count - 1 := by
    unfold toUInt32; omega
  by_cases h1 : (load_extent fs (get_ino fs n) ((get_ino fs n).extents_count - 1)).count = 1
  · by_cases h0 : (get_ino fs n).extents_count = 1
    · left
      refine ⟨h1, h0, ?_⟩
      unfold shrink_ext_for_ino
      have : (get_ino fs n).extents_count - 1 = 0 := by omega
      simp only [eu, if_pos h1, get_ino_set_ino, if_pos this]
      simp [deallocate_db_for_ino, get_ino, set_ino]
    · right; left
      refine ⟨h1, h0, ?_⟩
      unfold shrink_ext_for_ino
      have : ¬ (get_ino fs n).extents_count - 1 = 0 := by omega
      simp only [eu, if_pos h1, get_ino_set_ino, if_neg this]
  · right; right
    refine ⟨h1, ?_⟩
    unfold shrink_ext_for_ino
    have h0 : ¬ (get_ino fs n).extents_count = 0 := by omega
    simp only [eu, if_neg h1]
    show (if (get_ino fs n).extents_count = 0 then _ else _) = _
    rw [if_neg h0]
    rfl

/-- The blocks of an inode after `shrink_ext_for_ino`: the last block is gone. -/
theorem ino_blocks_shrink_ext (fs : fs_ctx) (n : Int)
    (hc : 1 ≤ (get_ino fs n).extents_count ∧ (get_ino fs n).extents_count ≤ 512)
    (hl : 1 ≤ (load_extent fs (get_ino fs n) ((get_ino fs n).extents_count - 1)).count
      ∧ (load_extent fs (get_ino fs n) ((get_ino fs n).extents_count - 1)).count < 2147483648) :
    ino_blocks (shrink_ext_for_ino fs n) (get_ino (shrink_ext_for_ino fs n) n)
      = (ino_blocks fs (get_ino fs n)).dropLast := by
  rcases shrink_ext_for_ino_cases fs n hc with ⟨h1, h0, e⟩ | ⟨h1, h0, e⟩ | ⟨h1, e⟩
  · rw [e, get_ino_set_ino]
    exact ino_blocks_drop_extent fs _ (get_ino fs n) _ hc h1 rfl rfl
      (fun h => absurd (show (get_ino fs n).extents_count - 1 = 0 by omega) h)
  · rw [e, get_ino_set_ino]
    exact ino_blocks_drop_extent fs _ (get_ino fs n) _ hc h1 rfl rfl (fun _ => rfl)
  · rw [e]
    exact ino_blocks_dec_extent fs _ (get_ino fs n) _ hc ⟨by omega, hl.2⟩ rfl rfl rfl

/-- The data that `shrink_ext_for_ino` leaves alone: all but the extent block. -/
theorem data_shrink_ext (fs : fs_ctx) (n : Int)
    (hc : 1 ≤ (get_ino fs n).extents_count ∧ (get_ino fs n).extents_count ≤ 512) (a : Int)
    (ha : a < get_exts_blk (get_ino fs n)
      ∨ get_exts_blk (get_ino fs n) + A1FS_BLOCK_SIZE ≤ a) :
    (shrink_ext_for_ino fs n).data a = fs.data a := by
  rcases shrink_ext_for_ino_cases fs n hc with ⟨_, _, e⟩ | ⟨_, _, e⟩ | ⟨_, e⟩
  · rw [e]; rfl
  · rw [e]; rfl
  · rw [e]
    show store_u32 fs.data _ _ a = fs.data a
    apply store_u32_frame
    simp only [sizeof_a1fs_extent, A1FS_BLOCK_SIZE] at ha ⊢
    omega

theorem same_outside_deallocate_db (fs : fs_ctx) (n b : Int) :
    same_outside n fs (deallocate_db_for_ino fs n b) := by
  refine ⟨fun k hk => ?_, ?_, ?_, rfl, rfl⟩ <;>
    simp [deallocate_db_for_ino, get_ino, set_ino, *]

theorem same_outside_shrink_ext (fs : fs_ctx) (n : Int)
    (hc : 1 ≤ (get_ino fs n).extents_count ∧ (get_ino fs n).extents_count ≤ 512) :
    same_outside n fs (shrink_ext_for_ino fs n) := by
  rcases shrink_ext_for_ino_cases fs n hc with ⟨_, _, e⟩ | ⟨_, _, e⟩ | ⟨_, e⟩
  · rw [e]
    refine ⟨fun k hk => ?_, ?_, ?_, rfl, rfl⟩ <;>
      simp [deallocate_db_for_ino, get_ino, set_ino, *]
  · rw [e]
    refine ⟨fun k hk => ?_, ?_, ?_, rfl, rfl⟩ <;> simp [get_ino, set_ino, *]
  · rw [e]
    exact ⟨fun _ _ => rfl, rfl, rfl, rfl, rfl⟩

/-- The function `shrink_ext_for_ino` sets no bit of the data bitmap. -/
theorem data_bitmap_shrink_ext (fs : fs_ctx) (n : Int)
    (hc : 1 ≤ (get_ino fs n).extents_count ∧ (get_ino fs n).extents_count ≤ 512) (k : Int)
    (hk : bit_is_set fs.data_bitmap k = false) :
    bit_is_set (shrink_ext_for_ino fs n).data_bitmap k = false := by
  rcases shrink_ext_for_ino_cases fs n hc with ⟨_, _, e⟩ | ⟨_, _, e⟩ | ⟨_, e⟩
  · rw [e]
    exact bit_is_set_deallocate_mono fs.data_bitmap _ k hk
  · rw [e]; exact hk
  · rw [e]; exact hk

/-- The overwritten dentry is outside the extent block of a `wf_dir`. -/
theorem replaced_outside_exts_blk (fs : fs_ctx) (ino : a1fs_inode) (hw : wf_dir fs ino)
    (i0 l : Nat) (hi0 : i0 < dentries_count ino) (a : Int)
    (h1 : get_exts_blk ino ≤ a) (h2 : a < get_exts_blk ino + A1FS_BLOCK_SIZE) :
    replaced fs.data (dentry_ptr fs ino i0) (dentry_ptr fs ino l) a = fs.data a := by
  apply replaced_frame
  obtain ⟨hm, hlo, hhi⟩ := dentry_ptr_in_block fs ino i0 (dentry_index_lt fs ino hw i0 hi0)
  have hne := (hw.2.2.2.2.1 _ hm).2
  simp only [get_db, get_exts_blk, A1FS_BLOCK_SIZE, sizeof_a1fs_dentry] at *
  omega

theorem wf_dir_toUInt64_size (fs : fs_ctx) (ino : a1fs_inode) (hw : wf_dir fs ino)
    (hm : 0 < dentries_count ino) :
    toUInt64 (ino.size - sizeof_a1fs_dentry) = ino.size - sizeof_a1fs_dentry
    ∧ (ino.size - sizeof_a1fs_dentry) / sizeof_a1fs_dentry = ((dentries_count ino - 1 : Nat) : Int)
    ∧ toInt32 ((ino.size - sizeof_a1fs_dentry) / sizeof_a1fs_dentry)
        = ((dentries_count ino - 1 : Nat) : Int) := by
  obtain ⟨h1, h2, _⟩ := wf_dir_size fs ino hw
  have hb := hw.1.2.1.2.1
  simp only [sizeof_a1fs_dentry] at h1 hb ⊢
  have e : (ino.size - 256) / 256 = ((dentries_count ino - 1 : Nat) : Int) := by omega
  refine ⟨?_, e, ?_⟩
  · unfold toUInt64; omega
  · rw [e]; unfold toInt32; omega

/-- The blocks of the directory after the dentry has been overwritten. -/
theorem ino_blocks_replaced (fs : fs_ctx) (ino ino2 : a1fs_inode) (hw : wf_dir fs ino)
    (i0 l : Nat) (hi0 : i0 < dentries_count ino)
    (hb : ino2.extents_blk = ino.extents_blk) (hn : ino2.extents_count = ino.extents_count) :
    ino_blocks (set_data fs (replaced fs.data (dentry_ptr fs ino i0) (dentry_ptr fs ino l)))
        ino2
      = ino_blocks fs ino := by
  rw [ino_blocks_ino_congr _ ino2 ino hb hn]
  apply ino_blocks_congr
  · have c0 := hw.2.2.2.2.2.1
    have c512 := hw.2.2.2.2.2.2.1
    simp only [A1FS_EXTS_MAX] at c512
    unfold toInt32
    omega
  · intro a h1 h2
    exact replaced_outside_exts_blk fs ino hw i0 l hi0 a h1 h2

theorem load_extent_replaced (fs : fs_ctx) (ino ino2 : a1fs_inode) (hw : wf_dir fs ino)
    (i0 l : Nat) (hi0 : i0 < dentries_count ino)
    (hb : ino2.extents_blk = ino.extents_blk) (i : Int) (h0 : 0 ≤ i) (h512 : i < 512) :
    load_extent (set_data fs (replaced fs.data (dentry_ptr fs ino i0) (dentry_ptr fs ino l)))
        ino2 i
      = load_extent fs ino i := by
  rw [load_extent_ino_congr _ ino2 ino i hb]
  apply load_extent_congr _ _ _ _ h0 h512
  intro a h1 h2
  exact replaced_outside_exts_blk fs ino hw i0 l hi0 a h1 h2

theorem after_replace_load_extent (fs : fs_ctx) (ino : a1fs_inode) (hw : wf_dir fs ino)
    (i0 l : Nat) (hi0 : i0 < dentries_count ino) (par : Int) (h : fs_ctx)
    (ha : after_replace fs ino i0 l par h) (i : Int) (h0 : 0 ≤ i) (h512 : i < 512) :
    load_extent h (get_ino h par) i = load_extent fs ino i := by
  rw [load_extent_fs_congr h (set_data fs (replaced fs.data (dentry_ptr fs ino i0)
    (dentry_ptr fs ino l))) _ i ha.1]
  exact load_extent_replaced fs ino _ hw i0 l hi0 ha.2.1 i h0 h512

theorem after_replace_ino_blocks (fs : fs_ctx) (ino : a1fs_inode) (hw : wf_dir fs ino)
    (i0 l : Nat) (hi0 : i0 < dentries_count ino) (par : Int) (h : fs_ctx)
    (ha : after_replace fs ino i0 l par h) :
    ino_blocks h (get_ino h par) = ino_blocks fs ino := by
  rw [ino_blocks_fs_congr h (set_data fs (replaced fs.data (dentry_ptr fs ino i0)
    (dentry_ptr fs ino l))) _ ha.1]
  exact ino_blocks_replaced fs ino _ hw i0 l hi0 ha.2.1 ha.2.2

theorem after_replace_last_blk (fs : fs_ctx) (ino : a1fs_inode) (hw : wf_dir fs ino)
    (i0 l : Nat) (hi0 : i0 < dentries_count ino) (par : Int) (h : fs_ctx)
    (ha : after_replace fs ino i0 l par h) :
    get_last_data_blk_no h (get_ino h par) = get_last_data_blk_no fs ino := by
  obtain ⟨hc, _⟩ := wf_dir_extents fs ino hw (by omega)
  rw [get_last_data_blk_no_eq fs ino hc,
    get_last_data_blk_no_eq h (get_ino h par) (by rw [ha.2.2]; exact hc), ha.2.2,
    after_replace_load_extent fs ino hw i0 l hi0 par h ha _ (by omega) (by omega)]

theorem after_replace_deallocate (fs : fs_ctx) (ino : a1fs_inode) (i0 l : Nat) (par : Int)
    (h : fs_ctx) (b : Int) (ha : after_replace fs ino i0 l par h) :
    after_replace fs ino i0 l par (deallocate_db_for_ino h par b) := by
  obtain ⟨a1, a2, a3⟩ := ha
  refine ⟨a1, ?_, ?_⟩
  · rw [← a2]; simp [deallocate_db_for_ino, get_ino, set_ino]
  · rw [← a3]; simp [deallocate_db_for_ino, get_ino, set_ino]

theorem after_replace_set_size (fs : fs_ctx) (par : Int) (i0 l : Nat) (s : Int) :
    after_replace fs (get_ino fs par) i0 l par
      (set_size (set_data fs (replaced fs.data (dentry_ptr fs (get_ino fs par) i0)
        (dentry_ptr fs (get_ino fs par) l))) par s) := by
  refine ⟨rfl, ?_, ?_⟩ <;> simp [set_size, set_data, get_ino, set_ino]

/-- The last block of a `wf_dir` with a dentry is one of its blocks. -/
theorem wf_dir_last_blk_mem (fs : fs_ctx) (ino : a1fs_inode) (hw : wf_dir fs ino)
    (hm : 0 < dentries_count ino) :
    get_last_data_blk_no fs ino ∈ ino_blocks fs ino := by
  rw [← wf_dir_last_block fs ino hw hm]
  exact (dentry_ptr_in_block fs ino (dentries_count ino - 1)
    (dentry_index_lt fs ino hw _ (by omega))).1

theorem same_outside_set_size_set_data (fs : fs_ctx) (par : Int) (d : Int → Nat) (s : Int) :
    same_outside par fs (set_size (set_data fs d) par s) := by
  refine ⟨fun k hk => ?_, ?_, ?_, rfl, rfl⟩ <;> simp [set_size, set_data, get_ino, set_ino, *]

/-- The function `remove_dentry_from_parent` in a `wf_dir` that has the name in
dentry `i0`. -/
theorem remove_dentry_from_parent_wf (fs : fs_ctx) (par : Int) (name : List Nat)
    (i0 : Nat) (hw : wf_dir fs (get_ino fs par))
    (hi0 : i0 < dentries_count (get_ino fs par))
    (hname : dentry_name fs (get_ino fs par) i0 = name)
    (hz : ∀ x ∈ name, x ≠ 0) (hlen : name.length < A1FS_NAME_MAX) :
    same_outside par fs (remove_dentry_from_parent fs par name)
    ∧ (get_ino (remove_dentry_from_parent fs par name) par).size
        = (get_ino fs par).size - sizeof_a1fs_dentry
    ∧ ino_blocks (remove_dentry_from_parent fs par name)
          (get_ino (remove_dentry_from_parent fs par name) par)
        = (if (get_ino fs par).size % A1FS_BLOCK_SIZE = sizeof_a1fs_dentry
           then (ino_blocks fs (get_ino fs par)).dropLast else ino_blocks fs (get_ino fs par))
    ∧ (∀ a, a < get_exts_blk (get_ino fs par)
          ∨ get_exts_blk (get_ino fs par) + A1FS_BLOCK_SIZE ≤ a →
        (remove_dentry_from_parent fs par name).data a
          = replaced fs.data (dentry_ptr fs (get_ino fs par) i0)
              (dentry_ptr fs (get_ino fs par) (dentries_count (get_ino fs par) - 1)) a)
    ∧ (∀ k, bit_is_set fs.data_bitmap k = false →
        bit_is_set (remove_dentry_from_parent fs par name).data_bitmap k = false)
    ∧ ((get_ino fs par).size % A1FS_BLOCK_SIZE = sizeof_a1fs_dentry →
        bit_is_set (remove_dentry_from_parent fs par name).data_bitmap
          (get_last_data_blk_no fs (get_ino fs par)) = false) := by
  have hm : 0 < dentries_count (get_ino fs par) := by omega
  obtain ⟨hs64, _, _⟩ := wf_dir_toUInt64_size fs (get_ino fs par) hw hm
  obtain ⟨hc, hl⟩ := wf_dir_extents fs (get_ino fs par) hw hm
  have htr := traverse_exts_to_replace_dentry_wf fs par name i0 hw hi0 hname hz hlen
  have ha1 := after_replace_set_size fs par i0 (dentries_count (get_ino fs par) - 1)
    (toUInt64 ((get_ino fs par).size - sizeof_a1fs_dentry))
  have so1 := same_outside_set_size_set_data fs par
    (replaced fs.data (dentry_ptr fs (get_ino fs par) i0)
      (dentry_ptr fs (get_ino fs par) (dentries_count (get_ino fs par) - 1)))
    (toUInt64 ((get_ino fs par).size - sizeof_a1fs_dentry))
  have hsz1 : (get_ino (set_size (set_data fs (replaced fs.data
        (dentry_ptr fs (get_ino fs par) i0)
        (dentry_ptr fs (get_ino fs par) (dentries_count (get_ino fs par) - 1)))) par
        (toUInt64 ((get_ino fs par).size - sizeof_a1fs_dentry))) par).size
      = (get_ino fs par).size - sizeof_a1fs_dentry := by
    rw [hs64]; simp [set_size, get_ino, set_ino]
  have hbm1 : (set_size (set_data fs (replaced fs.data
        (dentry_ptr fs (get_ino fs par) i0)
        (dentry_ptr fs (get_ino fs par) (dentries_count (get_ino fs par) - 1)))) par
        (toUInt64 ((get_ino fs par).size - sizeof_a1fs_dentry))).data_bitmap
      = fs.data_bitmap := rfl
  generalize set_size (set_data fs (replaced fs.data (dentry_ptr fs (get_ino fs par) i0)
      (dentry_ptr fs (get_ino fs par) (dentries_count (get_ino fs par) - 1)))) par
      (toUInt64 ((get_ino fs par).size - sizeof_a1fs_dentry)) = h1 at htr ha1 so1 hsz1 hbm1
  by_cases hq : (get_ino fs par).size % A1FS_BLOCK_SIZE = sizeof_a1fs_dentry
  · have hg : remove_dentry_from_parent fs par name
        = shrink_ext_for_ino (deallocate_db_for_ino h1 par
            (get_last_data_blk_no fs (get_ino fs par))) par := by
      unfold remove_dentry_from_parent
      simp only [if_pos hq, htr]
      rw [after_replace_last_blk fs (get_ino fs par) hw i0 _ hi0 par h1 ha1]
    have ha2 := after_replace_deallocate fs (get_ino fs par) i0 _ par h1
      (get_last_data_blk_no fs (get_ino fs par)) ha1
    have so2 := same_outside_deallocate_db h1 par (get_last_data_blk_no fs (get_ino fs par))
    have hsz2 : (get_ino (deallocate_db_for_ino h1 par
        (get_last_data_blk_no fs (get_ino fs par))) par).size = (get_ino h1 par).size := by
      simp [deallocate_db_for_ino, get_ino, set_ino]
    have hbm2 : (deallocate_db_for_ino h1 par
        (get_last_data_blk_no fs (get_ino fs par))).data_bitmap
        = deallocate_bit_at_index h1.data_bitmap (get_last_data_blk_no fs (get_ino fs par)) :=
      rfl
    generalize deallocate_db_for_ino h1 par (get_last_data_blk_no fs (get_ino fs par)) = h2
      at hg ha2 so2 hsz2 hbm2
    have hc2 : 1 ≤ (get_ino h2 par).extents_count ∧ (get_ino h2 par).extents_count ≤ 512 := by
      rw [ha2.2.2]; exact hc
    have hl2 : 1 ≤ (load_extent h2 (get_ino h2 par) ((get_ino h2 par).extents_count - 1)).count
        ∧ (load_extent h2 (get_ino h2 par) ((get_ino h2 par).extents_count - 1)).count
          < 2147483648 := by
      rw [ha2.2.2, after_replace_load_extent fs _ hw i0 _ hi0 par h2 ha2 _ (by omega) (by omega)]
      exact hl
    rw [hg, if_pos hq]
    refine ⟨same_outside_trans par _ _ _ so1 (same_outside_trans par _ _ _ so2
        (same_outside_shrink_ext h2 par hc2)), ?_, ?_, ?_, ?_, ?_⟩
    · rw [size_shrink_ext, hsz2, hsz1]
    · rw [ino_blocks_shrink_ext h2 par hc2 hl2,
        after_replace_ino_blocks fs _ hw i0 _ hi0 par h2 ha2]
    · intro a ha
      rw [data_shrink_ext h2 par hc2 a (by
        have : get_exts_blk (get_ino h2 par) = get_exts_blk (get_ino fs par) := by
          unfold get_exts_blk; rw [ha2.2.1]
        rw [this]; exact ha), ha2.1]
    · intro k hk
      apply data_bitmap_shrink_ext h2 par hc2
      rw [hbm2, hbm1]
      exact bit_is_set_deallocate_mono _ _ _ hk
    · intro _
      apply data_bitmap_shrink_ext h2 par hc2
      rw [hbm2]
      exact bit_is_set_deallocate_self _ _
        (hw.2.2.2.2.1 _ (wf_dir_last_blk_mem fs _ hw hm)).1
  · have hg : remove_dentry_from_parent fs par name = h1 := by
      unfold remove_dentry_from_parent
      simp only [if_neg hq, htr]
    rw [hg, if_neg hq]
    refine ⟨so1, hsz1, after_replace_ino_blocks fs _ hw i0 _ hi0 par h1 ha1, ?_, ?_, ?_⟩
    · intro a _
      rw [ha1.1]
    · intro k hk
      rw [hbm1]; exact hk
    · intro h; exact absurd h hq

theorem getD_dropLast (xs : List Int) (i : Nat) (d : Int) (h : i < xs.dropLast.length) :
    xs.dropLast.getD i d = xs.getD i d := by
  have h2 : i < xs.length := by
    rw [List.length_dropLast] at h
    omega
  rw [List.getD_eq_getElem _ _ h, List.getD_eq_getElem _ _ h2, List.getElem_dropLast]

/-- After the overwrite, no dentry before the last one has the name. -/
theorem strcmp_replaced_false (fs : fs_ctx) (ino : a1fs_inode) (hw : wf_dir fs ino)
    (i0 i : Nat) (name : List Nat) (hi0 : i0 < dentries_count ino)
    (hname : dentry_name fs ino i0 = name)
    (hz : ∀ x ∈ name, x ≠ 0) (hlen : name.length < A1FS_NAME_MAX)
    (hi : i < dentries_count ino - 1) :
    strcmp_eq (replaced fs.data (dentry_ptr fs ino i0)
        (dentry_ptr fs ino (dentries_count ino - 1))) (dentry_ptr fs ino i + 4) name
      = false := by
  by_cases hii : i = i0
  · rw [← Bool.not_eq_true, hii,
      strcmp_eq_iff _ name _ A1FS_NAME_MAX hz hlen, replaced_name]
    · intro hn
      have : dentries_count ino - 1 = i0 :=
        hw.2.2.1 _ i0 (by omega) hi0 (hn.trans hname.symm)
      omega
    · have := dentry_ptr_disjoint fs ino i0 (dentries_count ino - 1) hw.2.2.2.1
        (dentry_index_lt fs ino hw i0 hi0) (dentry_index_lt fs ino hw _ (by omega))
        (by omega)
      simp only [sizeof_a1fs_dentry] at this ⊢
      omega
  · rw [strcmp_replaced_other fs ino hw i0 i _ name hlen hi0 (by omega) hii]
    apply strcmp_dentry_false fs ino i name hz hlen
    intro hn
    exact hii (hw.2.2.1 i i0 (by omega) hi0 (hn.trans hname.symm))

/-- After `remove_dentry_from_parent` the parent has no dentry of the name. -/
theorem get_dentry_ino_no_after_remove (fs : fs_ctx) (par : Int) (name : List Nat)
    (i0 : Nat) (hw : wf_dir fs (get_ino fs par))
    (hi0 : i0 < dentries_count (get_ino fs par))
    (hname : dentry_name fs (get_ino fs par) i0 = name)
    (hz : ∀ x ∈ name, x ≠ 0) (hlen : name.length < A1FS_NAME_MAX) :
    get_dentry_ino_no (remove_dentry_from_parent fs par name)
      (get_ino (remove_dentry_from_parent fs par name) par) name = -ENOENT := by
  have hm : 0 < dentries_count (get_ino fs par) := by omega
  obtain ⟨_, _, htot⟩ := wf_dir_toUInt64_size fs (get_ino fs par) hw hm
  obtain ⟨hsz, _, hlenb⟩ := wf_dir_size fs (get_ino fs par) hw
  obtain ⟨so, r1, r2, r3, _, _⟩ := remove_dentry_from_parent_wf fs par name i0 hw hi0 hname hz hlen
  have hmode := so.2.2.1
  generalize remove_dentry_from_parent fs par name = g at r1 r2 r3 hmode
  have hdir : (!S_ISDIR (get_ino g par).mode) = false := by
    rw [hmode, hw.1.1]
    rfl
  by_cases hb : (get_ino g par).extents_blk = -1
  · unfold get_dentry_ino_no
    rw [if_pos hb]
  · have hfind : find_dentry_in_blks g.data name (ino_blocks g (get_ino g par))
        (toInt32 ((get_ino g par).size / sizeof_a1fs_dentry)) = none := by
      rw [r1, htot, r2, find_dentry_in_blks_eq]
      have hnone : (dir_slots (if (get_ino fs par).size % A1FS_BLOCK_SIZE = sizeof_a1fs_dentry
            then (ino_blocks fs (get_ino fs par)).dropLast else ino_blocks fs (get_ino fs par))
            ((dentries_count (get_ino fs par) - 1 : Nat) : Int)).find?
            (fun e => strcmp_eq g.data (e + 4) name) = none := by
        have hlen2 : (if (get_ino fs par).size % A1FS_BLOCK_SIZE = sizeof_a1fs_dentry
            then (ino_blocks fs (get_ino fs par)).dropLast
            else ino_blocks fs (get_ino fs par)).length
            = (dentries_count (get_ino fs par) - 1 + 15) / 16 := by
          simp only [A1FS_BLOCK_SIZE, sizeof_a1fs_dentry] at hsz ⊢
          split_ifs with hq
          · rw [List.length_dropLast, hlenb]
            omega
          · rw [hlenb]
            omega
        rw [dir_slots_dense _ _ (by omega) (by simpa using hlen2), List.find?_eq_none]
        intro e he
        obtain ⟨i, hi, rfl⟩ := List.mem_map.mp he
        rw [List.mem_range, Int.toNat_ofNat] at hi
        have hget : (if (get_ino fs par).size % A1FS_BLOCK_SIZE = sizeof_a1fs_dentry
            then (ino_blocks fs (get_ino fs par)).dropLast
            else ino_blocks fs (get_ino fs par)).getD (i / 16) 0
            = (ino_blocks fs (get_ino fs par)).getD (i / 16) 0 := by
          split_ifs with hq
          · apply getD_dropLast
            rw [if_pos hq] at hlen2
            rw [hlen2]
            omega
          · rfl
        rw [hget]
        show ¬ (strcmp_eq g.data (dentry_ptr fs (get_ino fs par) i + 4) name = true)
        rw [Bool.not_eq_true, ← strcmp_replaced_false fs _ hw i0 i name hi0 hname hz hlen hi]
        apply strcmp_eq_congr
        intro a h1 h2
        apply r3
        obtain ⟨hmem, hlo, hhi⟩ := dentry_ptr_in_block fs (get_ino fs par) i
          (dentry_index_lt fs _ hw i (by omega))
        have hne := (hw.2.2.2.2.1 _ hmem).2
        simp only [get_db, get_exts_blk, A1FS_BLOCK_SIZE, sizeof_a1fs_dentry,
          A1FS_NAME_MAX] at *
        omega
      rw [hnone]
      rfl
    unfold get_dentry_ino_no
    simp only [if_neg hb, hdir, hfind]
    rfl

/-- The loop of `deallocate_db_for_ino` calls over a list of blocks. -/
theorem deallocate_dbs_fold (n : Int) :
    ∀ (bs : List Int) (fs : fs_ctx),
      (bs.foldl (fun fs b => deallocate_db_for_ino fs n b) fs).data = fs.data
      ∧ same_outside n fs (bs.foldl (fun fs b => deallocate_db_for_ino fs n b) fs)
      ∧ (get_ino (bs.foldl (fun fs b => deallocate_db_for_ino fs n b) fs) n).extents_blk
          = (get_ino fs n).extents_blk
      ∧ (get_ino (bs.foldl (fun fs b => deallocate_db_for_ino fs n b) fs) n).extents_count
          = (get_ino fs n).extents_count
      ∧ (get_ino (bs.foldl (fun fs b => deallocate_db_for_ino fs n b) fs) n).size
          = (get_ino fs n).size
      ∧ (∀ k, bit_is_set fs.data_bitmap k = false →
          bit_is_set (bs.foldl (fun fs b => deallocate_db_for_ino fs n b) fs).data_bitmap k
            = false)
      ∧ (∀ b ∈ bs, 0 ≤ b →
          bit_is_set (bs.foldl (fun fs b => deallocate_db_for_ino fs n b) fs).data_bitmap b
            = false) := by
  intro bs
  induction bs with
  | nil =>
    intro fs
    exact ⟨rfl, same_outside_refl n fs, rfl, rfl, rfl, fun _ h => h,
      fun b hb => absurd hb (List.not_mem_nil b)⟩
  | cons b0 bs ih =>
    intro fs
    obtain ⟨i1, i2, i3, i4, i5, i6, i7⟩ := ih (deallocate_db_for_ino fs n b0)
    rw [List.foldl_cons]
    refine ⟨i1, same_outside_trans n _ _ _ (same_outside_deallocate_db fs n b0) i2, ?_, ?_, ?_,
      ?_, ?_⟩
    · rw [i3]; simp [deallocate_db_for_ino, get_ino, set_ino]
    · rw [i4]; simp [deallocate_db_for_ino, get_ino, set_ino]
    · rw [i5]; simp [deallocate_db_for_ino, get_ino, set_ino]
    · intro k hk
      exact i6 k (bit_is_set_deallocate_mono fs.data_bitmap b0 k hk)
    · intro b hb h0
      rcases List.mem_cons.mp hb with rfl | hb
      · exact i6 b (bit_is_set_deallocate_self fs.data_bitmap b h0)
      · exact i7 b hb h0

/-- The function `traverse_exts_to_deallocate_dbs`: the data and the other
inodes stay, no bit of the data bitmap is set, and the bits of the blocks of
the inode and of its extent block are cleared. -/
theorem traverse_exts_to_deallocate_dbs_spec (fs : fs_ctx) (n : Int) :
    (traverse_exts_to_deallocate_dbs fs n).data = fs.data
    ∧ same_outside n fs (traverse_exts_to_deallocate_dbs fs n)
    ∧ (get_ino (traverse_exts_to_deallocate_dbs fs n) n).extents_blk
        = (get_ino fs n).extents_blk
    ∧ (get_ino (traverse_exts_to_deallocate_dbs fs n) n).extents_count
        = (get_ino fs n).extents_count
    ∧ (get_ino (traverse_exts_to_deallocate_dbs fs n) n).size = (get_ino fs n).size
    ∧ (∀ k, bit_is_set fs.data_bitmap k = false →
        bit_is_set (traverse_exts_to_deallocate_dbs fs n).data_bitmap k = false)
    ∧ ((get_ino fs n).extents_blk ≠ -1 →
        (∀ b ∈ ino_blocks fs (get_ino fs n), 0 ≤ b →
          bit_is_set (traverse_exts_to_deallocate_dbs fs n).data_bitmap b = false)
        ∧ (0 ≤ (get_ino fs n).extents_blk →
          bit_is_set (traverse_exts_to_deallocate_dbs fs n).data_bitmap
            (get_ino fs n).extents_blk = false)) := by
  by_cases hb : (get_ino fs n).extents_blk = -1
  · have e : traverse_exts_to_deallocate_dbs fs n = fs := by
      unfold traverse_exts_to_deallocate_dbs
      simp only [if_pos hb]
    rw [e]
    exact ⟨rfl, same_outside_refl n fs, rfl, rfl, rfl, fun _ h => h, fun h => absurd hb h⟩
  · have e : traverse_exts_to_deallocate_dbs fs n
        = deallocate_db_for_ino ((ino_blocks fs (get_ino fs n)).foldl
            (fun fs b => deallocate_db_for_ino fs n b) fs) n
          (get_ino ((ino_blocks fs (get_ino fs n)).foldl
            (fun fs b => deallocate_db_for_ino fs n b) fs) n).extents_blk := by
      unfold traverse_exts_to_deallocate_dbs
      simp only [if_neg hb]
    rw [e]
    obtain ⟨i1, i2, i3, i4, i5, i6, i7⟩ :=
      deallocate_dbs_fold n (ino_blocks fs (get_ino fs n)) fs
    generalize (ino_blocks fs (get_ino fs n)).foldl
      (fun fs b => deallocate_db_for_ino fs n b) fs = q at i1 i2 i3 i4 i5 i6 i7
    refine ⟨i1, same_outside_trans n _ _ _ i2 (same_outside_deallocate_db q n _), ?_, ?_, ?_,
      ?_, ?_⟩
    · rw [← i3]; simp [deallocate_db_for_ino, get_ino, set_ino]
    · rw [← i4]; simp [deallocate_db_for_ino, get_ino, set_ino]
    · rw [← i5]; simp [deallocate_db_for_ino, get_ino, set_ino]
    · intro k hk
      exact bit_is_set_deallocate_mono q.data_bitmap _ k (i6 k hk)
    · intro _
      refine ⟨fun b hb h0 => bit_is_set_deallocate_mono q.data_bitmap _ b (i7 b hb h0), ?_⟩
      intro h0
      rw [i3]
      exact bit_is_set_deallocate_self q.data_bitmap _ h0

theorem dentry_ptr_fs_congr (fs1 fs2 : fs_ctx) (ino : a1fs_inode) (i : Nat)
    (h : fs1.data = fs2.data) : dentry_ptr fs1 ino i = dentry_ptr fs2 ino i := by
  unfold dentry_ptr
  rw [ino_blocks_fs_congr fs1 fs2 ino h]

theorem dentry_name_fs_congr (fs1 fs2 : fs_ctx) (ino : a1fs_inode) (i : Nat)
    (h : fs1.data = fs2.data) : dentry_name fs1 ino i = dentry_name fs2 ino i := by
  unfold dentry_name
  rw [dentry_ptr_fs_congr fs1 fs2 ino i h, h]

theorem dentry_ino_fs_congr (fs1 fs2 : fs_ctx) (ino : a1fs_inode) (i : Nat)
    (h : fs1.data = fs2.data) : dentry_ino fs1 ino i = dentry_ino fs2 ino i := by
  unfold dentry_ino
  rw [dentry_ptr_fs_congr fs1 fs2 ino i h, h]

/-- The predicate `wf_dir` reads the data region only. -/
theorem wf_dir_fs_congr (fs1 fs2 : fs_ctx) (ino : a1fs_inode) (h : fs1.data = fs2.data)
    (hw : wf_dir fs1 ino) : wf_dir fs2 ino := by
  obtain ⟨⟨g1, ⟨d1, d2, d3, d4⟩, g3⟩, w2, w3, w4, w5, w6, w7, w8⟩ := hw
  refine ⟨⟨g1, ⟨d1, d2, ?_, d4⟩, ?_⟩, w2, ?_, ?_, ?_, w6, w7, ?_⟩
  · rw [← ino_blocks_fs_congr fs1 fs2 ino h]; exact d3
  · intro i hi
    rw [← dentry_ino_fs_congr fs1 fs2 ino i h]; exact g3 i hi
  · intro i j hi hj hn
    rw [← dentry_name_fs_congr fs1 fs2 ino i h, ← dentry_name_fs_congr fs1 fs2 ino j h] at hn
    exact w3 i j hi hj hn
  · rw [← ino_blocks_fs_congr fs1 fs2 ino h]; exact w4
  · rw [← ino_blocks_fs_congr fs1 fs2 ino h]; exact w5
  · intro i h0 h1
    rw [← load_extent_fs_congr fs1 fs2 ino i h]; exact w8 i h0 h1

theorem filter_nonempty_cons (t : List Nat) (ts : List (List Nat)) (ht : t ≠ []) :
    (t :: ts).filter (fun t => t ≠ []) = t :: ts.filter (fun t => t ≠ []) := by
  simp [List.filter_cons, ht]

theorem filter_nonempty_nil_cons (ts : List (List Nat)) :
    (([] : List Nat) :: ts).filter (fun t => t ≠ []) = ts.filter (fun t => t ≠ []) := by
  simp [List.filter_cons]

theorem getLast?_cons_of_ne_nil {α : Type} (t : α) :
    ∀ (l : List α), l ≠ [] → (t :: l).getLast? = l.getLast?
  | [], h => absurd rfl h
  | _ :: _, _ => by simp [List.getLast?_cons_cons]

theorem path_lookup_loop_no_component (fs : fs_ctx) :
    ∀ (toks : List (List Nat)) (st : Int × Int),
      toks.filter (fun t => t ≠ []) = [] → path_lookup_loop fs toks st = st := by
  intro toks
  induction toks with
  | nil => intro st _; rfl
  | cons t ts ih =>
    intro st h
    by_cases ht : t = []
    · subst ht
      simp only [ne_eq, not_true_eq_false, decide_False, Bool.false_eq_true, not_false_eq_true,
        List.filter_cons_of_neg] at h
      obtain ⟨p, c⟩ := st
      unfold path_lookup_loop
      simp only [if_true]
      exact ih (p, c) (by simpa using h)
    · exfalso
      simp [List.filter_cons, ht] at h

/-- The parent that `path_lookup` reports is one of the directories in which
it looked a component up, when the path has a component. -/
theorem path_lookup_loop_parent_in_dirs (fs : fs_ctx) :
    ∀ (toks : List (List Nat)) (p c : Int),
      toks.filter (fun t => t ≠ []) ≠ [] →
      (path_lookup_loop fs toks (p, c)).1 ∈ lookup_dirs fs toks c := by
  intro toks
  induction toks with
  | nil => intro p c h; exact absurd rfl h
  | cons t ts ih =>
    intro p c h
    by_cases ht : t = []
    · subst ht
      unfold path_lookup_loop lookup_dirs
      simp only [if_true]
      exact ih p c (by simpa using h)
    · unfold path_lookup_loop lookup_dirs
      simp only [if_neg ht]
      by_cases hneg : get_dentry_ino_no fs (get_ino fs c) t < 0
      · simp only [if_pos hneg]
        exact List.mem_cons_self _ _
      · simp only [if_neg hneg]
        rcases path_lookup_loop_parent_mem fs ts (c, get_dentry_ino_no fs (get_ino fs c) t)
          with h1 | h1
        · rw [h1]; exact List.mem_cons_self _ _
        · exact List.mem_cons_of_mem _ h1

/-- The inode that `path_lookup` reports is what the lookup of the last
component in the reported parent gives. -/
theorem path_lookup_loop_last (fs : fs_ctx) (name : List Nat) :
    ∀ (toks : List (List Nat)) (p c : Int),
      0 ≤ (path_lookup_loop fs toks (p, c)).2 →
      (toks.filter (fun t => t ≠ [])).getLast? = some name →
      (path_lookup_loop fs toks (p, c)).2
        = get_dentry_ino_no fs (get_ino fs (path_lookup_loop fs toks (p, c)).1) name := by
  intro toks
  induction toks with
  | nil => intro p c _ h; simp at h
  | cons t ts ih =>
    intro p c h0 hlast
    by_cases ht : t = []
    · subst ht
      have e : path_lookup_loop fs ([] :: ts) (p, c) = path_lookup_loop fs ts (p, c) := by
        conv_lhs => unfold path_lookup_loop
        simp only [if_true]
      rw [e] at h0 ⊢
      exact ih p c h0 (by rw [filter_nonempty_nil_cons] at hlast; exact hlast)
    · by_cases hneg : get_dentry_ino_no fs (get_ino fs c) t < 0
      · have e : path_lookup_loop fs (t :: ts) (p, c)
            = (c, get_dentry_ino_no fs (get_ino fs c) t) := by
          conv_lhs => unfold path_lookup_loop
          simp only [if_neg ht, if_pos hneg]
        rw [e] at h0
        exact absurd h0 (by simpa using hneg)
      · have e : path_lookup_loop fs (t :: ts) (p, c)
            = path_lookup_loop fs ts (c, get_dentry_ino_no fs (get_ino fs c) t) := by
          conv_lhs => unfold path_lookup_loop
          simp only [if_neg ht, if_neg hneg]
        rw [e] at h0 ⊢
        by_cases hf : ts.filter (fun t => t ≠ []) = []
        · rw [path_lookup_loop_no_component fs ts _ hf]
          have : name = t := by
            rw [filter_nonempty_cons t ts ht, hf] at hlast
            simpa using hlast.symm
          rw [this]
        · apply ih _ _ h0
          rw [filter_nonempty_cons t ts ht, getLast?_cons_of_ne_nil t _ hf] at hlast
          exact hlast

/-- After the last component has left its parent and the directories before
the parent answer as before, the path no longer resolves. -/
theorem path_lookup_loop_removed (fs fs2 : fs_ctx) (par : Int) (name : List Nat)
    (hgone : get_dentry_ino_no fs2 (get_ino fs2 par) name = -ENOENT) :
    ∀ (toks : List (List Nat)) (p c : Int),
      0 ≤ (path_lookup_loop fs toks (p, c)).2 →
      (path_lookup_loop fs toks (p, c)).1 = par →
      (toks.filter (fun t => t ≠ [])).getLast? = some name →
      (lookup_dirs fs toks c).Nodup →
      (∀ k ∈ lookup_dirs fs toks c, k ≠ par → ∀ t ∈ toks,
        get_dentry_ino_no fs2 (get_ino fs2 k) t = get_dentry_ino_no fs (get_ino fs k) t) →
      (path_lookup_loop fs2 toks (p, c)).2 = -ENOENT := by
  intro toks
  induction toks with
  | nil => intro p c _ _ h; simp at h
  | cons t ts ih =>
    intro p c h0 hpar hlast hnd hsame
    by_cases ht : t = []
    · subst ht
      have e : ∀ f : fs_ctx,
          path_lookup_loop f ([] :: ts) (p, c) = path_lookup_loop f ts (p, c) := by
        intro f
        conv_lhs => unfold path_lookup_loop
        simp only [if_true]
      have ed : lookup_dirs fs ([] :: ts) c = lookup_dirs fs ts c := by
        conv_lhs => unfold lookup_dirs
        simp only [if_true]
      rw [e] at h0 hpar ⊢
      rw [ed] at hnd hsame
      rw [filter_nonempty_nil_cons] at hlast
      exact ih p c h0 hpar hlast hnd
        (fun k hk hne t ht => hsame k hk hne t (List.mem_cons_of_mem _ ht))
    · by_cases hneg : get_dentry_ino_no fs (get_ino fs c) t < 0
      · have e : path_lookup_loop fs (t :: ts) (p, c)
            = (c, get_dentry_ino_no fs (get_ino fs c) t) := by
          conv_lhs => unfold path_lookup_loop
          simp only [if_neg ht, if_pos hneg]
        rw [e] at h0
        exact absurd h0 (by simpa using hneg)
      · have e : path_lookup_loop fs (t :: ts) (p, c)
            = path_lookup_loop fs ts (c, get_dentry_ino_no fs (get_ino fs c) t) := by
          conv_lhs => unfold path_lookup_loop
          simp only [if_neg ht, if_neg hneg]
        have ed : lookup_dirs fs (t :: ts) c
            = c :: lookup_dirs fs ts (get_dentry_ino_no fs (get_ino fs c) t) := by
          conv_lhs => unfold lookup_dirs
          simp only [if_neg ht, if_neg hneg]
        rw [e] at h0 hpar
        rw [ed] at hnd hsame
        rw [filter_nonempty_cons t ts ht] at hlast
        by_cases hf : ts.filter (fun t => t ≠ []) = []
        · rw [path_lookup_loop_no_component fs ts _ hf] at hpar
          have hn : name = t := by
            rw [hf] at hlast
            simpa using hlast.symm
          have hpc : c = par := hpar
          have hlt : get_dentry_ino_no fs2 (get_ino fs2 c) t < 0 := by
            rw [hpc, ← hn, hgone]
            decide
          conv_lhs => unfold path_lookup_loop
          simp only [if_neg ht, if_pos hlt]
          rw [hpc, ← hn, hgone]
        · rw [getLast?_cons_of_ne_nil t _ hf] at hlast
          have hmem := path_lookup_loop_parent_in_dirs fs ts c
            (get_dentry_ino_no fs (get_ino fs c) t) hf
          rw [hpar] at hmem
          have hcne : c ≠ par := by
            intro hc
            rw [← hc] at hmem
            exact (List.nodup_cons.mp hnd).1 hmem
          have hsc := hsame c (List.mem_cons_self _ _) hcne t (List.mem_cons_self _ _)
          have e2 : path_lookup_loop fs2 (t :: ts) (p, c)
              = path_lookup_loop fs2 ts (c, get_dentry_ino_no fs (get_ino fs c) t) := by
            conv_lhs => unfold path_lookup_loop
            simp only [if_neg ht, hsc, if_neg hneg]
          rw [e2]
          exact ih c _ h0 hpar hlast (List.nodup_cons.mp hnd).2
            (fun k hk hne t ht =>
              hsame k (List.mem_cons_of_mem _ hk) hne t (List.mem_cons_of_mem _ ht))

theorem strsep_all_ne_nil : ∀ (p : List Nat), strsep_all p ≠ []
  | [] => by simp [strsep_all]
  | c :: cs => by
    unfold strsep_all
    by_cases hc : c = 47
    · simp [hc]
    · simp only [if_neg hc]
      cases strsep_all cs <;> simp

/-- The tokens of a path with one more character at the end. -/
theorem strsep_all_snoc (c : Nat) :
    ∀ (xs : List Nat),
      strsep_all (xs ++ [c])
        = if c = 47 then strsep_all xs ++ [[]]
          else (strsep_all xs).dropLast ++ [(strsep_all xs).getLast?.getD [] ++ [c]] := by
  intro xs
  induction xs with
  | nil =>
    by_cases hc : c = 47
    · simp [strsep_all, hc]
    · simp [strsep_all, hc]
  | cons d ds ih =>
    have hne := strsep_all_ne_nil ds
    rw [List.cons_append]
    by_cases hd : d = 47
    · have e1 : ∀ l, strsep_all (d :: l) = [] :: strsep_all l := by
        intro l
        conv_lhs => unfold strsep_all
        simp only [if_pos hd]
      rw [e1, e1, ih]
      by_cases hc : c = 47
      · simp only [if_pos hc, List.cons_append]
      · simp only [if_neg hc]
        cases hs : strsep_all ds with
        | nil => exact absurd hs hne
        | cons t ts => simp [List.dropLast, List.getLast?_cons_cons]
    · cases hs : strsep_all ds with
      | nil => exact absurd hs hne
      | cons t0 ts0 =>
        have e1 : strsep_all (d :: ds) = (d :: t0) :: ts0 := by
          conv_lhs => unfold strsep_all
          simp only [if_neg hd, hs]
        rw [e1]
        conv_lhs => unfold strsep_all
        simp only [if_neg hd, ih, hs]
        by_cases hc : c = 47
        · simp only [if_pos hc, List.cons_append]
        · simp only [if_neg hc]
          cases ts0 with
          | nil => simp
          | cons t1 ts1 => simp [List.dropLast, List.getLast?_cons_cons]

/-- The last token of a path, read from the end of the path. -/
theorem strsep_all_getLast? :
    ∀ (r : List Nat),
      (strsep_all r.reverse).getLast? = some ((r.takeWhile (fun c => c != 47)).reverse) := by
  intro r
  induction r with
  | nil => simp [strsep_all]
  | cons c r ih =>
    rw [List.reverse_cons, strsep_all_snoc]
    by_cases hc : c = 47
    · simp [hc]
    · have : (c != 47) = true := by simpa using hc
      rw [if_neg hc, List.getLast?_concat, ih, Option.getD_some, List.takeWhile_cons, this]
      simp

/-- The last component of a path, read from the end of the path. -/
theorem components_getLast? :
    ∀ (r : List Nat),
      ((strsep_all r.reverse).filter (fun t => t ≠ [])).getLast?
        = if r.dropWhile (fun c => c == 47) = [] then none
          else some (((r.dropWhile (fun c => c == 47)).takeWhile (fun c => c != 47)).reverse) := by
  intro r
  induction r with
  | nil => simp [strsep_all]
  | cons c r ih =>
    rw [List.reverse_cons, strsep_all_snoc]
    by_cases hc : c = 47
    · subst hc
      simp only [if_true, List.filter_append]
      rw [show List.filter (fun t => decide (t ≠ [])) [([] : List Nat)] = [] by simp,
        List.append_nil, ih]
      simp [List.dropWhile_cons]
    · have h1 : (c == 47) = false := by simpa using hc
      have h2 : (c != 47) = true := by simpa using hc
      simp only [if_neg hc, List.filter_append]
      rw [List.dropWhile_cons, h1]
      simp only [Bool.false_eq_true, if_false]
      rw [if_neg (List.cons_ne_nil _ _), List.takeWhile_cons, h2]
      simp only [if_true, List.reverse_cons]
      rw [strsep_all_getLast?]
      simp

/-- The name that `basename` gives is the last component of the path. -/
theorem components_getLast?_eq_basename (path : List Nat) (h : components path ≠ []) :
    (components path).getLast? = some (basename path) := by
  have hc := components_getLast? path.reverse
  rw [List.reverse_reverse] at hc
  unfold components at h ⊢
  by_cases hd : path.reverse.dropWhile (fun c => c == 47) = []
  · exfalso
    rw [if_pos hd] at hc
    exact h (List.getLast?_eq_none_iff.mp hc)
  · rw [hc, if_neg hd]
    unfold basename
    have hp : path ≠ [] := by
      intro hp
      rw [hp] at hd
      exact hd rfl
    simp only [if_neg hp]
    have ht : ¬ ((path.reverse.dropWhile (fun c => c == 47)).reverse = []) := by
      simpa using hd
    rw [if_neg ht, List.reverse_reverse]

/-- The steps 1 to 3 of `a1fs_unlink` for the file inode `f`, the parent
`par` and the name in dentry `i0` of the parent. -/
theorem unlink_steps_spec (fs : fs_ctx) (f par : Int) (name : List Nat) (i0 : Nat)
    (hne : f ≠ par) (hf0 : 0 ≤ f)
    (hw : wf_dir fs (get_ino fs par))
    (hi0 : i0 < dentries_count (get_ino fs par))
    (hname : dentry_name fs (get_ino fs par) i0 = name)
    (hz : ∀ x ∈ name, x ≠ 0) (hlen : name.length < A1FS_NAME_MAX)
    (g : fs_ctx)
    (hg : g = remove_dentry_from_parent
      (deallocate_ino_at_index (traverse_exts_to_deallocate_dbs fs f) f) par name) :
    get_dentry_ino_no g (get_ino g par) name = -ENOENT
    ∧ bit_is_set g.inode_bitmap f = false
    ∧ g.sb.free_inodes_count = toUInt32 (fs.sb.free_inodes_count + 1)
    ∧ ((get_ino fs f).extents_blk ≠ -1 →
        (∀ b ∈ ino_blocks fs (get_ino fs f), 0 ≤ b → bit_is_set g.data_bitmap b = false)
        ∧ (0 ≤ (get_ino fs f).extents_blk →
            bit_is_set g.data_bitmap (get_ino fs f).extents_blk = false))
    ∧ (get_ino g par).size = (get_ino fs par).size - sizeof_a1fs_dentry
    ∧ ((get_ino fs par).size % A1FS_BLOCK_SIZE = sizeof_a1fs_dentry →
        bit_is_set g.data_bitmap (get_last_data_blk_no fs (get_ino fs par)) = false
        ∧ ino_blocks g (get_ino g par) = (ino_blocks fs (get_ino fs par)).dropLast)
    ∧ (get_ino g par).mode = (get_ino fs par).mode
    ∧ (∀ k, k ≠ par →
        (get_ino g k).extents_blk = (get_ino fs k).extents_blk
        ∧ (get_ino g k).mode = (get_ino fs k).mode
        ∧ (get_ino g k).size = (get_ino fs k).size
        ∧ (get_ino g k).extents_count = (get_ino fs k).extents_count)
    ∧ (∀ a, (a < get_exts_blk (get_ino fs par)
          ∨ get_exts_blk (get_ino fs par) + A1FS_BLOCK_SIZE ≤ a) →
        (∀ b ∈ ino_blocks fs (get_ino fs par),
          a < get_db b ∨ get_db b + A1FS_BLOCK_SIZE ≤ a) →
        g.data a = fs.data a) := by
  obtain ⟨q1, q2, q3, q4, q5, q6, q7⟩ := traverse_exts_to_deallocate_dbs_spec fs f
  generalize traverse_exts_to_deallocate_dbs fs f = q at hg q1 q2 q3 q4 q5 q6 q7
  have d1 : (deallocate_ino_at_index q f).data = fs.data := q1
  have d2 : ∀ k, get_ino (deallocate_ino_at_index q f) k = get_ino q k := fun _ => rfl
  have d3 : (deallocate_ino_at_index q f).inode_bitmap
      = deallocate_bit_at_index q.inode_bitmap f := rfl
  have d4 : (deallocate_ino_at_index q f).sb.free_inodes_count
      = toUInt32 (fs.sb.free_inodes_count + 1) := by
    have := q2.2.2.2.2
    show toUInt32 (q.sb.free_inodes_count + 1) = _
    rw [this]
  have d5 : (deallocate_ino_at_index q f).data_bitmap = q.data_bitmap := rfl
  generalize deallocate_ino_at_index q f = s at hg d1 d2 d3 d4 d5
  have hpar : get_ino s par = get_ino fs par := by
    rw [d2, q2.1 par (Ne.symm hne)]
  have hw2 : wf_dir s (get_ino s par) := by
    rw [hpar]
    exact wf_dir_fs_congr fs s _ d1.symm hw
  have hi02 : i0 < dentries_count (get_ino s par) := by rw [hpar]; exact hi0
  have hname2 : dentry_name s (get_ino s par) i0 = name := by
    rw [hpar, dentry_name_fs_congr s fs _ i0 d1]; exact hname
  have hgone := get_dentry_ino_no_after_remove s par name i0 hw2 hi02 hname2 hz hlen
  obtain ⟨r0, r1, r2, r3, r4, r5⟩ :=
    remove_dentry_from_parent_wf s par name i0 hw2 hi02 hname2 hz hlen
  rw [← hg] at hgone r0 r1 r2 r3 r4 r5
  rw [hpar] at r1 r2 r3 r5
  rw [ino_blocks_fs_congr s fs _ d1] at r2
  rw [dentry_ptr_fs_congr s fs _ _ d1, dentry_ptr_fs_congr s fs _ _ d1, d1] at r3
  have hlb : get_last_data_blk_no s (get_ino fs par) = get_last_data_blk_no fs (get_ino fs par) := by
    unfold get_last_data_blk_no
    simp only [load_extent_fs_congr s fs _ _ d1]
  rw [hlb] at r5
  obtain ⟨o1, o2, o3, o4, o5⟩ := r0
  refine ⟨hgone, ?_, ?_, ?_, r1, ?_, ?_, ?_, ?_⟩
  · rw [o4, d3]
    exact bit_is_set_deallocate_self _ _ hf0
  · rw [o5]
    exact d4
  · intro hb
    obtain ⟨c1, c2⟩ := q7 hb
    refine ⟨fun b hb h0 => r4 b ?_, fun h0 => r4 _ ?_⟩
    · rw [d5]; exact c1 b hb h0
    · rw [d5]; exact c2 h0
  · intro hq
    refine ⟨r5 hq, ?_⟩
    rw [r2, if_pos hq]
  · rw [o3, hpar]
  · intro k hk
    rw [o1 k hk, d2]
    by_cases hkf : k = f
    · subst hkf
      exact ⟨q3, q2.2.2.1, q5, q4⟩
    · rw [q2.1 k hkf]
      exact ⟨rfl, rfl, rfl, rfl⟩
  · intro a ha hb
    rw [r3 a ha]
    apply replaced_frame
    obtain ⟨hm, hlo, hhi⟩ := dentry_ptr_in_block fs (get_ino fs par) i0
      (dentry_index_lt fs _ hw i0 hi0)
    have := hb _ hm
    simp only [A1FS_BLOCK_SIZE, sizeof_a1fs_dentry] at *
    omega

theorem not_S_ISDIR_of_S_ISREG (mode : Nat) (h : S_ISREG mode = true) : S_ISDIR mode = false := by
  unfold S_ISREG at h
  unfold S_ISDIR
  have e : (mode &&& S_IFMT) = S_IFREG := by simpa using h
  rw [e]
  decide

/-- A lookup in another directory answers as before when the data of that
directory and four fields of its inode are as before. -/
theorem get_dentry_ino_no_apart (fs g : fs_ctx) (k par : Int) (t : List Nat)
    (ht : t.length < A1FS_NAME_MAX)
    (hap : apart_from fs (get_ino fs k) (get_ino fs par))
    (hf : (get_ino g k).extents_blk = (get_ino fs k).extents_blk
      ∧ (get_ino g k).mode = (get_ino fs k).mode
      ∧ (get_ino g k).size = (get_ino fs k).size
      ∧ (get_ino g k).extents_count = (get_ino fs k).extents_count)
    (hd : ∀ a, (a < get_exts_blk (get_ino fs par)
          ∨ get_exts_blk (get_ino fs par) + A1FS_BLOCK_SIZE ≤ a) →
        (∀ b ∈ ino_blocks fs (get_ino fs par),
          a < get_db b ∨ get_db b + A1FS_BLOCK_SIZE ≤ a) →
        g.data a = fs.data a) :
    get_dentry_ino_no g (get_ino g k) t = get_dentry_ino_no fs (get_ino fs k) t := by
  rw [get_dentry_ino_no_congr g g (get_ino g k) (get_ino fs k) t rfl hf.1 hf.2.1 hf.2.2.1
    hf.2.2.2]
  symm
  have key : ∀ b, (b = (get_ino fs k).extents_blk ∨ b ∈ ino_blocks fs (get_ino fs k)) →
      ∀ a, A1FS_BLOCK_SIZE * b ≤ a → a < A1FS_BLOCK_SIZE * b + A1FS_BLOCK_SIZE →
        fs.data a = g.data a := by
    intro b hb a h1 h2
    obtain ⟨n1, n2⟩ := hap.2 b hb
    symm
    apply hd a
    · simp only [get_exts_blk, A1FS_BLOCK_SIZE] at *
      omega
    · intro b2 hb2
      have : b ≠ b2 := fun h => n2 (h ▸ hb2)
      simp only [get_db, A1FS_BLOCK_SIZE] at *
      omega
  apply get_dentry_ino_no_data_congr fs g (get_ino fs k) t ht hap.1
  · intro a h1 h2
    exact key _ (Or.inl rfl) a h1 h2
  · intro b hb a h1 h2
    exact key b (Or.inr hb) a h1 h2

/-! ## Lemmas: the dentries after the removal of a dentry -/

/-- The loop over the extents of `traverse_exts_to_replace_dentry` changes the
data region only. -/
theorem replace_dentry_in_exts_set_data (par : Int) (name : List Nat) :
    ∀ (n : Nat) (i : Int) (fs : fs_ctx) (total : Int),
      ∃ d, (replace_dentry_in_exts par name n i (fs, total)).1 = set_data fs d := by
  intro n
  induction n with
  | zero =>
    intro i fs total
    rw [replace_dentry_in_exts_zero]
    exact ⟨fs.data, rfl⟩
  | succ n ih =>
    intro i fs total
    rw [replace_dentry_in_exts_succ, replace_dentry_in_ext_eq]
    obtain ⟨d1, e1, _⟩ := replace_in_blks_frame par name
      ((List.range (toInt32 (load_extent fs (get_ino fs par) i).count).toNat).map
        (fun (x : Nat) => toInt32 ((load_extent fs (get_ino fs par) i).start + (0 + (x : Int)))))
      total fs
    rw [e1]
    obtain ⟨d2, e2⟩ := ih (i + 1) (set_data fs d1)
      (total_after (toInt32 (load_extent fs (get_ino fs par) i).count).toNat total)
    exact ⟨d2, by rw [e2]; rfl⟩

theorem load_u32_lt (m : Int → Nat) (p : Int) : load_u32 m p < 4294967296 := by
  unfold load_u32
  have h0 := Nat.mod_lt (m p) (show 0 < 256 by decide)
  have h1 := Nat.mod_lt (m (p + 1)) (show 0 < 256 by decide)
  have h2 := Nat.mod_lt (m (p + 2)) (show 0 < 256 by decide)
  have h3 := Nat.mod_lt (m (p + 3)) (show 0 < 256 by decide)
  omega

/-- The inode number of the overwritten dentry is that of the dentry at `last`. -/
theorem replaced_ino (data : Int → Nat) (entry last : Int) :
    load_u32 (replaced data entry last) entry = load_u32 data last := by
  unfold replaced
  rw [load_u32_congr _ (store_u32 data entry (load_u32 data last)) entry (by
      intro a h1 h2
      apply strncpy_frame
      left
      omega),
    load_u32_store_u32]
  have h0 := load_u32_nonneg data last
  have h1 := load_u32_lt data last
  unfold toUInt32
  omega

/-- The dentries of a `wf_dir` after dentry `i0` is overwritten with the last
dentry. -/
theorem dentries_after_replaced (fs : fs_ctx) (ino : a1fs_inode) (hw : wf_dir fs ino)
    (i0 j : Nat) (hi0 : i0 < dentries_count ino) (hj : j < dentries_count ino) :
    load_cstr (replaced fs.data (dentry_ptr fs ino i0)
        (dentry_ptr fs ino (dentries_count ino - 1))) (dentry_ptr fs ino j + 4) A1FS_NAME_MAX
      = dentry_name fs ino (if j = i0 then dentries_count ino - 1 else j)
    ∧ load_u32 (replaced fs.data (dentry_ptr fs ino i0)
        (dentry_ptr fs ino (dentries_count ino - 1))) (dentry_ptr fs ino j)
      = dentry_ino fs ino (if j = i0 then dentries_count ino - 1 else j) := by
  by_cases hji : j = i0
  · subst hji
    simp only [if_true]
    refine ⟨?_, replaced_ino _ _ _⟩
    apply replaced_name
    by_cases hl : dentries_count ino - 1 = j
    · left; rw [hl]
    · right
      have := dentry_ptr_disjoint fs ino j (dentries_count ino - 1) hw.2.2.2.1
        (dentry_index_lt fs ino hw j hj) (dentry_index_lt fs ino hw _ (by omega))
        (fun h => hl h.symm)
      simp only [sizeof_a1fs_dentry] at this ⊢
      omega
  · simp only [if_neg hji]
    have hd := dentry_ptr_disjoint fs ino j i0 hw.2.2.2.1
      (dentry_index_lt fs ino hw j hj) (dentry_index_lt fs ino hw i0 hi0) hji
    simp only [sizeof_a1fs_dentry] at hd
    constructor
    · unfold dentry_name
      apply load_cstr_congr
      intro a h1 h2
      apply replaced_frame
      simp only [sizeof_a1fs_dentry, A1FS_NAME_MAX] at h2 ⊢
      omega
    · unfold dentry_ino
      apply load_u32_congr
      intro a h1 h2
      apply replaced_frame
      simp only [sizeof_a1fs_dentry]
      omega

/-! ## Lemmas: the inode that `allocate_ino` takes -/

/-- The scan of `allocate_bit` returns the first clear bit: when a bit in the
scanned range is clear, the result is an index at most that of the bit. -/
theorem allocate_bit_scan_first (bitmap : Int → Nat) :
    ∀ (n : Nat) (index k : Int), 0 ≤ index → index ≤ k → k < index + n →
      bit_is_set bitmap k = false →
      index ≤ (allocate_bit_scan bitmap n index).1 ∧ (allocate_bit_scan bitmap n index).1 ≤ k := by
  intro n
  induction n with
  | zero => intro index k _ h1 h2 _; simp at h2; omega
  | succ n ih =>
    intro index k h0 h1 h2 hk
    unfold allocate_bit_scan
    simp only []
    split_ifs with hc
    · exact ⟨le_refl _, h1⟩
    · have hne : index ≠ k := by
        intro h
        subst h
        unfold bit_is_set at hk
        simp only [bne_eq_false_iff_eq, beq_iff_eq] at hk
        exact hc hk
      have := ih (index + 1) k (by omega) (by omega) (by push_cast at h2; omega) hk
      exact ⟨by omega, this.2⟩

theorem le_groupsOfBits (c : Int) (h : 0 ≤ c) : c ≤ groupsOfBits c * 8 := by
  unfold groupsOfBits
  have h1 := Int.tmod_add_tdiv c 8
  have h2 := Int.tmod_lt_of_pos c (show (0 : Int) < 8 by decide)
  have h3 := Int.tmod_nonneg 8 h
  split_ifs <;> omega

/-- When an inode below `inodes_count` is free in the bitmap, the inode that
`allocate_ino` takes is below `inodes_count`. -/
theorem allocate_ino_in_view (fs : fs_ctx) (mode : Nat) (links : Int) (now : timespec)
    (hc : 0 ≤ fs.sb.inodes_count ∧ fs.sb.inodes_count < 2147483648)
    (hk : ∃ k, 0 ≤ k ∧ k < fs.sb.inodes_count ∧ bit_is_set fs.inode_bitmap k = false)
    (h : 0 ≤ (allocate_ino fs mode links now).1) :
    (allocate_ino fs mode links now).1 < fs.sb.inodes_count := by
  obtain ⟨k, k0, k1, k2⟩ := hk
  have hcnt : toInt32 fs.sb.inodes_count = fs.sb.inodes_count := by
    unfold toInt32; omega
  have hg := le_groupsOfBits fs.sb.inodes_count hc.1
  have hs := allocate_bit_scan_first fs.inode_bitmap
    (groupsOfBits fs.sb.inodes_count * 8).toNat 0 k (le_refl _) k0 (by omega) k2
  unfold allocate_ino at h ⊢
  simp only [] at h ⊢
  split_ifs at h ⊢ with h1 h2
  · exact absurd h (by show ¬ (0 : Int) ≤ -ENOSPC; decide)
  · omega
  · unfold allocate_bit
    rw [hcnt]
    omega

/-! ## Lemmas: the blocks that `extend_file` takes -/

theorem or_and_ne_zero (x m y : Nat) (h : x &&& y ≠ 0) : (x ||| m) &&& y ≠ 0 := by
  intro h0
  apply h
  apply Nat.eq_of_testBit_eq
  intro i
  have := congrArg (fun z => Nat.testBit z i) h0
  simp only [Nat.testBit_and, Nat.testBit_or, Nat.zero_testBit] at this ⊢
  cases hx : x.testBit i <;> cases hy : y.testBit i <;> simp_all

/-- The function `allocate_bit_at_index` clears no bit. -/
theorem bit_is_set_allocate_mono (bitmap : Int → Nat) (b k : Int)
    (h : bit_is_set bitmap k = true) :
    bit_is_set (allocate_bit_at_index bitmap b) k = true := by
  unfold bit_is_set at h ⊢
  unfold allocate_bit_at_index
  simp only [bne_iff_ne, ne_eq] at h ⊢
  split_ifs with hk
  · rw [← hk]
    exact or_and_ne_zero _ _ _ h
  · exact h

/-- The function `allocate_contiguous_bits_at_index` clears no bit. -/
theorem bit_is_set_allocate_contiguous_mono (b k : Int) (c : Int) (bitmap : Int → Nat)
    (h : bit_is_set bitmap k = true) :
    bit_is_set (allocate_contiguous_bits_at_index bitmap b c) k = true := by
  unfold allocate_contiguous_bits_at_index
  generalize List.range c.toNat = l
  induction l generalizing bitmap with
  | nil => exact h
  | cons i l ih =>
    exact ih _ (bit_is_set_allocate_mono _ _ _ h)

/-- The scan of `allocate_bit` clears no bit. -/
theorem bit_is_set_allocate_bit_scan_mono (bitmap : Int → Nat) (k : Int)
    (h : bit_is_set bitmap k = true) :
    ∀ (n : Nat) (index : Int), bit_is_set (allocate_bit_scan bitmap n index).2 k = true := by
  intro n
  induction n with
  | zero => intro index; exact h
  | succ n ih =>
    intro index
    simp only [allocate_bit_scan]
    split_ifs with hb
    · unfold bit_is_set at h ⊢
      simp only [bne_iff_ne, ne_eq] at h ⊢
      split_ifs with hk
      · rw [← hk]
        exact or_and_ne_zero _ _ _ h
      · exact h
    · exact ih (index + 1)

/-- The scan of `allocate_bit` returns `-ENOSPC` or an index in the range it
scans. -/
theorem allocate_bit_scan_lt (bitmap : Int → Nat) :
    ∀ (n : Nat) (index : Int),
      (allocate_bit_scan bitmap n index).1 = -ENOSPC
      ∨ (allocate_bit_scan bitmap n index).1 < index + n := by
  intro n
  induction n with
  | zero => intro index; left; rfl
  | succ n ih =>
    intro index
    simp only [allocate_bit_scan]
    split_ifs with hb
    · right; push_cast; omega
    · rcases ih (index + 1) with h | h
      · left; exact h
      · right; push_cast; omega

/-- A run that `check_if_contiguous_dbs_are_free` accepts is a run of clear
bits. -/
theorem check_if_contiguous_dbs_are_free_clear (fs : fs_ctx) (r c : Int)
    (h : check_if_contiguous_dbs_are_free fs r c = true) (b : Int) (h0 : 0 ≤ r)
    (h1 : r ≤ b) (h2 : b < r + c) :
    bit_is_set fs.data_bitmap b = false := by
  unfold check_if_contiguous_dbs_are_free at h
  rw [List.all_eq_true] at h
  have hm : (b - r).toNat ∈ List.range c.toNat := by
    rw [List.mem_range]; omega
  have := h _ hm
  have e : r + ((b - r).toNat : Int) = b := by omega
  rw [e, Int.tdiv_eq_ediv (by omega) (by decide), Int.tmod_eq_emod (by omega) (by decide)] at this
  unfold bit_is_set
  simp only [beq_iff_eq] at this
  simp [this]

/-- A result of the scan of `find_contiguous_dbs_start_from_index` is the
start of a run that `check_if_contiguous_dbs_are_free` accepts. -/
theorem find_scan_sound (fs : fs_ctx) (c : Int) :
    ∀ (l : List (Int × Int)) (index r : Int), find_scan fs c l index = some r →
      check_if_contiguous_dbs_are_free fs r c = true := by
  intro l
  induction l with
  | nil => intro index r h; simp [find_scan] at h
  | cons x l ih =>
    intro index r h
    obtain ⟨i, j⟩ := x
    simp only [find_scan] at h
    split_ifs at h with hc
    · simp only [Option.some.injEq] at h
      rw [← h]
      exact hc.2
    · exact ih _ _ h

/-- The three results of `find_contiguous_dbs_start_from_index`: `-ENOSPC`
from the counter, `-1`, or the start of a run that
`check_if_contiguous_dbs_are_free` accepts. -/
theorem find_contiguous_cases (fs : fs_ctx) (s c : Int) :
    (toInt32 fs.sb.free_data_blocks_count < c
      ∧ find_contiguous_dbs_start_from_index fs s c = -ENOSPC)
    ∨ find_contiguous_dbs_start_from_index fs s c = -1
    ∨ check_if_contiguous_dbs_are_free fs (find_contiguous_dbs_start_from_index fs s c) c
        = true := by
  unfold find_contiguous_dbs_start_from_index
  split_ifs with h
  · left; exact ⟨h, rfl⟩
  · right
    simp only []
    split
    · rename_i r hr
      right
      exact find_scan_sound _ _ _ _ _ hr
    · split
      · rename_i r hr
        right
        exact find_scan_sound _ _ _ _ _ hr
      · left; rfl

theorem find_contiguous_of_counter (fs : fs_ctx) (s c : Int)
    (h : toInt32 fs.sb.free_data_blocks_count < c) :
    find_contiguous_dbs_start_from_index fs s c = -ENOSPC := by
  unfold find_contiguous_dbs_start_from_index
  rw [if_pos h]

/-- An iteration of the loop of `extend_file` on a file whose size is a
multiple of the block size: when the search does not return `-ENOSPC` and the
cap on the extents is not exceeded, the iteration takes the run of
`extend_file_pick`. -/
theorem extend_file_step_eq (fs : fs_ctx) (n a : Int)
    (hsize : (get_ino fs n).size % A1FS_BLOCK_SIZE = 0)
    (hne : find_contiguous_dbs_start_from_index fs
      (get_last_data_blk_no fs (get_ino fs n) + 1) (blks_needed a) ≠ -ENOSPC)
    (hcap : ¬ A1FS_EXTS_MAX
      < toInt32 ((get_ino fs n).extents_count + (extend_file_pick fs n a).2)) :
    extend_file_step fs n a
      = .ok (extend_file_take fs n a (extend_file_pick fs n a).1 (extend_file_pick fs n a).2,
          a - (if (extend_file_pick fs n a).2 * A1FS_BLOCK_SIZE ≥ a then a
               else (extend_file_pick fs n a).2 * A1FS_BLOCK_SIZE)) := by
  unfold extend_file_pick at hcap ⊢
  unfold blks_needed at hne hcap ⊢
  unfold extend_file_step extend_file_take
  by_cases hr : find_contiguous_dbs_start_from_index fs
      (get_last_data_blk_no fs (get_ino fs n) + 1)
      (if a.tmod A1FS_BLOCK_SIZE = 0 then a.tdiv A1FS_BLOCK_SIZE
       else a.tdiv A1FS_BLOCK_SIZE + 1) = -1
  · have h1 : ¬ ((-1 : Int) = -ENOSPC) := by decide
    simp only [if_pos hr] at hcap ⊢
    simp only [hsize, if_true, hr, h1, if_false, decide_True, hcap]
    simp only [set_size, size_add_to_ext, size_initialize_dbs]
  · simp only [if_neg hr] at hcap ⊢
    simp only [hsize, if_true, hne, hr, if_false, decide_False, Bool.false_eq_true, hcap]
    simp only [set_size, size_add_to_ext, size_initialize_dbs]

/-- An iteration of the loop of `extend_file` on a file whose size is a
multiple of the block size does not return an error only when the free counter
lets the search run, the search does not return `-ENOSPC` and the cap on the
extents is not exceeded. -/
theorem extend_file_step_ok (fs : fs_ctx) (n a : Int) (x : fs_ctx × Int)
    (hsize : (get_ino fs n).size % A1FS_BLOCK_SIZE = 0)
    (h : extend_file_step fs n a = .ok x) :
    ¬ toInt32 fs.sb.free_data_blocks_count < blks_needed a
    ∧ find_contiguous_dbs_start_from_index fs
      (get_last_data_blk_no fs (get_ino fs n) + 1) (blks_needed a) ≠ -ENOSPC
    ∧ ¬ A1FS_EXTS_MAX
      < toInt32 ((get_ino fs n).extents_count + (extend_file_pick fs n a).2) := by
  have hne : find_contiguous_dbs_start_from_index fs
      (get_last_data_blk_no fs (get_ino fs n) + 1) (blks_needed a) ≠ -ENOSPC := by
    intro he
    unfold blks_needed at he
    unfold extend_file_step at h
    simp only [hsize, if_true, he] at h
    exact absurd h (by simp)
  refine ⟨fun hc => hne (find_contiguous_of_counter _ _ _ hc), hne, ?_⟩
  intro hcap
  unfold extend_file_pick at hcap
  unfold blks_needed at hne hcap
  unfold extend_file_step at h
  by_cases hr : find_contiguous_dbs_start_from_index fs
      (get_last_data_blk_no fs (get_ino fs n) + 1)
      (if a.tmod A1FS_BLOCK_SIZE = 0 then a.tdiv A1FS_BLOCK_SIZE
       else a.tdiv A1FS_BLOCK_SIZE + 1) = -1
  · have h1 : ¬ ((-1 : Int) = -ENOSPC) := by decide
    simp only [if_pos hr] at hcap
    simp only [hsize, if_true, hr, h1, if_false, decide_True, hcap] at h
    exact absurd h (by simp)
  · simp only [if_neg hr] at hcap
    simp only [hsize, if_true, hne, hr, if_false, decide_False, Bool.false_eq_true, hcap] at h
    exact absurd h (by simp)

/-- An iteration of the loop of `extend_file` on a file whose size is not a
multiple of the block size fills the last block. -/
theorem extend_file_step_fill (fs : fs_ctx) (n a : Int)
    (hsize : ¬ (get_ino fs n).size % A1FS_BLOCK_SIZE = 0) :
    extend_file_step fs n a
      = .ok (set_size fs n (toUInt64 ((get_ino fs n).size
          + (if toInt32 (A1FS_BLOCK_SIZE - (get_ino fs n).size % A1FS_BLOCK_SIZE) ≥ a then a
             else toInt32 (A1FS_BLOCK_SIZE - (get_ino fs n).size % A1FS_BLOCK_SIZE)))),
        a - (if toInt32 (A1FS_BLOCK_SIZE - (get_ino fs n).size % A1FS_BLOCK_SIZE) ≥ a then a
             else toInt32 (A1FS_BLOCK_SIZE - (get_ino fs n).size % A1FS_BLOCK_SIZE))) := by
  unfold extend_file_step
  simp only [if_neg hsize]
  rfl

theorem file_frame_refl (n : Int) (fs : fs_ctx) : file_frame n fs fs :=
  ⟨fun _ _ => rfl, rfl, fun _ h => h, fun _ _ _ _ _ _ _ => rfl⟩

theorem file_frame_trans (n : Int) (fs1 fs2 fs3 : fs_ctx)
    (h12 : file_frame n fs1 fs2) (h23 : file_frame n fs2 fs3) : file_frame n fs1 fs3 := by
  obtain ⟨a1, b1, c1, d1⟩ := h12
  obtain ⟨a2, b2, c2, d2⟩ := h23
  refine ⟨fun k hk => (a2 k hk).trans (a1 k hk), b2.trans b1, fun b hb => c2 b (c1 b hb), ?_⟩
  intro b h0 hb hne a h1 h2
  rw [d2 b h0 (c1 b hb) (by rw [b1]; exact hne) a h1 h2, d1 b h0 hb hne a h1 h2]

/-- What the facts of `extend_step_in_view` are when the iteration takes blocks. -/
theorem extend_step_in_view_spec (fs : fs_ctx) (n a : Int)
    (h : extend_step_in_view fs n a = true)
    (hsize : (get_ino fs n).size % A1FS_BLOCK_SIZE = 0)
    (hcnt : ¬ toInt32 fs.sb.free_data_blocks_count < blks_needed a)
    (hcap : ¬ A1FS_EXTS_MAX
      < toInt32 ((get_ino fs n).extents_count + (extend_file_pick fs n a).2)) :
    search_in_view fs (get_last_data_blk_no fs (get_ino fs n) + 1) (blks_needed a)
    ∧ blk_in_view fs (extend_file_pick fs n a).1
    ∧ blk_in_view fs ((extend_file_pick fs n a).1 + (extend_file_pick fs n a).2 - 1)
    ∧ blk_in_view fs (get_ino fs n).extents_blk
    ∧ 0 ≤ (get_ino fs n).extents_count ∧ (get_ino fs n).extents_count < A1FS_EXTS_MAX := by
  unfold extend_step_in_view at h
  rw [if_pos ⟨hsize, hcnt⟩, if_neg hcap] at h
  simp only [Bool.and_eq_true, decide_eq_true_eq] at h
  exact ⟨h.1, h.2⟩

/-- A run of `extend_file_pick` that starts at a block of the data region is a
run that `check_if_contiguous_dbs_are_free` accepts. -/
theorem extend_file_pick_sound (fs : fs_ctx) (n a : Int)
    (h0 : 0 ≤ (extend_file_pick fs n a).1) :
    check_if_contiguous_dbs_are_free fs (extend_file_pick fs n a).1 (extend_file_pick fs n a).2
      = true := by
  unfold extend_file_pick at h0 ⊢
  have hE : ¬ ((0 : Int) ≤ -ENOSPC) := by decide
  split_ifs at h0 ⊢ with hr
  · rcases find_contiguous_cases fs (get_last_data_blk_no fs (get_ino fs n) + 1) 1
      with ⟨_, h⟩ | h | h
    · simp only [h] at h0; exact absurd h0 hE
    · simp only [h] at h0; exact absurd h0 (by decide)
    · exact h
  · rcases find_contiguous_cases fs (get_last_data_blk_no fs (get_ino fs n) + 1)
      (blks_needed a) with ⟨_, h⟩ | h | h
    · simp only [h] at h0; exact absurd h0 hE
    · exact absurd h hr
    · exact h

theorem get_ino_extend_file_take (fs : fs_ctx) (n a p c : Int) :
    get_ino (extend_file_take fs n a p c) n
      = { (get_ino fs n) with
          used_blocks_count := toUInt32 ((get_ino fs n).used_blocks_count + c), extents_count := toUInt32 ((get_ino fs n).extents_count + 1), size := toUInt64 ((get_ino fs n).size + (if c * A1FS_BLOCK_SIZE ≥ a then a else c * A1FS_BLOCK_SIZE)) } := by
  simp [extend_file_take, set_size, add_to_ext_blk_for_ino, initialize_dbs_at_index_for_ino,
    get_ino, set_ino]

theorem get_ino_extend_file_take_ne (fs : fs_ctx) (n a p c k : Int) (hk : k ≠ n) :
    get_ino (extend_file_take fs n a p c) k = get_ino fs k := by
  simp [extend_file_take, set_size, add_to_ext_blk_for_ino, initialize_dbs_at_index_for_ino,
    get_ino, set_ino, hk]

theorem sb_extend_file_take (fs : fs_ctx) (n a p c : Int) :
    (extend_file_take fs n a p c).sb
      = { fs.sb with free_data_blocks_count := toUInt32 (fs.sb.free_data_blocks_count - c) } :=
  rfl

theorem data_bitmap_extend_file_take (fs : fs_ctx) (n a p c : Int) :
    (extend_file_take fs n a p c).data_bitmap
      = allocate_contiguous_bits_at_index fs.data_bitmap p c := rfl

theorem data_extend_file_take (fs : fs_ctx) (n a p c : Int) :
    (extend_file_take fs n a p c).data
      = store_u32 (store_u32 (memset0 fs.data (get_db p) (A1FS_BLOCK_SIZE * c))
          (get_exts_blk (get_ino fs n) + sizeof_a1fs_extent * (get_ino fs n).extents_count) p)
          (get_exts_blk (get_ino fs n) + sizeof_a1fs_extent * (get_ino fs n).extents_count + 4)
          c := by
  simp [extend_file_take, set_size, add_to_ext_blk_for_ino, initialize_dbs_at_index_for_ino,
    get_ino, set_ino, get_exts_blk]

/-- An iteration of the loop of `extend_file` that takes a run of clear bits
and writes one of the 512 extents leaves alone what `file_frame` says. -/
theorem file_frame_take (fs : fs_ctx) (n a p c : Int) (hp : 0 ≤ p)
    (hchk : check_if_contiguous_dbs_are_free fs p c = true)
    (hec : 0 ≤ (get_ino fs n).extents_count ∧ (get_ino fs n).extents_count < A1FS_EXTS_MAX) :
    file_frame n fs (extend_file_take fs n a p c) := by
  refine ⟨fun k hk => get_ino_extend_file_take_ne fs n a p c k hk, ?_, ?_, ?_⟩
  · rw [get_ino_extend_file_take]
  · intro b hb
    rw [data_bitmap_extend_file_take]
    exact bit_is_set_allocate_contiguous_mono _ _ _ _ hb
  · intro b h0 hb hne a h1 h2
    rw [data_extend_file_take]
    have hec1 := hec.1
    have hec2 := hec.2
    simp only [get_db, get_exts_blk, A1FS_BLOCK_SIZE, sizeof_a1fs_extent, A1FS_EXTS_MAX]
      at h1 h2 hec2 ⊢
    rw [store_u32_frame _ _ _ _ (by omega), store_u32_frame _ _ _ _ (by omega)]
    unfold memset0
    rw [if_neg]
    intro hin
    have hclear := check_if_contiguous_dbs_are_free_clear fs p c hchk b hp (by omega) (by omega)
    rw [hb] at hclear
    exact absurd hclear (by decide)

theorem file_frame_set_size (fs : fs_ctx) (n s : Int) : file_frame n fs (set_size fs n s) := by
  refine ⟨fun k hk => ?_, ?_, fun _ h => h, fun _ _ _ _ _ _ _ => rfl⟩
  · simp [set_size, get_ino, set_ino, hk]
  · simp [set_size, get_ino, set_ino]

/-- The loop of `extend_file`, when it stays in view and exits normally, leaves
alone what `file_frame` says. -/
theorem file_frame_extend_file_loop (n : Int) (fuel : Nat) :
    ∀ (fs : fs_ctx) (a : Int) (fs' : fs_ctx),
      extend_file_loop fuel fs n a = some (none, fs') → extend_in_view fuel fs n a = true →
      file_frame n fs fs' := by
  induction fuel with
  | zero => intro fs a fs' h _; simp [extend_file_loop] at h
  | succ fuel ih =>
    intro fs a fs' h hv
    unfold extend_file_loop at h
    unfold extend_in_view at hv
    by_cases ha : a = 0
    · simp only [if_pos ha, Option.some.injEq, Prod.mk.injEq, true_and] at h
      rw [← h]
      exact file_frame_refl _ _
    · simp only [if_neg ha] at h hv
      rw [Bool.and_eq_true] at hv
      obtain ⟨hv1, hv2⟩ := hv
      cases hs : extend_file_step fs n a with
      | error e =>
        rw [hs] at h
        simp at h
      | ok x =>
        obtain ⟨fs1, a1⟩ := x
        rw [hs] at h hv2
        simp only [] at h hv2
        refine file_frame_trans _ _ _ _ ?_ (ih fs1 a1 fs' h hv2)
        by_cases hsize : (get_ino fs n).size % A1FS_BLOCK_SIZE = 0
        · obtain ⟨hcnt, hne, hcap⟩ := extend_file_step_ok fs n a _ hsize hs
          obtain ⟨_, hp, _, _, hec⟩ := extend_step_in_view_spec fs n a hv1 hsize hcnt hcap
          rw [extend_file_step_eq fs n a hsize hne hcap] at hs
          simp only [Except.ok.injEq, Prod.mk.injEq] at hs
          rw [← hs.1]
          exact file_frame_take fs n a _ _ hp.1 (extend_file_pick_sound fs n a hp.1) hec
        · rw [extend_file_step_fill fs n a hsize] at hs
          simp only [Except.ok.injEq, Prod.mk.injEq] at hs
          rw [← hs.1]
          exact file_frame_set_size _ _ _

theorem groupsOfBits_le (c : Int) (h : 0 ≤ c) : groupsOfBits c * 8 ≤ c + 7 := by
  unfold groupsOfBits
  have h1 := Int.tmod_add_tdiv c 8
  have h2 := Int.tmod_lt_of_pos c (show (0 : Int) < 8 by decide)
  have h3 := Int.tmod_nonneg 8 h
  split_ifs <;> omega

/-- The extent block that `initialize_ext_blk_for_ino` allocates, when it is a
block of the data region: its bit was clear, no bit is cleared, the other
inodes are as they were, and the bytes outside the block are as they were. -/
theorem initialize_ext_blk_frame (fs : fs_ctx) (n : Int)
    (hd : 0 ≤ fs.sb.data_blocks_count ∧ fs.sb.data_blocks_count < 2147483648)
    (hr : ¬ (initialize_ext_blk_for_ino fs n).1 < 0)
    (hv : blk_in_view fs (get_ino (initialize_ext_blk_for_ino fs n).2 n).extents_blk) :
    (∀ k, k ≠ n → get_ino (initialize_ext_blk_for_ino fs n).2 k = get_ino fs k)
    ∧ bit_is_set fs.data_bitmap (get_ino (initialize_ext_blk_for_ino fs n).2 n).extents_blk
        = false
    ∧ bit_is_set (initialize_ext_blk_for_ino fs n).2.data_bitmap
        (get_ino (initialize_ext_blk_for_ino fs n).2 n).extents_blk = true
    ∧ (∀ b, bit_is_set fs.data_bitmap b = true →
        bit_is_set (initialize_ext_blk_for_ino fs n).2.data_bitmap b = true)
    ∧ (∀ a, (a < get_db (get_ino (initialize_ext_blk_for_ino fs n).2 n).extents_blk
          ∨ get_db (get_ino (initialize_ext_blk_for_ino fs n).2 n).extents_blk
              + A1FS_BLOCK_SIZE ≤ a) →
        (initialize_ext_blk_for_ino fs n).2.data a = fs.data a)
    ∧ (get_ino (initialize_ext_blk_for_ino fs n).2 n).extents_count
        = (get_ino fs n).extents_count
    ∧ (get_ino (initialize_ext_blk_for_ino fs n).2 n).size = (get_ino fs n).size
    ∧ (get_ino (initialize_ext_blk_for_ino fs n).2 n).used_blocks_count
        = toUInt32 ((get_ino fs n).used_blocks_count + 1)
    ∧ (initialize_ext_blk_for_ino fs n).2.sb
        = { fs.sb with free_data_blocks_count := toUInt32 (fs.sb.free_data_blocks_count - 1) } := by
  have hcnt : toInt32 fs.sb.data_blocks_count = fs.sb.data_blocks_count := by
    unfold toInt32; omega
  have hg := groupsOfBits_le fs.sb.data_blocks_count hd.1
  have hspec := allocate_bit_scan_spec fs.data_bitmap
    (groupsOfBits fs.sb.data_blocks_count * 8).toNat 0 (le_refl _)
  have hlt := allocate_bit_scan_lt fs.data_bitmap
    (groupsOfBits fs.sb.data_blocks_count * 8).toNat 0
  have hmono := fun b hb => bit_is_set_allocate_bit_scan_mono fs.data_bitmap b hb
    (groupsOfBits fs.sb.data_blocks_count * 8).toNat 0
  have hf : ¬ toInt32 fs.sb.free_data_blocks_count < 1 := by
    intro hf
    unfold initialize_ext_blk_for_ino at hr
    simp only [if_pos hf] at hr
    exact absurd (show -ENOSPC < (0 : Int) by decide) hr
  have e1 : (get_ino (initialize_ext_blk_for_ino fs n).2 n).extents_blk
      = toInt32 (allocate_bit_scan fs.data_bitmap
          (groupsOfBits fs.sb.data_blocks_count * 8).toNat 0).1 := by
    simp [initialize_ext_blk_for_ino, hf, get_ino, set_ino, allocate_bit, hcnt]
  have e2 : (initialize_ext_blk_for_ino fs n).2.data_bitmap
      = (allocate_bit_scan fs.data_bitmap
          (groupsOfBits fs.sb.data_blocks_count * 8).toNat 0).2 := by
    simp [initialize_ext_blk_for_ino, hf, set_ino, allocate_bit, hcnt]
  have e3 : (initialize_ext_blk_for_ino fs n).2.data
      = memset0 fs.data (get_db (toInt32 (allocate_bit_scan fs.data_bitmap
          (groupsOfBits fs.sb.data_blocks_count * 8).toNat 0).1)) A1FS_BLOCK_SIZE := by
    simp [initialize_ext_blk_for_ino, hf, set_ino, allocate_bit, hcnt, get_exts_blk, get_db]
  rw [e2]
  rw [e1] at hv ⊢
  generalize allocate_bit_scan fs.data_bitmap
    (groupsOfBits fs.sb.data_blocks_count * 8).toNat 0 = s at hspec hlt hmono hv e3 ⊢
  have hv0 := hv.1
  have he : toInt32 s.1 = s.1 := by
    rcases hspec with h | h
    · rw [h] at hv0
      exact absurd hv0 (by decide)
    · have h0 := h.1
      rcases hlt with h' | h'
      · rw [h'] at h0
        exact absurd h0 (by decide)
      · unfold toInt32 at hv0 ⊢
        omega
  have hs : bit_is_set fs.data_bitmap s.1 = false ∧ bit_is_set s.2 s.1 = true := by
    rcases hspec with h | h
    · rw [he, h] at hv0
      exact absurd hv0 (by decide)
    · exact h.2
  rw [he] at e3 ⊢
  refine ⟨fun k hk => ?_, hs.1, hs.2, hmono, ?_, ?_, ?_, ?_, ?_⟩
  · simp [initialize_ext_blk_for_ino, hf, get_ino, set_ino, hk]
  · intro a ha
    rw [e3]
    unfold memset0
    rw [if_neg]
    omega
  · simp [initialize_ext_blk_for_ino, hf, get_ino, set_ino]
  · simp [initialize_ext_blk_for_ino, hf, get_ino, set_ino]
  · simp [initialize_ext_blk_for_ino, hf, get_ino, set_ino]
  · simp [initialize_ext_blk_for_ino, hf, set_ino]

/-- A call of `extend_file` that stays in view and returns 0 leaves alone the
other inodes and the bytes of every block whose bit is set in the data bitmap
and which is not the extent block of the file. -/
theorem extend_file_keeps (fs fs' : fs_ctx) (n a : Int) (now : timespec)
    (hd : 0 ≤ fs.sb.data_blocks_count ∧ fs.sb.data_blocks_count < 2147483648)
    (h : extend_file fs n a now = some (0, fs'))
    (hv : extend_file_in_view fs n a = true) :
    (∀ k, k ≠ n → get_ino fs' k = get_ino fs k)
    ∧ (∀ b, 0 ≤ b → bit_is_set fs.data_bitmap b = true → b ≠ (get_ino fs n).extents_blk →
        ∀ x, get_db b ≤ x → x < get_db b + A1FS_BLOCK_SIZE → fs'.data x = fs.data x) := by
  unfold extend_file at h
  unfold extend_file_in_view at hv
  by_cases ha : a = 0
  · simp only [if_pos ha, Option.some.injEq, Prod.mk.injEq, true_and] at h
    rw [← h]
    exact ⟨fun _ _ => rfl, fun _ _ _ _ _ _ _ => rfl⟩
  · simp only [if_neg ha] at h hv
    by_cases hr : (if (get_ino fs n).extents_blk = -1 then initialize_ext_blk_for_ino fs n
        else (0, fs)).1 < 0
    · simp only [if_pos hr, Option.some.injEq, Prod.mk.injEq] at h
      exact absurd h.1 (by decide)
    · simp only [if_neg hr, Bool.and_eq_true, decide_eq_true_eq] at h hv
      obtain ⟨hve, hvl⟩ := hv
      cases hl : extend_file_loop (a.natAbs + 1)
          (if (get_ino fs n).extents_blk = -1 then initialize_ext_blk_for_ino fs n
            else (0, fs)).2 n a with
      | none => rw [hl] at h; simp at h
      | some x =>
        obtain ⟨oe, fsL⟩ := x
        rw [hl] at h
        cases oe with
        | some e =>
          simp only [Option.some.injEq, Prod.mk.injEq] at h
          have := extend_file_loop_error _ _ _ _ _ _ hl
          rw [this] at h
          exact absurd h.1 (by decide)
        | none =>
          simp only [Option.some.injEq, Prod.mk.injEq, true_and] at h
          have hF := file_frame_extend_file_loop n _ _ _ _ hl hvl
          obtain ⟨f1, f2, f3, f4⟩ := hF
          have hino : ∀ k, k ≠ n → get_ino fs' k = get_ino fsL k := by
            intro k hk
            rw [← h]
            simp [get_ino, set_ino, hk]
          have hdat : fs'.data = fsL.data := by rw [← h]; rfl
          by_cases he : (get_ino fs n).extents_blk = -1
          · simp only [if_pos he] at hr hve hl f1 f2 f3 f4
            obtain ⟨i1, i2, _, i3, i4, _⟩ := initialize_ext_blk_frame fs n hd hr hve
            refine ⟨fun k hk => (hino k hk).trans ((f1 k hk).trans (i1 k hk)), ?_⟩
            intro b h0 hb hne x h1 h2
            have hbe : b ≠ (get_ino (initialize_ext_blk_for_ino fs n).2 n).extents_blk := by
              intro hbe
              rw [← hbe, hb] at i2
              exact absurd i2 (by decide)
            rw [hdat, f4 b h0 (i3 b hb) hbe x h1 h2]
            apply i4
            simp only [get_db, A1FS_BLOCK_SIZE] at h1 h2 ⊢
            omega
          · simp only [if_neg he] at hr hve hl f1 f2 f3 f4
            refine ⟨fun k hk => (hino k hk).trans (f1 k hk), ?_⟩
            intro b h0 hb hne x h1 h2
            rw [hdat, f4 b h0 hb hne x h1 h2]

/-- For a positive number of bytes `blks_needed` is the quotient rounded up. -/
theorem blks_needed_eq (a : Int) (h : 0 < a) : blks_needed a = ceil_div a A1FS_BLOCK_SIZE := by
  unfold blks_needed ceil_div
  rw [Int.tdiv_eq_ediv (by omega) (by decide), Int.tmod_eq_emod (by omega) (by decide)]
  simp only [A1FS_BLOCK_SIZE]
  split_ifs <;> omega

/-- The run of `extend_file_pick` has the blocks that are needed, or one. -/
theorem extend_file_pick_count (fs : fs_ctx) (n a : Int) :
    (find_contiguous_dbs_start_from_index fs
        (get_last_data_blk_no fs (get_ino fs n) + 1) (blks_needed a) = -1
      ∧ extend_file_pick fs n a
        = (find_contiguous_dbs_start_from_index fs
            (get_last_data_blk_no fs (get_ino fs n) + 1) 1, 1))
    ∨ (find_contiguous_dbs_start_from_index fs
        (get_last_data_blk_no fs (get_ino fs n) + 1) (blks_needed a) ≠ -1
      ∧ extend_file_pick fs n a
        = (find_contiguous_dbs_start_from_index fs
            (get_last_data_blk_no fs (get_ino fs n) + 1) (blks_needed a), blks_needed a)) := by
  unfold extend_file_pick
  by_cases h : find_contiguous_dbs_start_from_index fs
      (get_last_data_blk_no fs (get_ino fs n) + 1) (blks_needed a) = -1
  · left; exact ⟨h, by rw [if_pos h]⟩
  · right; exact ⟨h, by rw [if_neg h]⟩

/-- The search of the run of `extend_file_pick` did not return `-ENOSPC` when
the run starts at a block of the data region. -/
theorem extend_file_pick_ne_ENOSPC (fs : fs_ctx) (n a : Int)
    (h0 : 0 ≤ (extend_file_pick fs n a).1) :
    find_contiguous_dbs_start_from_index fs
      (get_last_data_blk_no fs (get_ino fs n) + 1) (blks_needed a) ≠ -ENOSPC := by
  intro he
  rcases extend_file_pick_count fs n a with ⟨h1, _⟩ | ⟨_, h2⟩
  · rw [he] at h1
    exact absurd h1 (by decide)
  · rw [h2, he] at h0
    have h0' : (0 : Int) ≤ -ENOSPC := h0
    exact absurd h0' (by decide)

/-- The extents below the one that an iteration of the loop of `extend_file`
adds are as they were, when the extent block is in use and the iteration takes
a run of clear bits. -/
theorem load_extent_take_below (fs : fs_ctx) (n a p c i : Int) (hp : 0 ≤ p)
    (hchk : check_if_contiguous_dbs_are_free fs p c = true)
    (hbit : bit_is_set fs.data_bitmap (get_ino fs n).extents_blk = true)
    (hi : 0 ≤ i ∧ i < (get_ino fs n).extents_count)
    (hec : (get_ino fs n).extents_count < A1FS_EXTS_MAX) :
    load_extent (extend_file_take fs n a p c) (get_ino (extend_file_take fs n a p c) n) i
      = load_extent fs (get_ino fs n) i := by
  have hec' := hec
  simp only [A1FS_EXTS_MAX] at hec'
  have key : ∀ x, get_exts_blk (get_ino fs n) + sizeof_a1fs_extent * i ≤ x →
      x < get_exts_blk (get_ino fs n) + sizeof_a1fs_extent * i + 8 →
      (extend_file_take fs n a p c).data x = fs.data x := by
    intro x h1 h2
    rw [data_extend_file_take]
    simp only [get_db, get_exts_blk, A1FS_BLOCK_SIZE, sizeof_a1fs_extent] at h1 h2 ⊢
    rw [store_u32_frame _ _ _ _ (by omega), store_u32_frame _ _ _ _ (by omega)]
    unfold memset0
    rw [if_neg]
    intro hin
    have hclear := check_if_contiguous_dbs_are_free_clear fs p c hchk
      (get_ino fs n).extents_blk hp (by omega) (by omega)
    rw [hbit] at hclear
    exact absurd hclear (by decide)
  unfold load_extent
  have e : get_exts_blk (get_ino (extend_file_take fs n a p c) n)
      = get_exts_blk (get_ino fs n) := by
    rw [get_ino_extend_file_take]
    rfl
  rw [e]
  rw [load_u32_congr _ fs.data _ (fun x h1 h2 => key x h1 (by omega)),
    load_u32_congr _ fs.data (get_exts_blk (get_ino fs n) + sizeof_a1fs_extent * i + 4)
      (fun x h1 h2 => key x (by omega) (by omega))]

/-- The extent that an iteration of the loop of `extend_file` adds. -/
theorem load_extent_take_self (fs : fs_ctx) (n a p c : Int) :
    load_extent (extend_file_take fs n a p c) (get_ino (extend_file_take fs n a p c) n)
        (get_ino fs n).extents_count
      = ⟨toUInt32 p, toUInt32 c⟩ := by
  unfold load_extent
  have e : get_exts_blk (get_ino (extend_file_take fs n a p c) n)
      = get_exts_blk (get_ino fs n) := by
    rw [get_ino_extend_file_take]
    rfl
  rw [e, data_extend_file_take]
  congr 1
  · rw [load_u32_congr _ _ _ (fun a h1 h2 => store_u32_frame _ _ _ a (by omega)),
      load_u32_store_u32]
  · rw [load_u32_store_u32]

/-- An iteration of the loop of `extend_file` that stays in view, on a file
whose size is a multiple of the block size, with enough free blocks for the
bytes that are missing and room for as many extents: the iteration takes the
run of `extend_file_pick`, a run of clear bits in the data region. -/
theorem extend_file_step_runs (fs : fs_ctx) (n a : Int)
    (ha : 0 < a ∧ a < 2147483648)
    (hsize : (get_ino fs n).size % A1FS_BLOCK_SIZE = 0)
    (hfree : fs.sb.free_data_blocks_count < 2147483648
      ∧ blks_needed a ≤ fs.sb.free_data_blocks_count)
    (hcap : 0 ≤ (get_ino fs n).extents_count
      ∧ (get_ino fs n).extents_count + blks_needed a ≤ A1FS_EXTS_MAX)
    (hv : extend_step_in_view fs n a = true) :
    1 ≤ blks_needed a
    ∧ ((extend_file_pick fs n a).2 = 1 ∨ (extend_file_pick fs n a).2 = blks_needed a)
    ∧ blk_in_view fs (extend_file_pick fs n a).1
    ∧ blk_in_view fs ((extend_file_pick fs n a).1 + (extend_file_pick fs n a).2 - 1)
    ∧ check_if_contiguous_dbs_are_free fs (extend_file_pick fs n a).1
        (extend_file_pick fs n a).2 = true
    ∧ extend_file_step fs n a
      = .ok (extend_file_take fs n a (extend_file_pick fs n a).1 (extend_file_pick fs n a).2,
          a - (if (extend_file_pick fs n a).2 * A1FS_BLOCK_SIZE ≥ a then a
               else (extend_file_pick fs n a).2 * A1FS_BLOCK_SIZE)) := by
  have hN := blks_needed_eq a ha.1
  have hN1 : 1 ≤ blks_needed a := by
    rw [hN]
    simp only [ceil_div, A1FS_BLOCK_SIZE]
    omega
  have hc : (extend_file_pick fs n a).2 = 1 ∨ (extend_file_pick fs n a).2 = blks_needed a := by
    rcases extend_file_pick_count fs n a with ⟨_, h⟩ | ⟨_, h⟩
    · left; rw [h]
    · right; rw [h]
  have hcnt : ¬ toInt32 fs.sb.free_data_blocks_count < blks_needed a := by
    have h1 := hfree.1
    have h2 := hfree.2
    unfold toInt32
    omega
  have hcp : ¬ A1FS_EXTS_MAX
      < toInt32 ((get_ino fs n).extents_count + (extend_file_pick fs n a).2) := by
    have h1 := hcap.1
    have h2 := hcap.2
    simp only [A1FS_EXTS_MAX] at h2 ⊢
    unfold toInt32
    rcases hc with h | h <;> rw [h] <;> omega
  obtain ⟨_, hp, hq, _, _⟩ := extend_step_in_view_spec fs n a hv hsize hcnt hcp
  exact ⟨hN1, hc, hp, hq, extend_file_pick_sound fs n a hp.1,
    extend_file_step_eq fs n a hsize (extend_file_pick_ne_ENOSPC fs n a hp.1) hcp⟩

/-- The loop of `extend_file` that stays in view, on a file whose size is a
multiple of the block size and whose extent block is in use, with enough free
blocks for the bytes that are missing and room for as many extents: the loop
exits normally, the size has grown by the bytes that were missing, the free
counter has gone down by the blocks that were needed, between one and that many
extents have been added, and the extents that were there are as they were. -/
theorem extend_file_loop_runs (n : Int) (fuel : Nat) :
    ∀ (fs : fs_ctx) (a : Int), 0 < a → a < 2147483648 → a.natAbs < fuel →
      (get_ino fs n).size % A1FS_BLOCK_SIZE = 0 →
      0 ≤ (get_ino fs n).size → (get_ino fs n).size + a < 18446744073709551616 →
      fs.sb.free_data_blocks_count < 2147483648 →
      blks_needed a ≤ fs.sb.free_data_blocks_count →
      0 ≤ (get_ino fs n).extents_count →
      (get_ino fs n).extents_count + blks_needed a ≤ A1FS_EXTS_MAX →
      bit_is_set fs.data_bitmap (get_ino fs n).extents_blk = true →
      extend_in_view fuel fs n a = true →
      ∃ fs', extend_file_loop fuel fs n a = some (none, fs')
        ∧ (get_ino fs' n).size = (get_ino fs n).size + a
        ∧ fs'.sb.free_data_blocks_count = fs.sb.free_data_blocks_count - blks_needed a
        ∧ (get_ino fs n).extents_count + 1 ≤ (get_ino fs' n).extents_count
        ∧ (get_ino fs' n).extents_count ≤ (get_ino fs n).extents_count + blks_needed a
        ∧ (get_ino fs' n).extents_blk = (get_ino fs n).extents_blk
        ∧ (∀ i, 0 ≤ i → i < (get_ino fs n).extents_count →
            load_extent fs' (get_ino fs' n) i = load_extent fs (get_ino fs n) i) := by
  induction fuel with
  | zero => intro fs a _ _ h; simp at h
  | succ fuel ih =>
    intro fs a ha0 ha1 hfuel hsize hs0 hs1 hf0 hf1 hc0 hc1 hbit hv
    unfold extend_in_view at hv
    have hane : ¬ a = 0 := by omega
    simp only [if_neg hane, Bool.and_eq_true] at hv
    obtain ⟨hv1, hv2⟩ := hv
    obtain ⟨hN1, hc, hp, hq, hchk, hstep⟩ :=
      extend_file_step_runs fs n a ⟨ha0, ha1⟩ hsize ⟨hf0, hf1⟩ ⟨hc0, hc1⟩ hv1
    rw [hstep] at hv2
    simp only [] at hv2
    have hloop : extend_file_loop (fuel + 1) fs n a
        = extend_file_loop fuel
            (extend_file_take fs n a (extend_file_pick fs n a).1 (extend_file_pick fs n a).2) n
            (a - (if (extend_file_pick fs n a).2 * A1FS_BLOCK_SIZE ≥ a then a
               else (extend_file_pick fs n a).2 * A1FS_BLOCK_SIZE)) := by
      conv_lhs => unfold extend_file_loop
      simp only [if_neg hane, hstep]
    rw [hloop]
    have hN := blks_needed_eq a ha0
    simp only [ceil_div, A1FS_BLOCK_SIZE] at hN
    have hec : (get_ino fs n).extents_count < A1FS_EXTS_MAX := by
      simp only [A1FS_EXTS_MAX] at hc1 ⊢
      omega
    have hbelow := fun i hi => load_extent_take_below fs n a _ _ i hp.1 hchk hbit hi hec
    have hino := get_ino_extend_file_take fs n a (extend_file_pick fs n a).1
      (extend_file_pick fs n a).2
    have hsb := sb_extend_file_take fs n a (extend_file_pick fs n a).1
      (extend_file_pick fs n a).2
    have hbm := data_bitmap_extend_file_take fs n a (extend_file_pick fs n a).1
      (extend_file_pick fs n a).2
    generalize extend_file_take fs n a (extend_file_pick fs n a).1
      (extend_file_pick fs n a).2 = fs1 at hv2 hbelow hino hsb hbm ⊢
    generalize (extend_file_pick fs n a).2 = c at hc hv2 hino hsb hbm hchk hq ⊢
    have hc1' : 1 ≤ c ∧ c ≤ blks_needed a := by
      rcases hc with h | h <;> omega
    have e_ec : (get_ino fs1 n).extents_count = (get_ino fs n).extents_count + 1 := by
      rw [hino]
      show toUInt32 _ = _
      simp only [A1FS_EXTS_MAX] at hc1
      unfold toUInt32
      omega
    have e_blk : (get_ino fs1 n).extents_blk = (get_ino fs n).extents_blk := by
      rw [hino]
    have e_free : fs1.sb.free_data_blocks_count = fs.sb.free_data_blocks_count - c := by
      rw [hsb]
      show toUInt32 _ = _
      unfold toUInt32
      omega
    have e_bit : bit_is_set fs1.data_bitmap (get_ino fs1 n).extents_blk = true := by
      rw [e_blk, hbm]
      exact bit_is_set_allocate_contiguous_mono _ _ _ _ hbit
    simp only [A1FS_BLOCK_SIZE] at hsize ⊢
    by_cases hlast : c * 4096 ≥ a
    · have e_size : (get_ino fs1 n).size = (get_ino fs n).size + a := by
        rw [hino]
        show toUInt64 _ = _
        simp only [A1FS_BLOCK_SIZE, if_pos hlast]
        unfold toUInt64
        omega
      simp only [if_pos hlast, sub_self]
      have hfuel0 : ∃ m, fuel = m + 1 := ⟨fuel - 1, by omega⟩
      obtain ⟨m, hm⟩ := hfuel0
      subst hm
      refine ⟨fs1, ?_, e_size, ?_, ?_, ?_, e_blk, ?_⟩
      · unfold extend_file_loop
        simp only [if_true]
      · rw [e_free]; omega
      · rw [e_ec]
      · rw [e_ec]; omega
      · intro i h0 h1
        exact hbelow i ⟨h0, h1⟩
    · have e_size : (get_ino fs1 n).size = (get_ino fs n).size + c * 4096 := by
        rw [hino]
        show toUInt64 _ = _
        simp only [A1FS_BLOCK_SIZE, if_neg hlast]
        unfold toUInt64
        omega
      simp only [if_neg hlast] at hv2 ⊢
      have hN' := blks_needed_eq (a - c * 4096) (by omega)
      simp only [ceil_div, A1FS_BLOCK_SIZE] at hN'
      obtain ⟨fs', l1, l2, l3, l4, l5, l6, l7⟩ := ih fs1 (a - c * 4096) (by omega) (by omega)
        (by omega) (by rw [e_size]; simp only [A1FS_BLOCK_SIZE]; omega) (by rw [e_size]; omega)
        (by rw [e_size]; omega) (by rw [e_free]; omega) (by rw [e_free]; omega)
        (by rw [e_ec]; omega) (by rw [e_ec]; simp only [A1FS_EXTS_MAX] at hc1 ⊢; omega) e_bit hv2
      refine ⟨fs', l1, ?_, ?_, ?_, ?_, ?_, ?_⟩
      · rw [l2, e_size]; omega
      · rw [l3, e_free]; omega
      · rw [e_ec] at l4; omega
      · rw [e_ec] at l5; omega
      · rw [l6, e_blk]
      · intro i h0 h1
        rw [l7 i h0 (by rw [e_ec]; omega)]
        exact hbelow i ⟨h0, h1⟩

/-! ## Lemmas: what `shrink_file` leaves alone -/

theorem shrink_file_step_eq (fs : fs_ctx) (n u : Int) :
    shrink_file_step fs n u
      = (if (get_ino (shrink_file_cut fs n u) n).size % A1FS_BLOCK_SIZE = 0 then
           shrink_ext_for_ino (deallocate_db_for_ino (shrink_file_cut fs n u) n
             (get_last_data_blk_no (shrink_file_cut fs n u)
               (get_ino (shrink_file_cut fs n u) n))) n
         else shrink_file_cut fs n u,
         u - (if get_size_in_last_blk (get_ino fs n) > u then u
              else get_size_in_last_blk (get_ino fs n))) := rfl

/-- An iteration of the loop of `shrink_file` that stays in view leaves alone
the other inodes and the bytes outside the extent block of the file; the file
keeps its extent block unless it is left with no extent. -/
theorem shrink_file_step_keeps (fs : fs_ctx) (n u : Int)
    (hv : shrink_step_in_view fs n u = true) :
    (∀ k, k ≠ n → get_ino (shrink_file_step fs n u).1 k = get_ino fs k)
    ∧ (∀ a, (a < get_exts_blk (get_ino fs n)
          ∨ get_exts_blk (get_ino fs n) + A1FS_BLOCK_SIZE ≤ a) →
        (shrink_file_step fs n u).1.data a = fs.data a)
    ∧ ((get_ino (shrink_file_step fs n u).1 n).extents_blk = (get_ino fs n).extents_blk
        ∨ (get_ino (shrink_file_step fs n u).1 n).extents_count = 0) := by
  rw [shrink_file_step_eq]
  unfold shrink_step_in_view at hv
  have c1 : ∀ k, k ≠ n → get_ino (shrink_file_cut fs n u) k = get_ino fs k := by
    intro k hk
    simp [shrink_file_cut, get_ino, set_ino, hk]
  have c2 : (shrink_file_cut fs n u).data = fs.data := rfl
  have c3 : (get_ino (shrink_file_cut fs n u) n).extents_blk = (get_ino fs n).extents_blk := by
    simp [shrink_file_cut, get_ino, set_ino]
  have c4 : (get_ino (shrink_file_cut fs n u) n).extents_count
      = (get_ino fs n).extents_count := by
    simp [shrink_file_cut, get_ino, set_ino]
  by_cases hs : (get_ino (shrink_file_cut fs n u) n).size % A1FS_BLOCK_SIZE = 0
  · simp only [if_pos hs, decide_eq_true_eq] at hv ⊢
    generalize get_last_data_blk_no (shrink_file_cut fs n u)
      (get_ino (shrink_file_cut fs n u) n) = l
    have d1 : ∀ k, k ≠ n →
        get_ino (deallocate_db_for_ino (shrink_file_cut fs n u) n l) k = get_ino fs k := by
      intro k hk
      rw [← c1 k hk]
      simp [deallocate_db_for_ino, get_ino, set_ino, hk]
    have d2 : (deallocate_db_for_ino (shrink_file_cut fs n u) n l).data = fs.data := rfl
    have d3 : (get_ino (deallocate_db_for_ino (shrink_file_cut fs n u) n l) n).extents_blk
        = (get_ino fs n).extents_blk := by
      rw [← c3]
      simp [deallocate_db_for_ino, get_ino, set_ino]
    have d4 : (get_ino (deallocate_db_for_ino (shrink_file_cut fs n u) n l) n).extents_count
        = (get_ino fs n).extents_count := by
      rw [← c4]
      simp [deallocate_db_for_ino, get_ino, set_ino]
    generalize deallocate_db_for_ino (shrink_file_cut fs n u) n l = D at d1 d2 d3 d4 ⊢
    have hc : 1 ≤ (get_ino D n).extents_count ∧ (get_ino D n).extents_count ≤ 512 := by
      rw [d4]
      exact ⟨hv.1, hv.2.1⟩
    refine ⟨fun k hk => ?_, fun a ha => ?_, ?_⟩
    · rw [(same_outside_shrink_ext D n hc).1 k hk, d1 k hk]
    · rw [data_shrink_ext D n hc a (by
        simp only [get_exts_blk, d3] at ha ⊢
        exact ha), d2]
    · rw [← d3]
      rcases shrink_ext_for_ino_cases D n hc with ⟨_, _, e⟩ | ⟨_, _, e⟩ | ⟨_, e⟩
      · right
        rw [e, get_ino_set_ino]
        show (get_ino D n).extents_count - 1 = 0
        omega
      · left
        rw [e, get_ino_set_ino]
      · left
        rw [e]
        rfl
  · simp only [if_neg hs]
    exact ⟨c1, fun a _ => by rw [c2], Or.inl c3⟩

/-- The loop of `shrink_file`, when it stays in view, leaves alone the other
inodes and the bytes outside the extent block of the file. -/
theorem shrink_file_loop_keeps (n e0 : Int) (fuel : Nat) :
    ∀ (fs : fs_ctx) (u : Int) (fs' : fs_ctx),
      shrink_file_loop fuel fs n u = some fs' → shrink_in_view fuel fs n u = true →
      ((get_ino fs n).extents_blk = e0 ∨ (get_ino fs n).extents_count = 0) →
      (∀ k, k ≠ n → get_ino fs' k = get_ino fs k)
      ∧ (∀ a, (a < get_db e0 ∨ get_db e0 + A1FS_BLOCK_SIZE ≤ a) → fs'.data a = fs.data a) := by
  induction fuel with
  | zero => intro fs u fs' h _ _; simp [shrink_file_loop] at h
  | succ fuel ih =>
    intro fs u fs' h hv he
    unfold shrink_file_loop at h
    unfold shrink_in_view at hv
    by_cases hu : u = 0
    · simp only [if_pos hu, Option.some.injEq] at h
      rw [← h]
      exact ⟨fun _ _ => rfl, fun _ _ => rfl⟩
    · simp only [if_neg hu, Bool.and_eq_true] at h hv
      obtain ⟨hv1, hv2⟩ := hv
      obtain ⟨s1, s2, s3⟩ := shrink_file_step_keeps fs n u hv1
      have hstep : (∀ a, (a < get_db e0 ∨ get_db e0 + A1FS_BLOCK_SIZE ≤ a) →
            (shrink_file_step fs n u).1.data a = fs.data a)
          ∧ ((get_ino (shrink_file_step fs n u).1 n).extents_blk = e0
            ∨ (get_ino (shrink_file_step fs n u).1 n).extents_count = 0) := by
        by_cases hrel : (get_ino (shrink_file_cut fs n u) n).size % A1FS_BLOCK_SIZE = 0
        · unfold shrink_step_in_view at hv1
          simp only [if_pos hrel, decide_eq_true_eq] at hv1
          have he0 : (get_ino fs n).extents_blk = e0 := by
            rcases he with h1 | h1
            · exact h1
            · have := hv1.1
              omega
          refine ⟨fun a ha => s2 a (by simp only [get_exts_blk, get_db, he0] at ha ⊢; exact ha),
            ?_⟩
          rw [← he0]
          exact s3
        · rw [shrink_file_step_eq]
          simp only [if_neg hrel]
          refine ⟨fun a _ => rfl, ?_⟩
          rcases he with h1 | h1
          · left
            rw [← h1]
            simp [shrink_file_cut, get_ino, set_ino]
          · right
            rw [← h1]
            simp [shrink_file_cut, get_ino, set_ino]
      obtain ⟨i1, i2⟩ := ih _ _ _ h hv2 hstep.2
      exact ⟨fun k hk => (i1 k hk).trans (s1 k hk),
        fun a ha => (i2 a ha).trans (hstep.1 a ha)⟩

/-- A call of `shrink_file` that stays in view and returns 0 leaves alone the
other inodes and the bytes outside the extent block of the file. -/
theorem shrink_file_keeps (fs fs' : fs_ctx) (n u : Int) (now : timespec)
    (h : shrink_file fs n u now = some (0, fs'))
    (hv : shrink_file_in_view fs n u = true) :
    (∀ k, k ≠ n → get_ino fs' k = get_ino fs k)
    ∧ (∀ a, (a < get_db (get_ino fs n).extents_blk
          ∨ get_db (get_ino fs n).extents_blk + A1FS_BLOCK_SIZE ≤ a) →
        fs'.data a = fs.data a) := by
  unfold shrink_file at h
  unfold shrink_file_in_view at hv
  simp only [] at h
  by_cases hg : (get_ino fs n).extents_blk = -1 ∨ (get_ino fs n).extents_count = 0
      ∨ (get_ino fs n).size = 0
  · simp only [if_pos hg, Option.some.injEq, Prod.mk.injEq] at h
    exact absurd h.1 (by decide)
  · simp only [if_neg hg] at h hv
    cases hl : shrink_file_loop ((get_ino fs n).size.toNat + 2) fs n u with
    | none => rw [hl] at h; simp at h
    | some fsL =>
      rw [hl] at h
      simp only [Option.some.injEq, Prod.mk.injEq, true_and] at h
      obtain ⟨i1, i2⟩ := shrink_file_loop_keeps n (get_ino fs n).extents_blk _ _ _ _ hl hv
        (Or.inl rfl)
      refine ⟨fun k hk => ?_, fun a ha => ?_⟩
      · rw [← h, ← i1 k hk]
        simp [get_ino, set_ino, hk]
      · rw [← h, ← i2 a ha]
        rfl

/-! ## Lemmas: the lookups after a `truncate` -/

/-- Two states in which the directories of a lookup answer alike for the
components of the path resolve the path alike. -/
theorem path_lookup_loop_agree_on (fs1 fs2 : fs_ctx) :
    ∀ (toks : List (List Nat)) (st : Int × Int),
      (∀ k ∈ lookup_dirs fs1 toks st.2, ∀ t ∈ toks, t ≠ [] →
        get_dentry_ino_no fs2 (get_ino fs2 k) t = get_dentry_ino_no fs1 (get_ino fs1 k) t) →
      path_lookup_loop fs2 toks st = path_lookup_loop fs1 toks st := by
  intro toks
  induction toks with
  | nil => intro st _; rfl
  | cons t ts ih =>
    intro st h
    obtain ⟨p, c⟩ := st
    simp only [path_lookup_loop]
    by_cases ht : t = []
    · simp only [ht, if_true]
      apply ih
      intro k hk t' ht' hne
      apply h _ _ t' (List.mem_cons_of_mem _ ht') hne
      simp only [lookup_dirs, ht, if_true]
      exact hk
    · simp only [if_neg ht]
      have hc := h c (by simp [lookup_dirs, ht]) t (List.mem_cons_self _ _) ht
      rw [hc]
      split_ifs with hn
      · rfl
      · apply ih
        intro k hk t' ht' hne
        apply h _ _ t' (List.mem_cons_of_mem _ ht') hne
        simp only [lookup_dirs, if_neg ht, if_neg hn]
        exact List.mem_cons_of_mem _ hk

/-- A lookup finds a name in a directory only. -/
theorem S_ISDIR_of_get_dentry_ino_no (fs : fs_ctx) (ino : a1fs_inode) (t : List Nat)
    (h : ¬ get_dentry_ino_no fs ino t < 0) : S_ISDIR ino.mode = true := by
  unfold get_dentry_ino_no at h
  by_contra hd
  split_ifs at h with h1 h2
  · exact h (by decide)
  · exact h (by decide)
  · simp only [Bool.not_eq_true, Bool.not_eq_true', Bool.not_eq_false] at h2 hd
    rw [h2] at hd
    exact absurd hd (by decide)

/-- The inodes in which a lookup that succeeds looks a component up are
directories. -/
theorem lookup_dirs_are_dirs (fs : fs_ctx) :
    ∀ (toks : List (List Nat)) (p c : Int),
      0 ≤ (path_lookup_loop fs toks (p, c)).2 →
      ∀ k ∈ lookup_dirs fs toks c, S_ISDIR (get_ino fs k).mode = true := by
  intro toks
  induction toks with
  | nil => intro p c _ k hk; simp [lookup_dirs] at hk
  | cons t ts ih =>
    intro p c h0 k hk
    unfold path_lookup_loop at h0
    unfold lookup_dirs at hk
    by_cases ht : t = []
    · simp only [if_pos ht] at h0 hk
      exact ih p c h0 k hk
    · simp only [if_neg ht] at h0 hk
      by_cases hneg : get_dentry_ino_no fs (get_ino fs c) t < 0
      · simp only [if_pos hneg] at h0
        omega
      · simp only [if_neg hneg] at h0 hk
        rcases List.mem_cons.mp hk with h1 | h1
        · rw [h1]
          exact S_ISDIR_of_get_dentry_ino_no fs _ t hneg
        · exact ih _ _ h0 k h1

/-- A `truncate` that stays in view and returns 0 leaves the lookups in the
directories of the path as they were. -/
theorem truncate_keeps_lookups (fs fs' : fs_ctx) (n : Int) (t : List Nat) (d : Int)
    (ht : t.length < A1FS_NAME_MAX)
    (hd : dir_apart_from_file fs d n) (hne : d ≠ n)
    (hino : ∀ k, k ≠ n → get_ino fs' k = get_ino fs k)
    (hdat : ∀ b, blk_in_view fs b → bit_is_set fs.data_bitmap b = true →
      b ≠ (get_ino fs n).extents_blk →
      ∀ x, get_db b ≤ x → x < get_db b + A1FS_BLOCK_SIZE → fs'.data x = fs.data x) :
    get_dentry_ino_no fs' (get_ino fs' d) t = get_dentry_ino_no fs (get_ino fs d) t := by
  rw [hino d hne]
  symm
  apply get_dentry_ino_no_data_congr fs fs' (get_ino fs d) t ht hd.2.1
  · intro x h1 h2
    obtain ⟨v, s, e⟩ := hd.2.2 _ (Or.inl rfl)
    exact (hdat _ v s e x h1 h2).symm
  · intro b hb x h1 h2
    obtain ⟨v, s, e⟩ := hd.2.2 _ (Or.inr hb)
    exact (hdat _ v s e x h1 h2).symm

/-! ## Theorems -/

/-- The images of the examples: the formatter accepts the zero-filled image of
256 blocks, the mount check accepts the result, and `create("/f")` returns 0
and gives the new empty file inode 1. -/
theorem img_f_is_a_new_file :
    (mkfs zero_image (256 * 4096) ⟨128, false, false, false⟩ t0).1 = true
    ∧ fs_ctx_init img128 = true
    ∧ img128.sb.first_data_blk = 5 ∧ img128.sb.inode_table_blk = 3
    ∧ ret_of (a1fs_create img128 (cstr "/f") file_mode t0) = some 0
    ∧ path_lookup img_f (cstr "/f") false = 1
    ∧ get_ino img_f 1 = ⟨file_mode, 1, 0, t0, 1, 0, -1, 0⟩ := by
  decide!

/-- A file of size 6000 in the blocks 3 and 4, read at offset 5000: the pointer
to the offset is the start of block 4 plus 5000, the pointer to the end of the
file is the start of block 4 plus 1904, `readable_size` is -3096 and `memcpy`
is called with it. -/
theorem read_6000_at_5000_is_negative :
    ret_of (a1fs_truncate img_f (cstr "/f") 6000 t0) = some 0
    ∧ ino_blocks img_f_6000 (get_ino img_f_6000 1) = [3, 4]
    ∧ get_ptr_to_byte_in_file img_f_6000 (get_ino img_f_6000 1) 5000 = some (get_db 4 + 5000)
    ∧ get_ptr_to_end_of_file img_f_6000 (get_ino img_f_6000 1) = get_db 4 + 1904
    ∧ toInt32 (get_db 4 + 1904 - (get_db 4 + 5000)) = -3096
    ∧ a1fs_read img_f_6000 (cstr "/f") 1000 5000 = none := by
  decide!

/-- The scenario `truncate("/f", 12288)`, `truncate("/f", 0)` on the new file
`/f`: the first call charges three data blocks and the extent block, the second
gives them back. -/
theorem truncate_12288_then_0_releases :
    ret_of (a1fs_truncate img_f (cstr "/f") 12288 t0) = some 0
    ∧ ino_blocks img_f_12288 (get_ino img_f_12288 1) = [3, 4, 5]
    ∧ (get_ino img_f_12288 1).used_blocks_count = 4
    ∧ img_f_12288.sb.free_data_blocks_count = img_f.sb.free_data_blocks_count - 4
    ∧ ret_of (a1fs_truncate img_f_12288 (cstr "/f") 0 t0) = some 0
    ∧ img_f_12288_0.sb.free_data_blocks_count = img_f.sb.free_data_blocks_count
    ∧ (∀ i : Nat, i < 32 → img_f_12288_0.data_bitmap i = img_f.data_bitmap i)
    ∧ get_ino img_f_12288_0 1 = ⟨file_mode, 1, 0, t0, 1, 0, -1, 0⟩ := by
  decide!

/-- C1, at the failing input. On a fresh image (`mkfs -i 128`, 256 blocks), after
`create("/f")`, the call `write("/f", "hello", 5, 0)` returns 5, but the pointer
to the end of the empty file that it saved is block -1 of the data region (the
file has no extent yet, so the "last block" is `extents_blk = -1`): the five
bytes land 4096 bytes before the data region, the block allocated to the file
stays zero, and `read("/f", out, 5, 0)` returns 5 with five zero bytes. -/
theorem c1_write_read_roundtrip_fails :
    ret_of (a1fs_create img128 (cstr "/f") file_mode t0) = some 0
    ∧ ret_of (a1fs_write img_f (cstr "/f") (cstr "hello") 0 t0) = some 5
    ∧ get_ptr_to_end_of_file img_f (get_ino img_f 1) = -4096
    ∧ load_bytes img_f_hello.data (-4096) 5 = cstr "hello"
    ∧ a1fs_read img_f_hello (cstr "/f") 5 0 = some (5, [0, 0, 0, 0, 0]) := by
  decide!

/-- C2, at the failing input. The file `/f` has size 4096 and one extent of one
block. `read("/f", out, 4096, 0)` stays inside that block and should return
`min(4096 - 0, 4096) = 4096`; it returns 0, because the pointer to the end of
the file is the start of the last block plus `size % 4096 = 0`. -/
theorem c2_read_of_full_block_returns_zero :
    ret_of (a1fs_create img128 (cstr "/f") file_mode t0) = some 0
    ∧ ret_of (a1fs_truncate img_f (cstr "/f") 4096 t0) = some 0
    ∧ (get_ino img_f_4096 1).size = 4096
    ∧ ino_blocks img_f_4096 (get_ino img_f_4096 1) = [3]
    ∧ a1fs_read img_f_4096 (cstr "/f") 4096 0 = some (0, []) := by
  decide!

/-- C3, at the failing input. After `create("/f")` and a successful
`write("/f", "X", 1, 4096)`, the call `read("/f", out, 4096, 0)` returns 4096
bytes of which the first is `'X'` (88): the byte was copied to offset 0 of the
file, into the hole, and not to offset 4096. -/
theorem c3_hole_is_not_zero :
    ret_of (a1fs_create img128 (cstr "/f") file_mode t0) = some 0
    ∧ ret_of (a1fs_write img_f (cstr "/f") (cstr "X") 4096 t0) = some 1
    ∧ (get_ino img_f_X4096 1).size = 4097
    ∧ a1fs_read img_f_X4096 (cstr "/f") 4096 0 = some (4096, 88 :: List.replicate 4095 0) := by
  decide!

/-- C4, at the failing input. The file `/f` has size 5. The call
`write("/f", "Z", 1, 4294967301)` (offset `5 + 2^32`) returns 1 and leaves the
size at 6, not at `4294967302`: the hole `offset - size = 2^32` is stored in an
`int` and becomes 0. -/
theorem c4_write_far_offset_size :
    ret_of (a1fs_create img128 (cstr "/f") file_mode t0) = some 0
    ∧ ret_of (a1fs_truncate img_f (cstr "/f") 5 t0) = some 0
    ∧ (get_ino img_f_5 1).size = 5
    ∧ ret_of (a1fs_write img_f_5 (cstr "/f") (cstr "Z") 4294967301 t0) = some 1
    ∧ (get_ino img_f_5_Z 1).size = 6
    ∧ (a1fs_getattr img_f_5_Z (cstr "/f")).2.st_size = 6 := by
  decide!

/-- C5, at the failing input. The root directory holds the sixteen files `/a`
... `/p`. `create("/q")` returns 0 and allocates inode 17, but `/q` does not
resolve afterwards and `getattr("/q")` returns `-ENOENT`: the dentry was
written at slot 16 of the new block 2, that is in block 3. -/
theorem c5_create_in_full_block_is_lost :
    (∀ n, n < 16 →
      ret_of (a1fs_create (create_files img128 n) [47, 97 + n] file_mode t0) = some 0)
    ∧ (get_ino (create_files img128 16) 0).size = 16 * 256
    ∧ path_lookup (create_files img128 16) (cstr "/q") false = -ENOENT
    ∧ path_lookup (create_files img128 16) (cstr "/q") true = 0
    ∧ ret_of (a1fs_create (create_files img128 16) (cstr "/q") file_mode t0) = some 0
    ∧ (get_ino img_17_files 0).size = 17 * 256
    ∧ ino_blocks img_17_files (get_ino img_17_files 0) = [1, 2]
    ∧ load_cstr img_17_files.data (get_db 3 + 4) 252 = cstr "q"
    ∧ path_lookup img_17_files (cstr "/q") false = -ENOENT
    ∧ (a1fs_getattr img_17_files (cstr "/q")).1 = -ENOENT := by
  decide!

/-- C6, at the failing input. The root directory holds the sixteen directories
`/a` ... `/p`. `mkdir("/q")` returns 0, but `/q` does not resolve afterwards:
`getattr("/q")` returns `-ENOENT` and `rmdir("/q")` has no inode to work on, so
the inode, the data block and the directory count that `mkdir` took are not
given back. -/
theorem c6_mkdir_then_rmdir_fails :
    (∀ n, n < 16 → (a1fs_mkdir (make_dirs img128 n) [47, 97 + n] 0o755 t0).1 = 0)
    ∧ (get_ino (make_dirs img128 16) 0).size = 16 * 256
    ∧ path_lookup (make_dirs img128 16) (cstr "/q") false = -ENOENT
    ∧ path_lookup (make_dirs img128 16) (cstr "/q") true = 0
    ∧ (a1fs_mkdir (make_dirs img128 16) (cstr "/q") 0o755 t0).1 = 0
    ∧ (a1fs_getattr img_17_dirs (cstr "/q")).1 = -ENOENT
    ∧ ret_of (a1fs_rmdir img_17_dirs (cstr "/q") t0) = none
    ∧ img_17_dirs.sb.free_inodes_count = (make_dirs img128 16).sb.free_inodes_count - 1
    ∧ img_17_dirs.sb.free_data_blocks_count
        = (make_dirs img128 16).sb.free_data_blocks_count - 1
    ∧ img_17_dirs.sb.used_dirs_count = (make_dirs img128 16).sb.used_dirs_count + 1 := by
  decide!

/-- C7, at the failing input. `truncate("/f", 4294967296)` on the empty file
`/f` returns 0 and leaves the size at 0 with no data block: the difference
`2^32` is stored in an `int` and becomes 0. -/
theorem c7_truncate_4G_is_ignored :
    ret_of (a1fs_create img128 (cstr "/f") file_mode t0) = some 0
    ∧ ret_of (a1fs_truncate img_f (cstr "/f") 4294967296 t0) = some 0
    ∧ (get_ino img_f_4G 1).size = 0
    ∧ ino_blocks img_f_4G (get_ino img_f_4G 1) = [] := by
  decide!

/-- C9, at the failing input. After `create("/f")`, `write("/f", "X", 1, 1)`
(size 2), `truncate("/f", 1)` and `truncate("/f", 2)`, the byte at position 1,
which the last call added, is `'X'` (88) and not zero. -/
theorem c9_regrown_byte_is_not_zero :
    ret_of (a1fs_create img128 (cstr "/f") file_mode t0) = some 0
    ∧ ret_of (a1fs_write img_f (cstr "/f") (cstr "X") 1 t0) = some 1
    ∧ ret_of (a1fs_truncate img_f_X1 (cstr "/f") 1 t0) = some 0
    ∧ (get_ino img_f_X1_cut 1).size = 1
    ∧ ret_of (a1fs_truncate img_f_X1_cut (cstr "/f") 2 t0) = some 0
    ∧ (get_ino img_f_regrown 1).size = 2
    ∧ a1fs_read img_f_regrown (cstr "/f") 1 1 = some (1, [88])
    ∧ img_f_regrown.data (get_db 3 + 1) = 88 := by
  decide!

/-- C10, at the failing input. `truncate("/f", 4294967301)` (`2^32 + 5`) on the
new file `/f` returns 0 and charges two blocks to the file, one data block and
the extent block, not `ceil(k / 4096) + 1 = 1048578`; the size is 5. -/
theorem c10_truncate_4G5_charges_one_block :
    ret_of (a1fs_create img128 (cstr "/f") file_mode t0) = some 0
    ∧ ret_of (a1fs_truncate img_f (cstr "/f") 4294967301 t0) = some 0
    ∧ (get_ino img_f_4G5 1).used_blocks_count = 2
    ∧ ino_blocks img_f_4G5 (get_ino img_f_4G5 1) = [3]
    ∧ (get_ino img_f_4G5 1).size = 5 := by
  decide!

/-- C11. For every path other than `/` that resolves to an inode whose size is
not 0, `rmdir` returns `-ENOTEMPTY` and the state it leaves is the state it was
given: bitmaps, counters, inode table and data region. -/
theorem rmdir_not_empty_leaves_state (fs : fs_ctx) (path : List Nat) (now : timespec)
    (hroot : path ≠ [47]) (hp : 0 ≤ path_lookup fs path false)
    (hs : (get_ino fs (path_lookup fs path false)).size ≠ 0) :
    a1fs_rmdir fs path now = some (-ENOTEMPTY, fs) := by
  unfold a1fs_rmdir
  simp only [if_neg hroot, if_neg (not_lt.mpr hp)]
  simp [hs]

/-- C11, a witness: after `mkdir("/a")`, `mkdir("/b")` and `mkdir("/a/c")` the
call `rmdir("/a")` returns `-ENOTEMPTY`, and `/a/c` is still there. -/
theorem rmdir_not_empty_leaves_state_witness :
    cstr "/a" ≠ [47]
    ∧ 0 ≤ path_lookup img_a_b_c (cstr "/a") false
    ∧ (get_ino img_a_b_c (path_lookup img_a_b_c (cstr "/a") false)).size ≠ 0
    ∧ a1fs_rmdir img_a_b_c (cstr "/a") t0 = some (-ENOTEMPTY, img_a_b_c)
    ∧ (a1fs_getattr img_a_b_c (cstr "/a/c")).1 = 0 :=
  ⟨by decide, by decide!, by decide!,
    rmdir_not_empty_leaves_state img_a_b_c (cstr "/a") t0 (by decide) (by decide!) (by decide!),
    by decide!⟩

/-- C16, at the failing input. The new file `/f` is a regular file with no
blocks; `getattr("/f/x")` returns `-ENOENT`, not `-ENOTDIR`. Once the file has
an extent block (after `truncate("/f", 5)`) the same call returns `-ENOTDIR`. -/
theorem c16_getattr_below_empty_file :
    ret_of (a1fs_create img128 (cstr "/f") file_mode t0) = some 0
    ∧ path_lookup img_f (cstr "/f") false = 1
    ∧ S_ISREG (get_ino img_f 1).mode = true
    ∧ (get_ino img_f 1).size = 0
    ∧ (get_ino img_f 1).extents_blk = -1
    ∧ (a1fs_getattr img_f (cstr "/f/x")).1 = -ENOENT
    ∧ ret_of (a1fs_truncate img_f (cstr "/f") 5 t0) = some 0
    ∧ (a1fs_getattr img_f_5 (cstr "/f/x")).1 = -ENOTDIR := by
  decide!

/-- C17, at the failing input. For the path `/aaa...a` of 253 characters, whose
one component has 252 characters, `getattr` returns `-ENOENT`, not
`-ENAMETOOLONG`; for the path of 4096 characters it returns `-ENAMETOOLONG`. -/
theorem c17_getattr_long_component :
    path_252_a.length = 253
    ∧ (strsep_all path_252_a).map List.length = [0, 252]
    ∧ (a1fs_getattr img128 path_252_a).1 = -ENOENT
    ∧ path_4096.length = 4096
    ∧ (a1fs_getattr img128 path_4096).1 = -ENAMETOOLONG := by
  decide!

/-- C18, at the failing input. An inode with `used_blocks_count = 2^20`: the
block count that `getattr` reports is 0, not `8 * 2^20 = 8388608`. -/
theorem c18_st_blocks_wraps :
    path_lookup img_f_1M_blocks (cstr "/f") false = 1
    ∧ (get_ino img_f_1M_blocks 1).used_blocks_count = 1048576
    ∧ (a1fs_getattr img_f_1M_blocks (cstr "/f")).1 = 0
    ∧ (a1fs_getattr img_f_1M_blocks (cstr "/f")).2.st_blocks = 0
    ∧ 8 * (get_ino img_f_1M_blocks 1).used_blocks_count = 8388608 := by
  decide!

/-- C19. For every path that `getattr` accepts and every timestamp `t` whose
nanoseconds are not `UTIME_NOW`: `utimens` returns 0, the state it leaves is the
old state with the modification time of the inode of the path replaced by `t`
(nothing else of the inode table, the superblock, the bitmaps or the data
region changes), and `getattr` then reports the old attributes with
`st_mtim = t`. -/
theorem utimens_sets_mtime_only (fs : fs_ctx) (path : List Nat) (t now : timespec)
    (hp : (a1fs_getattr fs path).1 = 0) (ht : t.tv_nsec ≠ UTIME_NOW) :
    a1fs_utimens fs path t now
      = some (0, set_ino fs (path_lookup fs path false)
          { (get_ino fs (path_lookup fs path false)) with mtime := t })
    ∧ (set_ino fs (path_lookup fs path false)
          { (get_ino fs (path_lookup fs path false)) with mtime := t }).sb = fs.sb
    ∧ (set_ino fs (path_lookup fs path false)
          { (get_ino fs (path_lookup fs path false)) with mtime := t }).inode_bitmap
        = fs.inode_bitmap
    ∧ (set_ino fs (path_lookup fs path false)
          { (get_ino fs (path_lookup fs path false)) with mtime := t }).data_bitmap
        = fs.data_bitmap
    ∧ (set_ino fs (path_lookup fs path false)
          { (get_ino fs (path_lookup fs path false)) with mtime := t }).data = fs.data
    ∧ a1fs_getattr (set_ino fs (path_lookup fs path false)
          { (get_ino fs (path_lookup fs path false)) with mtime := t }) path
        = (0, { (a1fs_getattr fs path).2 with st_mtim := t }) := by
  unfold a1fs_getattr at hp
  simp only [] at hp
  split_ifs at hp with h1 h2
  · simp at hp
  · omega
  · refine ⟨?_, rfl, rfl, rfl, rfl, ?_⟩
    · unfold a1fs_utimens
      simp only [if_neg h2, if_neg ht]
    · unfold a1fs_getattr
      simp only [path_lookup_set_mtime, if_neg h1, if_neg h2, get_ino_set_ino]

/-- C19, a witness: `utimens("/f", t)` with `t = (5, 7)` on the new file `/f`. -/
theorem utimens_sets_mtime_only_witness :
    (a1fs_getattr img_f (cstr "/f")).1 = 0
    ∧ (7 : Int) ≠ UTIME_NOW
    ∧ a1fs_utimens img_f (cstr "/f") ⟨5, 7⟩ t0
        = some (0, set_ino img_f 1 { (get_ino img_f 1) with mtime := ⟨5, 7⟩ })
    ∧ (a1fs_getattr (state_of (a1fs_utimens img_f (cstr "/f") ⟨5, 7⟩ t0)) (cstr "/f")).2.st_mtim
        = ⟨5, 7⟩ :=
  have h1 : (a1fs_getattr img_f (cstr "/f")).1 = 0 := by decide!
  have h2 : path_lookup img_f (cstr "/f") false = 1 := by decide!
  ⟨h1, by decide,
    h2 ▸ (utimens_sets_mtime_only img_f (cstr "/f") ⟨5, 7⟩ t0 h1 (by decide)).1,
    by decide!⟩


/-- C20. For every image of `N` blocks with `0 ≤ N < 2^31` and every inode
count `I` with `1 ≤ I < 2^32`, with `ib = ceil(I / 32768)`,
`it = ceil(I * 64 / 4096)`, `remaining = N - 1 - ib - it` and
`db = ceil(remaining / 32768)`: `mkfs` returns `false` exactly when
`remaining ≤ 1` or `remaining - db ≤ 0`; when it returns `true` the superblock
has `blocks_count = N`, `inodes_count = I`, `free_inodes_count = I - 1`,
`inode_bitmap_blk = 1`, `data_bitmap_blk = 1 + ib`, `inode_table_blk = 1 + ib + db`,
`first_data_blk = 1 + ib + db + it` and
`data_blocks_count = free_data_blocks_count = remaining - db`. -/
theorem mkfs_layout_in_range (image : fs_ctx) (N I : Int) (h f z : Bool) (now : timespec)
    (hI : 1 ≤ I) (hI2 : I < 4294967296) (hN : 0 ≤ N) (hN2 : N < 2147483648) :
    let ib := ceil_div I 32768
    let it := ceil_div (I * 64) 4096
    let remaining := N - 1 - ib - it
    let db := ceil_div remaining 32768
    let r := mkfs image (N * 4096) ⟨I, h, f, z⟩ now
    (r.1 = false ↔ (remaining ≤ 1 ∨ remaining - db ≤ 0))
    ∧ (r.1 = true →
        r.2.sb.blocks_count = N ∧ r.2.sb.inodes_count = I
        ∧ r.2.sb.free_inodes_count = I - 1
        ∧ r.2.sb.inode_bitmap_blk = 1
        ∧ r.2.sb.data_bitmap_blk = 1 + ib
        ∧ r.2.sb.inode_table_blk = 1 + ib + db
        ∧ r.2.sb.first_data_blk = 1 + ib + db + it
        ∧ r.2.sb.data_blocks_count = remaining - db
        ∧ r.2.sb.free_data_blocks_count = remaining - db) := by
  intro ib it remaining db r
  have e1 : toUInt32 I = I := by unfold toUInt32; omega
  have e2 : toUInt64 (N * 4096) = N * 4096 := by unfold toUInt64; omega
  have e3 : div_round_up (N * 4096) 4096 = N := by
    rw [div_round_up_eq_ceil_div _ _ (by omega) (by decide)]; unfold ceil_div; omega
  have e4 : toUInt32 N = N := by unfold toUInt32; omega
  have e5 : div_round_up I 32768 = ib := div_round_up_eq_ceil_div _ _ (by omega) (by decide)
  have e6 : toUInt64 (I * 64) = I * 64 := by unfold toUInt64; omega
  have e7 : div_round_up (I * 64) 4096 = it := div_round_up_eq_ceil_div _ _ (by omega) (by decide)
  have hib : 1 ≤ ib ∧ ib ≤ 131072 := by
    simp only [ib, ceil_div]; omega
  have hit : 1 ≤ it ∧ it ≤ 67108864 := by
    simp only [it, ceil_div]; omega
  have e8 : toInt32 ib = ib := by unfold toInt32; omega
  have e9 : toInt32 it = it := by unfold toInt32; omega
  have e10 : toInt32 (N - 1 - ib - it) = remaining := by
    simp only [remaining]; unfold toInt32; omega
  have e11 : toUInt32 (I - 1) = I - 1 := by unfold toUInt32; omega
  have e0 : (4096 : Int) * 8 = 32768 := by norm_num
  by_cases hrem : remaining ≤ 1
  · simp only [r, mkfs, e0, e1, e2, e3, e4, e5, e6, e7, e8, e9, e10, e11, A1FS_BLOCK_SIZE,
      sizeof_a1fs_inode, if_pos hrem]
    simp [hrem]
  · have e12 : div_round_up remaining 32768 = db :=
      div_round_up_eq_ceil_div _ _ (by omega) (by decide)
    have hdb : 1 ≤ db ∧ db < remaining ∧ db ≤ 65536 := by
      simp only [db, ceil_div]; omega
    have e13 : toUInt32 (1 + ib) = 1 + ib := by unfold toUInt32; omega
    have e14 : toUInt32 (1 + ib + db) = 1 + ib + db := by unfold toUInt32; omega
    have e15 : toUInt32 (1 + ib + db + it) = 1 + ib + db + it := by unfold toUInt32; omega
    have e16 : toUInt32 (N - (1 + ib + db + it)) = remaining - db := by
      simp only [remaining]; unfold toUInt32; omega
    have e17 : toUInt32 (remaining - db) = remaining - db := by
      simp only [remaining] at hdb ⊢; unfold toUInt32; omega
    have e18 : toUInt64 (toUInt64 (1 + ib + db + it) * 4096) = (1 + ib + db + it) * 4096 := by
      simp only [remaining] at hdb; unfold toUInt64; omega
    have hsz : ¬ (N * 4096 ≤ (1 + ib + db + it) * 4096) := by
      simp only [remaining] at hdb; omega
    simp only [r, mkfs, e0, e1, e2, e3, e4, e5, e6, e7, e8, e9, e10, e11, e12, e13, e14, e15,
      e16, e17, e18, A1FS_BLOCK_SIZE, sizeof_a1fs_inode, if_neg hrem, if_neg hsz]
    refine ⟨?_, ?_⟩
    · simp only [Bool.true_eq_false, false_iff]
      omega
    · intro _
      simp

/-- C20, a witness: `mkfs -i 64` over an image of 256 blocks (1 MiB) succeeds,
the data region has 252 blocks from block 4 on, and `statfs` reports
`f_blocks = 256`, `f_files = 64`, `f_ffree = 63`. -/
theorem mkfs_layout_in_range_witness :
    fmt_64.1 = true
    ∧ fmt_64.2.sb.first_data_blk = 4
    ∧ fmt_64.2.sb.data_blocks_count = 252
    ∧ (a1fs_statfs fmt_64.2).2.f_blocks = 256
    ∧ (a1fs_statfs fmt_64.2).2.f_files = 64
    ∧ (a1fs_statfs fmt_64.2).2.f_ffree = 63 :=
  have h := mkfs_layout_in_range zero_image 256 64 false false false t0
    (by decide) (by decide) (by decide) (by decide)
  have h1 : fmt_64.1 = true := by decide!
  ⟨h1, (h.2 h1).2.2.2.2.2.2.1, (h.2 h1).2.2.2.2.2.2.2.1, by decide!, by decide!, by decide!⟩

/-- C20, a counterexample. `mkfs -i 4294967297` over an image of 256 blocks:
by the formula `it = ceil(I * 64 / 4096) = 67108865` and `remaining` is
negative, so the format fails; the formatter keeps the inode count modulo
`2^32`, which is 1, and succeeds with `inodes_count = 1`. -/
theorem c20_mkfs_inode_count_modulo :
    ceil_div (4294967297 * 64) 4096 = 67108865
    ∧ 256 - 1 - ceil_div 4294967297 32768 - ceil_div (4294967297 * 64) 4096 ≤ 1
    ∧ fmt_4G1.1 = true
    ∧ fmt_4G1.2.sb.inodes_count = 1
    ∧ fmt_4G1.2.sb.free_inodes_count = 0
    ∧ fmt_4G1.2.sb.data_blocks_count = 252 := by
  decide!

/-- C14. For every directory whose body is a dense array of `m = size / 256`
dentries: `readdir` calls the visitor with `.`, `..` and then the names of the
dentries `0, ..., m - 1` in that order, each once; it returns 0 when the
visitor accepts every name, and when the visitor rejects a name `readdir` stops
at that call and returns `-ENOMEM`. -/
theorem readdir_feeds_names_in_order {β : Type} (fs : fs_ctx) (path : List Nat) (buf : β)
    (filler : β → List Nat → Int × β)
    (hp : 0 ≤ path_lookup fs path false)
    (hd : dense_dir fs (get_ino fs (path_lookup fs path false))) :
    a1fs_readdir fs path buf filler
      = some (feed filler ([46] :: [46, 46]
          :: (List.range (dentries_count (get_ino fs (path_lookup fs path false)))).map
              (dentry_name fs (get_ino fs (path_lookup fs path false)))) buf) := by
  obtain ⟨d1, d2, d3, d4⟩ := hd
  have hm : 0 ≤ (get_ino fs (path_lookup fs path false)).size / sizeof_a1fs_dentry :=
    Int.ediv_nonneg d1 (by decide)
  have ht : toInt32 ((get_ino fs (path_lookup fs path false)).size / sizeof_a1fs_dentry)
      = (get_ino fs (path_lookup fs path false)).size / sizeof_a1fs_dentry := by
    unfold toInt32; omega
  unfold a1fs_readdir
  simp only [feed]
  by_cases h1 : (filler buf [46]).1 ≠ 0
  · simp only [if_pos h1]
  · simp only [if_neg h1]
    by_cases h2 : (filler (filler buf [46]).2 [46, 46]).1 ≠ 0
    · simp only [if_pos h2]
    · simp only [if_neg h2, if_neg (not_lt.mpr hp)]
      congr 1
      unfold traverse_exts_to_fill_name
      by_cases he : (get_ino fs (path_lookup fs path false)).extents_blk = -1
      · simp only [if_pos he, d4 he, List.range_zero, List.map_nil, feed]
      · simp only [if_neg he]
        rw [fill_name_in_blks_eq, ht, dir_slots_dense _ _ hm d3, List.map_map]
        rfl

/-- C14, a witness: after `mkdir("/a")`, `mkdir("/b")` and `mkdir("/a/c")`,
`readdir("/")` yields `.`, `..`, `a`, `b` and `readdir("/a")` yields `.`, `..`,
`c`; a visitor with room for three names makes `readdir("/")` return `-ENOMEM`
after `.`, `..`, `a`. -/
theorem readdir_feeds_names_in_order_witness :
    path_lookup img_a_b_c (cstr "/") false = 0
    ∧ dense_dir img_a_b_c (get_ino img_a_b_c 0)
    ∧ dentries_count (get_ino img_a_b_c 0) = 2
    ∧ a1fs_readdir img_a_b_c (cstr "/") [] record_name
        = some (0, [cstr ".", cstr "..", cstr "a", cstr "b"])
    ∧ a1fs_readdir img_a_b_c (cstr "/a") [] record_name
        = some (0, [cstr ".", cstr "..", cstr "c"])
    ∧ a1fs_readdir img_a_b_c (cstr "/") [] (record_name_up_to 3)
        = some (-ENOMEM, [cstr ".", cstr "..", cstr "a"]) :=
  have h0 : path_lookup img_a_b_c (cstr "/") false = 0 := by decide!
  have hd : dense_dir img_a_b_c (get_ino img_a_b_c 0) := by
    unfold dense_dir
    decide!
  ⟨h0, hd, by decide!,
    (readdir_feeds_names_in_order img_a_b_c (cstr "/") [] record_name (by decide!)
      (by unfold dense_dir; decide!)).trans (by decide!),
    (readdir_feeds_names_in_order img_a_b_c (cstr "/a") [] record_name (by decide!)
      (by unfold dense_dir; decide!)).trans (by decide!),
    (readdir_feeds_names_in_order img_a_b_c (cstr "/") [] (record_name_up_to 3) (by decide!)
      (by unfold dense_dir; decide!)).trans (by decide!)⟩

/-- C15. For every path shorter than `PATH_MAX` whose components are shorter
than the name array, with every inode in which a component is looked up a
directory with a dense array of dentries: `path_lookup` returns what `resolve`
finds, component by component from the root, empty components skipped: the
inode number in the dentry of the last component (0, the root, when there is no
component), and `-ENOENT` when a component is the name of no dentry of the
directory reached so far. -/
theorem path_lookup_resolves (fs : fs_ctx) (path : List Nat)
    (hl : path.length < A1FS_PATH_MAX) (hz : ∀ x ∈ path, x ≠ 0)
    (hc : ∀ c ∈ components path, c.length < A1FS_NAME_MAX)
    (hdirs : ∀ k ∈ lookup_dirs fs (strsep_all path) 0, good_dir fs (get_ino fs k)) :
    path_lookup fs path false
      = (match resolve fs (components path) 0 with
         | some n => n
         | none => -ENOENT) := by
  have htake : path.take A1FS_PATH_MAX = path := List.take_of_length_le (le_of_lt hl)
  unfold path_lookup
  simp only [htake, Bool.false_eq_true, if_false]
  apply path_lookup_loop_resolve fs (strsep_all path) 0 0 _ hdirs
  intro t ht
  refine ⟨fun x hx => hz x (mem_strsep_all path t ht x hx), ?_⟩
  by_cases hte : t = []
  · subst hte; decide
  · apply hc
    simp [components, ht, hte]

/-- C15, a witness: after `mkdir("/a")`, `mkdir("/b")` and `mkdir("/a/c")` the
path `//a///c/` resolves to inode 3, the inode number in the dentry `c` of
`/a`; `/a/x` gives `-ENOENT`, and `/` the root. -/
theorem path_lookup_resolves_witness :
    components (cstr "//a///c/") = [cstr "a", cstr "c"]
    ∧ lookup_dirs img_a_b_c (strsep_all (cstr "//a///c/")) 0 = [0, 1]
    ∧ good_dir img_a_b_c (get_ino img_a_b_c 0)
    ∧ good_dir img_a_b_c (get_ino img_a_b_c 1)
    ∧ dir_lookup img_a_b_c (get_ino img_a_b_c 1) (cstr "c") = some 3
    ∧ path_lookup img_a_b_c (cstr "//a///c/") false = 3
    ∧ path_lookup img_a_b_c (cstr "/a/x") false = -ENOENT
    ∧ path_lookup img_a_b_c (cstr "/") false = 0 :=
  have g0 : good_dir img_a_b_c (get_ino img_a_b_c 0) := by
    unfold good_dir dense_dir
    decide!
  have g1 : good_dir img_a_b_c (get_ino img_a_b_c 1) := by
    unfold good_dir dense_dir
    decide!
  have l1 : lookup_dirs img_a_b_c (strsep_all (cstr "//a///c/")) 0 = [0, 1] := by decide!
  have l2 : lookup_dirs img_a_b_c (strsep_all (cstr "/a/x")) 0 = [0, 1] := by decide!
  have l3 : lookup_dirs img_a_b_c (strsep_all (cstr "/")) 0 = [] := by decide!
  have h01 : ∀ k ∈ [(0 : Int), 1], good_dir img_a_b_c (get_ino img_a_b_c k) := by
    intro k hk
    simp only [List.mem_cons, List.mem_singleton, List.not_mem_nil, or_false] at hk
    rcases hk with rfl | rfl
    · exact g0
    · exact g1
  ⟨by decide!, l1, g0, g1, by decide!,
    (path_lookup_resolves img_a_b_c (cstr "//a///c/") (by decide) (by decide) (by decide!)
      (l1 ▸ h01)).trans (by decide!),
    (path_lookup_resolves img_a_b_c (cstr "/a/x") (by decide) (by decide) (by decide!)
      (l2 ▸ h01)).trans (by decide!),
    (path_lookup_resolves img_a_b_c (cstr "/") (by decide) (by decide) (by decide!)
      (l3 ▸ (fun _ hk => absurd hk (List.not_mem_nil _)))).trans (by decide!)⟩

/-- C22, at the failing input. After `create("/f")`, `truncate("/f", 4096)` and
`write("/f", "Z", 1, 0)`, which returns 1, five of the 251 data-bitmap bits are
set but `free_data_blocks_count` is 247, not `251 - 5 = 246`. -/
theorem c22_free_count_after_overwrite :
    ret_of (a1fs_create img128 (cstr "/f") file_mode t0) = some 0
    ∧ ret_of (a1fs_truncate img_f (cstr "/f") 4096 t0) = some 0
    ∧ img_f_4096.sb.free_data_blocks_count
        = img_f_4096.sb.data_blocks_count - count_set img_f_4096.data_bitmap 251
    ∧ ret_of (a1fs_write img_f_4096 (cstr "/f") (cstr "Z") 0 t0) = some 1
    ∧ img_f_4096_Z.sb.data_blocks_count = 251
    ∧ count_set img_f_4096_Z.data_bitmap 251 = 5
    ∧ img_f_4096_Z.sb.free_data_blocks_count = 247 := by
  decide!

/-- C23, at the failing input. The new file `/f` on an image with 1018 free data
blocks, all in one run from block 3 on: `truncate("/f", 513 * 4096)` returns
`-ENOSPC`, although the file has no extent yet and a run of 513 free blocks
exists; `truncate("/f", 512 * 4096)` returns 0. -/
theorem c23_extend_by_513_blocks_fails :
    ret_of (a1fs_create img1024 (cstr "/f") file_mode t0) = some 0
    ∧ (get_ino img1024_f 1).extents_count = 0
    ∧ img1024_f.sb.free_data_blocks_count = 1018
    ∧ find_contiguous_dbs_start_from_index (initialize_ext_blk_for_ino img1024_f 1).2 3 513 = 3
    ∧ ret_of (extend_file img1024_f 1 (513 * 4096) t0) = some (-ENOSPC)
    ∧ ret_of (a1fs_truncate img1024_f (cstr "/f") (513 * 4096) t0) = some (-ENOSPC)
    ∧ ret_of (a1fs_truncate img1024_f (cstr "/f") (512 * 4096) t0) = some 0 := by
  decide!

/-- C25, at the failing input. After `create("/f")`, `truncate("/f", 4096)` and
`write("/f", "Z", 1, 0)` the inode of `/f` has an extent block and three
extents with counts 1, `2^32 - 1` and 1, and `used_blocks_count = 2`. -/
theorem c25_used_blocks_after_overwrite :
    ret_of (a1fs_write img_f_4096 (cstr "/f") (cstr "Z") 0 t0) = some 1
    ∧ bit_is_set img_f_4096_Z.inode_bitmap 1 = true
    ∧ (get_ino img_f_4096_Z 1).extents_blk = 2
    ∧ (get_ino img_f_4096_Z 1).extents_count = 3
    ∧ (List.range 3).map (fun (i : Nat) => (load_extent img_f_4096_Z (get_ino img_f_4096_Z 1) i).count)
        = [1, 4294967295, 1]
    ∧ 1 + extent_counts_sum img_f_4096_Z (get_ino img_f_4096_Z 1) 3 = 4294967298
    ∧ (get_ino img_f_4096_Z 1).used_blocks_count = 2 := by
  decide!

/-- C26, at the failing input. After `create("/f")` the call
`truncate("/f", 2000000)` returns `-ENOSPC` and leaves the inode of `/f` with an
extent block (block 2) and no extent. -/
theorem c26_extent_block_without_extent :
    ret_of (a1fs_create img128 (cstr "/f") file_mode t0) = some 0
    ∧ ret_of (a1fs_truncate img_f (cstr "/f") 2000000 t0) = some (-ENOSPC)
    ∧ (get_ino img_f_2M 1).extents_blk = 2
    ∧ (get_ino img_f_2M 1).extents_count = 0 := by
  decide!

/-- C27, at the failing input. On a bitmap of capacity 3 whose bits 0, 1 and 2
are set, `allocate_bit` returns 3, an index that is not below the capacity, and
sets that bit, instead of returning `-ENOSPC`. -/
theorem c27_allocate_bit_beyond_capacity :
    (∀ k : Nat, k < 3 → bit_is_set bitmap_3_full k = true)
    ∧ (allocate_bit bitmap_3_full 3).1 = 3
    ∧ (allocate_bit bitmap_3_full 3).2 0 = 240 := by
  decide!

/-- C28, at the failing input. On the new image with 251 data blocks, all free,
the search from 250 for 2 blocks returns 250: the run `[250, 252)` ends beyond
the capacity. The search from 251 for 1 block returns 251. -/
theorem c28_run_beyond_capacity :
    img128.sb.data_blocks_count = 251
    ∧ img128.sb.free_data_blocks_count = 251
    ∧ find_contiguous_dbs_start_from_index img128 250 2 = 250
    ∧ find_contiguous_dbs_start_from_index img128 251 1 = 251 := by
  decide!

/-- C29, at the failing input. On the image with 1018 free data blocks of 1020
after `create("/f")`, the search from 1019 for 2 blocks returns 1019, which is
not the start of a run inside `[0, 1020)`; the first such run in the order
1019, 0, 1, 2, ... starts at 2. -/
theorem c29_first_run_in_order :
    img1024_f.sb.data_blocks_count = 1020
    ∧ img1024_f.sb.free_data_blocks_count = 1018
    ∧ (List.range 4).map (fun (k : Nat) => bit_is_set img1024_f.data_bitmap k)
        = [true, true, false, false]
    ∧ bit_is_set img1024_f.data_bitmap 1019 = false
    ∧ find_contiguous_dbs_start_from_index img1024_f 1019 2 = 1019 := by
  decide!

/-- C30, at the failing input. The file `/f` of 12288 bytes has the blocks 3, 4
and 5. For the offset 5000 the pointer is the start of block 4 plus 5000, not
plus `5000 mod 4096 = 904`; for the offsets 100 and 4096 it is as claimed. -/
theorem c30_pointer_past_first_block :
    ino_blocks img_f_12288 (get_ino img_f_12288 1) = [3, 4, 5]
    ∧ get_ptr_to_byte_in_file img_f_12288 (get_ino img_f_12288 1) 5000 = some (get_db 4 + 5000)
    ∧ get_db 4 + 5000 ≠ get_db 4 + 904
    ∧ get_ptr_to_byte_in_file img_f_12288 (get_ino img_f_12288 1) 100 = some (get_db 3 + 100)
    ∧ get_ptr_to_byte_in_file img_f_12288 (get_ino img_f_12288 1) 4096 = some (get_db 3 + 4096) := by
  decide!

/-- The formatter within the range of the 32-bit fields. For every image of
`N` blocks with `0 ≤ N < 2^31` and every inode count `I` with
`1 ≤ I < 2^32`: when `mkfs` returns `true`, the mount check
accepts the image, the magic is `A1FS_MAGIC`, byte 0 of the inode bitmap is
`0x80` and every other bit of the inode bitmap blocks is clear, every bit of
the data bitmap blocks is clear, inode 0 has mode `S_IFDIR | 0777`, 2 links,
size 0, the time of the call, index 0, no used block, `extents_blk = -1` and no
extent, and the free counters are the capacities minus the numbers of set bits
below the capacities. -/
theorem mkfs_makes_empty_file_system (image : fs_ctx) (N I : Int) (h f z : Bool)
    (now : timespec)
    (hI : 1 ≤ I) (hI2 : I < 4294967296) (hN : 0 ≤ N) (hN2 : N < 2147483648)
    (hok : (mkfs image (N * 4096) ⟨I, h, f, z⟩ now).1 = true) :
    fs_ctx_init (mkfs image (N * 4096) ⟨I, h, f, z⟩ now).2 = true
    ∧ (mkfs image (N * 4096) ⟨I, h, f, z⟩ now).2.sb.magic = A1FS_MAGIC
    ∧ (mkfs image (N * 4096) ⟨I, h, f, z⟩ now).2.inode_bitmap 0 = 128
    ∧ bit_is_set (mkfs image (N * 4096) ⟨I, h, f, z⟩ now).2.inode_bitmap 0 = true
    ∧ (∀ k : Nat, 0 < k → (k : Int) < ceil_div I 32768 * 32768 →
        bit_is_set (mkfs image (N * 4096) ⟨I, h, f, z⟩ now).2.inode_bitmap k = false)
    ∧ (∀ k : Nat, (k : Int) < ceil_div (N - 1 - ceil_div I 32768 - ceil_div (I * 64) 4096) 32768
          * 32768 →
        bit_is_set (mkfs image (N * 4096) ⟨I, h, f, z⟩ now).2.data_bitmap k = false)
    ∧ get_ino (mkfs image (N * 4096) ⟨I, h, f, z⟩ now).2 0
        = ⟨S_IFDIR ||| 0o777, 2, 0, now, 0, 0, -1, 0⟩
    ∧ (mkfs image (N * 4096) ⟨I, h, f, z⟩ now).2.sb.free_inodes_count
        = (mkfs image (N * 4096) ⟨I, h, f, z⟩ now).2.sb.inodes_count
          - count_set (mkfs image (N * 4096) ⟨I, h, f, z⟩ now).2.inode_bitmap
              (mkfs image (N * 4096) ⟨I, h, f, z⟩ now).2.sb.inodes_count.toNat
    ∧ (mkfs image (N * 4096) ⟨I, h, f, z⟩ now).2.sb.free_data_blocks_count
        = (mkfs image (N * 4096) ⟨I, h, f, z⟩ now).2.sb.data_blocks_count
          - count_set (mkfs image (N * 4096) ⟨I, h, f, z⟩ now).2.data_bitmap
              (mkfs image (N * 4096) ⟨I, h, f, z⟩ now).2.sb.data_blocks_count.toNat := by
  have hrem : ¬ (N - 1 - ceil_div I 32768 - ceil_div (I * 64) 4096 ≤ 1) := by
    intro hle
    rw [mkfs_fails_of_no_room image N I h f z now hI hI2 hN hN2 hle] at hok
    exact absurd hok (by decide)
  rw [mkfs_eq_of_in_range image N I h f z now hI hI2 hN hN2 hrem]
  generalize ceil_div (I * 64) 4096 = it at hrem ⊢
  have hibr : 1 ≤ ceil_div I 32768 ∧ I ≤ ceil_div I 32768 * 32768 := by
    simp only [ceil_div]; omega
  generalize ceil_div I 32768 = ib at hrem hibr ⊢
  have hdbr : 1 ≤ ceil_div (N - 1 - ib - it) 32768
      ∧ ceil_div (N - 1 - ib - it) 32768 < N - 1 - ib - it := by
    simp only [ceil_div]; omega
  have hcov : N - 1 - ib - it ≤ ceil_div (N - 1 - ib - it) 32768 * 32768 := by
    simp only [ceil_div]; omega
  generalize ceil_div (N - 1 - ib - it) 32768 = db at hdbr hcov ⊢
  have hb0 : bit_is_set (fun k : Int => if k = 0 then 128 else memset0 image.inode_bitmap 0
      (ib * 4096) k) 0 = true := by
    unfold bit_is_set
    have e : ((0 : Int) / 8) = 0 := by decide
    simp only [e, if_true]
    decide
  have hbi : ∀ k : Nat, 0 < k → (k : Int) < ib * 32768 →
      bit_is_set (fun k : Int => if k = 0 then 128 else memset0 image.inode_bitmap 0
        (ib * 4096) k) k = false := by
    intro k h0 hk
    by_cases h8 : (k : Int) < 8
    · exact bit_is_set_of_byte_128 _ _ (by omega) h8 (by simp)
    · apply bit_is_set_of_byte_zero
      have hne : ¬ ((k : Int) / 8 = 0) := by omega
      simp only [if_neg hne, memset0]
      rw [if_pos (by omega)]
  have hbd : ∀ k : Nat, (k : Int) < db * 32768 →
      bit_is_set (memset0 image.data_bitmap 0 (db * 4096)) k = false := by
    intro k hk
    apply bit_is_set_of_byte_zero
    simp only [memset0]
    rw [if_pos (by omega)]
  simp only []
  refine ⟨by simp [fs_ctx_init], trivial, by simp, hb0, hbi, hbd, by simp [get_ino], ?_, ?_⟩
  · rw [count_set_eq_one _ _ (by omega) hb0 (fun k h0 hk => hbi k h0 (by omega))]
    rfl
  · rw [count_set_eq_zero _ _ (fun k hk => hbd k (by omega))]
    simp

/-- An instance of `mkfs_makes_empty_file_system`: `mkfs -i 128` over a
zero-filled image of 256 blocks. -/
theorem mkfs_makes_empty_file_system_witness :
    (mkfs zero_image (256 * 4096) ⟨128, false, false, false⟩ t0).1 = true
    ∧ fs_ctx_init (mkfs zero_image (256 * 4096) ⟨128, false, false, false⟩ t0).2 = true
    ∧ (mkfs zero_image (256 * 4096) ⟨128, false, false, false⟩ t0).2.inode_bitmap 0 = 128
    ∧ get_ino (mkfs zero_image (256 * 4096) ⟨128, false, false, false⟩ t0).2 0
        = ⟨S_IFDIR ||| 0o777, 2, 0, t0, 0, 0, -1, 0⟩
    ∧ count_set img128.inode_bitmap 128 = 1
    ∧ img128.sb.free_inodes_count = 127
    ∧ count_set img128.data_bitmap 251 = 0
    ∧ img128.sb.free_data_blocks_count = 251 :=
  have hok : (mkfs zero_image (256 * 4096) ⟨128, false, false, false⟩ t0).1 = true := by decide!
  have h := mkfs_makes_empty_file_system zero_image 256 128 false false false t0
    (by decide) (by decide) (by decide) (by decide) hok
  ⟨hok, h.1, h.2.2.1, h.2.2.2.2.2.2.1, by decide!, by decide!, by decide!, by decide!⟩

/-- C21, at the failing input. `mkfs -i 4294967296` (`2^32` inodes, which
`parse_args` accepts because the number is not 0) over a zero-filled image of
256 blocks succeeds and the mount check accepts the result, with
`inodes_count = 0` and `free_inodes_count = 2^32 - 1`: the free counter is not
the capacity minus a number of set bits, and no block is left for the inode
bitmap and the inode table (`inode_bitmap_blk = data_bitmap_blk`,
`inode_table_blk = first_data_blk`), so that inode 0 is not in the table. -/
theorem c21_mkfs_with_zero_inodes :
    fmt_4G.1 = true
    ∧ fs_ctx_init fmt_4G.2 = true
    ∧ fmt_4G.2.sb.inodes_count = 0
    ∧ fmt_4G.2.sb.free_inodes_count = 4294967295
    ∧ fmt_4G.2.sb.inode_bitmap_blk = fmt_4G.2.sb.data_bitmap_blk
    ∧ fmt_4G.2.sb.inode_table_blk = fmt_4G.2.sb.first_data_blk := by
  decide!

/-- C31, the failing inputs. For every directory of 4096 bytes or more and
every block `db`, `add_to_dentries_blk_for_ino` changes no byte of
`db`: it writes the dentry at slot `size / 256` of `db`, which is 16 or more.
In the root directory with sixteen files, whose next free slot is slot 0 of the
new block 2, the call for `(17, "q")` leaves the 4096 bytes of block 2 zero and
writes the dentry at slot 0 of block 3; the size goes from 4096 to 4352. -/
theorem c31_append_writes_past_block :
    (∀ (fs : fs_ctx) (par db ino : Int) (name : List Nat),
      4096 ≤ (get_ino fs par).size →
      ∀ a, get_db db ≤ a → a < get_db db + A1FS_BLOCK_SIZE →
        (add_to_dentries_blk_for_ino fs par db ino name).data a = fs.data a)
    ∧ (get_ino img_16_before_append 0).size = 4096
    ∧ find_contiguous_dbs_start_from_index (allocate_ino (create_files img128 16) file_mode 1 t0).2
        (get_last_data_blk_no (create_files img128 16) (get_ino (create_files img128 16) 0) + 1) 1
        = 2
    ∧ (get_ino img_16_appended 0).size = 4352
    ∧ load_bytes img_16_appended.data (get_db 2) 4096 = List.replicate 4096 0
    ∧ load_u32 img_16_appended.data (get_db 3) = 17
    ∧ load_cstr img_16_appended.data (get_db 3 + 4) A1FS_NAME_MAX = cstr "q"
    ∧ load_u32 img_16_before_append.data (get_db 3) = 0 := by
  refine ⟨?_, by decide!, by decide!, by decide!, by decide!, by decide!, by decide!,
    by decide!⟩
  intro fs par db ino name hs a h1 h2
  unfold add_to_dentries_blk_for_ino
  show strncpy (store_u32 fs.data _ ino) _ name A1FS_NAME_MAX a = fs.data a
  have hq : 16 ≤ (get_ino fs par).size / sizeof_a1fs_dentry := by
    simp only [sizeof_a1fs_dentry]
    omega
  rw [strncpy_frame _ _ _ _ _ (by
      simp only [sizeof_a1fs_dentry, A1FS_BLOCK_SIZE, A1FS_NAME_MAX] at *
      omega),
    store_u32_frame _ _ _ _ (by
      simp only [sizeof_a1fs_dentry, A1FS_BLOCK_SIZE] at *
      omega)]

/-- C32, the failing inputs. For every directory that is not empty and every
name, `traverse_exts_to_replace_dentry` takes 256 off the size of the
directory, whether a dentry has the name or not. -/
theorem c32_remove_takes_256_off_for_every_name (fs : fs_ctx) (par : Int) (name : List Nat)
    (hs : (get_ino fs par).size ≠ 0) :
    (get_ino (traverse_exts_to_replace_dentry fs par name) par).size
      = toUInt64 ((get_ino fs par).size - sizeof_a1fs_dentry) := by
  obtain ⟨d, hd⟩ := replace_dentry_in_exts_set_data par name
    (toInt32 (get_ino fs par).extents_count).toNat 0 fs
    (toInt32 ((get_ino fs par).size / sizeof_a1fs_dentry))
  unfold traverse_exts_to_replace_dentry
  simp only [if_neg hs, hd, get_ino_set_ino]
  rfl

/-- C32, an instance. The root directory of `img_a` has the one dentry `a`.
`traverse_exts_to_replace_dentry` for the name `zz`, which no dentry has, sets
the size of the directory to 0; the bytes of the dentry stay, but `/a` no longer
resolves. -/
theorem c32_remove_takes_256_off_for_every_name_witness :
    dentries_count (get_ino img_a 0) = 1
    ∧ dentry_name img_a (get_ino img_a 0) 0 = cstr "a"
    ∧ (get_ino img_a 0).size = 256
    ∧ path_lookup img_a (cstr "/a") false = 1
    ∧ (get_ino (traverse_exts_to_replace_dentry img_a 0 (cstr "zz")) 0).size
        = toUInt64 ((get_ino img_a 0).size - sizeof_a1fs_dentry)
    ∧ toUInt64 ((get_ino img_a 0).size - sizeof_a1fs_dentry) = 0
    ∧ dentry_name (traverse_exts_to_replace_dentry img_a 0 (cstr "zz"))
        (get_ino img_a 0) 0 = cstr "a"
    ∧ path_lookup (traverse_exts_to_replace_dentry img_a 0 (cstr "zz")) (cstr "/a") false
        = -ENOENT :=
  ⟨by decide!, by decide!, by decide!, by decide!,
    c32_remove_takes_256_off_for_every_name img_a 0 (cstr "zz") (by decide!),
    by decide!, by decide!, by decide!⟩

/-- C33. In a directory that is a `wf_dir` (a dense array of `m` dentries with
pairwise different names in pairwise different blocks), for every `i < m` whose
name ends inside the name array, `traverse_exts_to_replace_dentry` for the name
of dentry `i` takes exactly 256 off the size, so that `m - 1` dentries are left,
and each slot `j < m - 1` holds afterwards, inode number and name, the old
dentry `j`, except slot `i`, which holds the old dentry `m - 1`. -/
theorem remove_swaps_with_last (fs : fs_ctx) (par : Int) (i : Nat)
    (hw : wf_dir fs (get_ino fs par))
    (hi : i < dentries_count (get_ino fs par))
    (hlen : (dentry_name fs (get_ino fs par) i).length < A1FS_NAME_MAX) :
    (get_ino (traverse_exts_to_replace_dentry fs par (dentry_name fs (get_ino fs par) i))
        par).size = (get_ino fs par).size - sizeof_a1fs_dentry
    ∧ dentries_count (get_ino
          (traverse_exts_to_replace_dentry fs par (dentry_name fs (get_ino fs par) i)) par)
        = dentries_count (get_ino fs par) - 1
    ∧ ∀ j, j < dentries_count (get_ino fs par) - 1 →
        dentry_name (traverse_exts_to_replace_dentry fs par (dentry_name fs (get_ino fs par) i))
            (get_ino (traverse_exts_to_replace_dentry fs par
              (dentry_name fs (get_ino fs par) i)) par) j
          = dentry_name fs (get_ino fs par)
              (if j = i then dentries_count (get_ino fs par) - 1 else j)
        ∧ dentry_ino (traverse_exts_to_replace_dentry fs par (dentry_name fs (get_ino fs par) i))
            (get_ino (traverse_exts_to_replace_dentry fs par
              (dentry_name fs (get_ino fs par) i)) par) j
          = dentry_ino fs (get_ino fs par)
              (if j = i then dentries_count (get_ino fs par) - 1 else j) := by
  have hm : 0 < dentries_count (get_ino fs par) := by omega
  have hz : ∀ x ∈ dentry_name fs (get_ino fs par) i, x ≠ 0 := by
    intro x hx
    exact load_cstr_ne_zero _ _ _ x hx
  obtain ⟨hs64, hq, _⟩ := wf_dir_toUInt64_size fs (get_ino fs par) hw hm
  have htr := traverse_exts_to_replace_dentry_wf fs par _ i hw hi rfl hz hlen
  have ha := after_replace_set_size fs par i (dentries_count (get_ino fs par) - 1)
    (toUInt64 ((get_ino fs par).size - sizeof_a1fs_dentry))
  rw [← htr] at ha
  have hsz : (get_ino (traverse_exts_to_replace_dentry fs par
      (dentry_name fs (get_ino fs par) i)) par).size
      = (get_ino fs par).size - sizeof_a1fs_dentry := by
    rw [htr, hs64]
    simp [set_size, get_ino, set_ino]
  have hblocks := after_replace_ino_blocks fs _ hw i _ hi par _ ha
  have hdata := ha.1
  generalize traverse_exts_to_replace_dentry fs par (dentry_name fs (get_ino fs par) i) = g
    at hsz hblocks hdata
  refine ⟨hsz, ?_, ?_⟩
  · have e : dentries_count (get_ino g par)
        = (((get_ino fs par).size - sizeof_a1fs_dentry) / sizeof_a1fs_dentry).toNat := by
      unfold dentries_count
      rw [hsz]
    rw [e, hq, Int.toNat_ofNat]
  · intro j hj
    have hp : dentry_ptr g (get_ino g par) j = dentry_ptr fs (get_ino fs par) j := by
      unfold dentry_ptr
      rw [hblocks]
    obtain ⟨a1, a2⟩ := dentries_after_replaced fs (get_ino fs par) hw i j hi (by omega)
    constructor
    · unfold dentry_name
      rw [hp, hdata]
      exact a1
    · unfold dentry_ino
      rw [hp, hdata]
      exact a2

/-- C33, an instance: the root directory of `img_a_b` holds the dentries `a`
(inode 1) and `b` (inode 2); after the removal of `a` it holds the one dentry
`b` (inode 2) in slot 0 and its size is 256. -/
theorem remove_swaps_with_last_witness :
    wf_dir img_a_b (get_ino img_a_b 0)
    ∧ dentries_count (get_ino img_a_b 0) = 2
    ∧ dentry_name img_a_b (get_ino img_a_b 0) 0 = cstr "a"
    ∧ dentry_name img_a_b (get_ino img_a_b 0) 1 = cstr "b"
    ∧ dentry_ino img_a_b (get_ino img_a_b 0) 1 = 2
    ∧ (get_ino (traverse_exts_to_replace_dentry img_a_b 0 (cstr "a")) 0).size = 256
    ∧ dentry_name (traverse_exts_to_replace_dentry img_a_b 0 (cstr "a"))
        (get_ino (traverse_exts_to_replace_dentry img_a_b 0 (cstr "a")) 0) 0 = cstr "b"
    ∧ dentry_ino (traverse_exts_to_replace_dentry img_a_b 0 (cstr "a"))
        (get_ino (traverse_exts_to_replace_dentry img_a_b 0 (cstr "a")) 0) 0 = 2
    ∧ ((get_ino (traverse_exts_to_replace_dentry img_a_b 0
          (dentry_name img_a_b (get_ino img_a_b 0) 0)) 0).size
        = (get_ino img_a_b 0).size - sizeof_a1fs_dentry
      ∧ dentries_count (get_ino (traverse_exts_to_replace_dentry img_a_b 0
            (dentry_name img_a_b (get_ino img_a_b 0) 0)) 0)
          = dentries_count (get_ino img_a_b 0) - 1
      ∧ ∀ j, j < dentries_count (get_ino img_a_b 0) - 1 →
          dentry_name (traverse_exts_to_replace_dentry img_a_b 0
              (dentry_name img_a_b (get_ino img_a_b 0) 0))
              (get_ino (traverse_exts_to_replace_dentry img_a_b 0
                (dentry_name img_a_b (get_ino img_a_b 0) 0)) 0) j
            = dentry_name img_a_b (get_ino img_a_b 0)
                (if j = 0 then dentries_count (get_ino img_a_b 0) - 1 else j)
          ∧ dentry_ino (traverse_exts_to_replace_dentry img_a_b 0
              (dentry_name img_a_b (get_ino img_a_b 0) 0))
              (get_ino (traverse_exts_to_replace_dentry img_a_b 0
                (dentry_name img_a_b (get_ino img_a_b 0) 0)) 0) j
            = dentry_ino img_a_b (get_ino img_a_b 0)
                (if j = 0 then dentries_count (get_ino img_a_b 0) - 1 else j)) :=
  have hm : dentries_count (get_ino img_a_b 0) = 2 := by decide!
  have hn : (get_ino img_a_b 0).extents_count = 1 := by decide!
  have hnames : ∀ i, i < 2 → ∀ j, j < 2 →
      dentry_name img_a_b (get_ino img_a_b 0) i = dentry_name img_a_b (get_ino img_a_b 0) j →
      i = j := by decide!
  have hw : wf_dir img_a_b (get_ino img_a_b 0) := by
    unfold wf_dir good_dir dense_dir
    refine ⟨by decide!, by decide!, ?_, by decide!, by decide!, by decide!, by decide!, ?_⟩
    · intro i j hi hj h
      rw [hm] at hi hj
      exact hnames i hi j hj h
    · intro i h0 h1
      rw [hn] at h1
      have : i = 0 := by omega
      subst this
      decide!
  ⟨hw, hm, by decide!, by decide!, by decide!, by decide!, by decide!, by decide!,
    remove_swaps_with_last img_a_b 0 0 hw (by rw [hm]; decide) (by decide!)⟩

/-- C34, at the failing input. The file `/f` has 4096 bytes in one block;
`write("/f", "Z", 1, 0)` has `offset <= size`. The byte count of its first call
of `extend_file` is `0 - 4096 = -4096`; that call returns 0, sets the size to
0, appends a second extent, lowers `used_blocks_count` from 2 to 1 and raises
`free_data_blocks_count` from 247 to 248. The write returns 1 and the file ends
with size 1, not `4096 + 1`. -/
theorem c34_write_below_size_extends_by_negative :
    (get_ino img_f_4096 1).size = 4096
    ∧ path_lookup img_f_4096 (cstr "/f") false = 1
    ∧ toInt32 (0 - (get_ino img_f_4096 1).size) = -4096
    ∧ ret_of (extend_file img_f_4096 1 (-4096) t0) = some 0
    ∧ (get_ino img_f_4096_hole 1).size = 0
    ∧ (get_ino img_f_4096 1).extents_count = 1
    ∧ (get_ino img_f_4096_hole 1).extents_count = 2
    ∧ (get_ino img_f_4096 1).used_blocks_count = 2
    ∧ (get_ino img_f_4096_hole 1).used_blocks_count = 1
    ∧ img_f_4096.sb.free_data_blocks_count = 247
    ∧ img_f_4096_hole.sb.free_data_blocks_count = 248
    ∧ ret_of (a1fs_write img_f_4096 (cstr "/f") (cstr "Z") 0 t0) = some 1
    ∧ (get_ino (state_of (a1fs_write img_f_4096 (cstr "/f") (cstr "Z") 0 t0)) 1).size = 1 := by
  decide!

/-- C35, at the failing input. On `img20_full_x` every data block is in use, the
directory `/x` has no extent block and inode 6 is free. `mkdir("/x/y")` and
`create("/x/f")` return `-ENOSPC`; after either the bit of inode 6 is set in
the inode bitmap and `free_inodes_count` is 1 instead of 2, and the path does
not resolve. -/
theorem c35_failed_mkdir_and_create_keep_inode :
    (a1fs_mkdir img20_full (cstr "/x") 0o755 t0).1 = 0
    ∧ img20_full_x.sb.free_data_blocks_count = 0
    ∧ img20_full_x.sb.free_inodes_count = 2
    ∧ bit_is_set img20_full_x.inode_bitmap 6 = false
    ∧ (get_ino img20_full_x (path_lookup img20_full_x (cstr "/x") false)).extents_blk = -1
    ∧ (a1fs_mkdir img20_full_x (cstr "/x/y") 0o755 t0).1 = -ENOSPC
    ∧ bit_is_set img20_full_x_y.inode_bitmap 6 = true
    ∧ img20_full_x_y.sb.free_inodes_count = 1
    ∧ path_lookup img20_full_x_y (cstr "/x/y") false = -ENOENT
    ∧ ret_of (a1fs_create img20_full_x (cstr "/x/f") file_mode t0) = some (-ENOSPC)
    ∧ bit_is_set img20_full_x_f.inode_bitmap 6 = true
    ∧ img20_full_x_f.sb.free_inodes_count = 1
    ∧ path_lookup img20_full_x_f (cstr "/x/f") false = -ENOENT := by
  decide!

/-- C36, the failing inputs. Whatever `mkfs` returns, the image carries the
magic afterwards and passes the check of `fs_ctx_init`. For the zero-filled
image of two blocks and `-i 1`, which does not pass the check, `mkfs` returns
`false`; `magic`, `size`, `inodes_count`, `blocks_count`, `inode_size` and
`used_dirs_count` of the superblock have been written. -/
theorem c36_rejected_image_carries_magic :
    (∀ (image : fs_ctx) (size : Int) (opts : mkfs_opts) (now : timespec),
      fs_ctx_init (mkfs image size opts now).2 = true)
    ∧ fs_ctx_init zero_image = false
    ∧ (mkfs zero_image (2 * 4096) ⟨1, false, false, false⟩ t0).1 = false
    ∧ (mkfs zero_image (2 * 4096) ⟨1, false, false, false⟩ t0).2.sb
        = { zero_image.sb with
            magic := A1FS_MAGIC, size := 8192, inodes_count := 1, blocks_count := 2, inode_size := sizeof_a1fs_inode, used_dirs_count := 1 }
    ∧ fs_ctx_init (mkfs zero_image (2 * 4096) ⟨1, false, false, false⟩ t0).2 = true := by
  refine ⟨?_, by decide!, by decide!, by decide!, by decide!⟩
  intro image size opts now
  unfold fs_ctx_init mkfs
  simp only []
  split_ifs <;> simp

end A1FS
